import Mathlib

/-!
# Boundary exchange of the MPI engine (FDTD/engine_mpi.cpp)

A shallow embedding of `Engine_MPI`: the buffer lifecycle (`Init`, `Reset`),
the two boundary exchanges (`SendReceiveVoltages`, `SendReceiveCurrents`) and
the time-step driver (`IterateTS`), followed by the properties proved of them.

Conventions of the embedding:

* `unsigned int` values are natural numbers; the arithmetic of the source that
  can wrap (`numLines[0]*numLines[1]`, `m_BufferSize[n]*3`, `m_BufferSize[n]*2`,
  `numLines[n]-1`, `++numTS`) is reduced modulo `UINT_MOD`.  The counter `iPos`
  and the loop variables are not reduced: a loop variable stays below an
  `unsigned int` bound, and `iPos` never passes the length of a buffer it has
  indexed, which `new float[unsigned int]` keeps below `UINT_MOD`.
* a `float*` member is an `Option (List α)`: `none` is the NULL pointer,
  `some b` an allocation holding `b.length` floats.  Field samples are only
  copied, never computed with, so the sample type `α` is a parameter; the
  concrete runs use the bit pattern of a float.
* a call whose behaviour is undefined in C++ (dereferencing NULL, indexing past
  an allocation) or at which the substrate aborts yields `none`.
* every call returns, next to the new state, the sequence of observable events
  it performed (field-store accesses, substrate calls, phases of a time step).
* the engine member `numLines` is the copy of the operator's `numLines` made by
  the base-class constructor, so one `numLines` is kept, in `Operator_MPI`.
* the base engine `Engine_SSE_Compressed` and the message-passing library are
  outside the file; what is used of them is modelled from the specification.
-/

namespace OpenEMS

/-- Modulus of the C type unsigned int (32 bits). -/
def UINT_MOD : Nat := 4294967296

/-- Number of non-negative values of the C type int: a count above it does not convert. -/
def INT_LIMIT : Nat := 2147483648

/-- Grid coordinate, the array pos[0], pos[1], pos[2]. -/
abbrev Pos := Nat × Nat × Nat

/-- Assignment pos[n] = v. -/
def setPos (p : Pos) (n : Fin 3) (v : Nat) : Pos :=
  if n = 0 then (v, p.2.1, p.2.2)
  else if n = 1 then (p.1, v, p.2.2)
  else (p.1, p.2.1, v)

/-- The transverse axis nP = (n+1)%3. -/
def axisP (n : Fin 3) : Fin 3 := ⟨(n.val + 1) % 3, Nat.mod_lt _ (by decide)⟩

/-- The transverse axis nPP = (n+2)%3. -/
def axisPP (n : Fin 3) : Fin 3 := ⟨(n.val + 2) % 3, Nat.mod_lt _ (by decide)⟩

/-- The coordinate with pos[n] = line, pos[nP] = a and pos[nPP] = b. -/
def mkPos (n : Fin 3) (line a b : Nat) : Pos :=
  setPos (setPos (setPos (0, 0, 0) n line) (axisP n) a) (axisPP n) b

/-- The unsigned expression x - 1, which wraps to UINT_MOD - 1 at x = 0. -/
def usub1 (x : Nat) : Nat := (x + (UINT_MOD - 1)) % UINT_MOD

/-- The members of Operator_MPI read by the engine. -/
structure Operator_MPI where
  MPIEnabled : Bool
  numLines : Fin 3 → Nat
  m_NeighborUp : Fin 3 → Int
  m_NeighborDown : Fin 3 → Int
  m_MyTag : Int

/-- Modelled from the spec: the Local Field Store of the base engine
Engine_SSE_Compressed (its class is outside this file): one voltage and one
current sample per component and grid coordinate, and the step counter. -/
structure Engine_SSE_Compressed (α : Type) where
  volt : Fin 3 → Pos → α
  curr : Fin 3 → Pos → α
  numTS : Nat

/-- Modelled from the spec: get-field for the voltage quantity. -/
def Engine_SSE_Compressed.GetVolt {α : Type} (s : Engine_SSE_Compressed α) (c : Fin 3) (pos : Pos) : α :=
  s.volt c pos

/-- Modelled from the spec: get-field for the current quantity. -/
def Engine_SSE_Compressed.GetCurr {α : Type} (s : Engine_SSE_Compressed α) (c : Fin 3) (pos : Pos) : α :=
  s.curr c pos

/-- Modelled from the spec: set-field for the voltage quantity; exactly the
sample of component c at pos changes. -/
def Engine_SSE_Compressed.SetVolt {α : Type} (s : Engine_SSE_Compressed α) (c : Fin 3) (pos : Pos) (v : α) :
    Engine_SSE_Compressed α :=
  { s with volt := fun c1 p1 => if c1 = c ∧ p1 = pos then v else s.volt c1 p1 }

/-- Modelled from the spec: set-field for the current quantity; exactly the
sample of component c at pos changes. -/
def Engine_SSE_Compressed.SetCurr {α : Type} (s : Engine_SSE_Compressed α) (c : Fin 3) (pos : Pos) (v : α) :
    Engine_SSE_Compressed α :=
  { s with curr := fun c1 p1 => if c1 = c ∧ p1 = pos then v else s.curr c1 p1 }

/-- Modelled from the spec: the methods of the base engine called by Engine_MPI
(extension hooks, local update kernels, excitation, its own Init, Reset and
IterateTS); they are external collaborators and enter as parameters. -/
structure BaseMethods (α : Type) where
  Init : Engine_SSE_Compressed α → Engine_SSE_Compressed α
  Reset : Engine_SSE_Compressed α → Engine_SSE_Compressed α
  IterateTS : Nat → Engine_SSE_Compressed α → Engine_SSE_Compressed α × Bool
  DoPreVoltageUpdates : Engine_SSE_Compressed α → Engine_SSE_Compressed α
  UpdateVoltages : Nat → Nat → Engine_SSE_Compressed α → Engine_SSE_Compressed α
  DoPostVoltageUpdates : Engine_SSE_Compressed α → Engine_SSE_Compressed α
  Apply2Voltages : Engine_SSE_Compressed α → Engine_SSE_Compressed α
  ApplyVoltageExcite : Engine_SSE_Compressed α → Engine_SSE_Compressed α
  DoPreCurrentUpdates : Engine_SSE_Compressed α → Engine_SSE_Compressed α
  UpdateCurrents : Nat → Nat → Engine_SSE_Compressed α → Engine_SSE_Compressed α
  DoPostCurrentUpdates : Engine_SSE_Compressed α → Engine_SSE_Compressed α
  Apply2Current : Engine_SSE_Compressed α → Engine_SSE_Compressed α
  ApplyCurrentExcite : Engine_SSE_Compressed α → Engine_SSE_Compressed α

/-- A float pointer: none is NULL, some b an allocation of b.length floats. -/
abbrev Buffer (α : Type) := Option (List α)

/-- State of an Engine_MPI: the base engine and the exchange buffers.  The
member m_BufferSize is taken to be an unsigned int array, like numLines (its
declaration is in the header). -/
structure Engine_MPI (α : Type) where
  base : Engine_SSE_Compressed α
  m_BufferUp : Fin 3 → Buffer α
  m_BufferDown : Fin 3 → Buffer α
  m_BufferSize : Fin 3 → Nat

/-- The phases of one time step, in the vocabulary of IterateTS. -/
inductive Phase where
  | DoPreVoltageUpdates
  | UpdateVoltages (start numX : Nat)
  | DoPostVoltageUpdates
  | Apply2Voltages
  | ApplyVoltageExcite
  | SendReceiveVoltages
  | DoPreCurrentUpdates
  | UpdateCurrents (start numX : Nat)
  | DoPostCurrentUpdates
  | Apply2Current
  | ApplyCurrentExcite
  | SendReceiveCurrents
  | IncNumTS
  deriving DecidableEq, Repr

/-- Observable events.  The first argument n of a substrate or field-store
event is the axis whose exchange performs it (the loop variable n). -/
inductive Event (α : Type) where
  | irecv (n : Fin 3) (source : Int) (count : Nat) (tag : Int)
  | isend (n : Fin 3) (dest : Int) (count : Nat) (tag : Int) (payload : List α)
  | wait (n : Fin 3)
  | getVolt (n : Fin 3) (c : Fin 3) (pos : Pos)
  | setVolt (n : Fin 3) (c : Fin 3) (pos : Pos) (v : α)
  | getCurr (n : Fin 3) (c : Fin 3) (pos : Pos)
  | setCurr (n : Fin 3) (c : Fin 3) (pos : Pos) (v : α)
  | call (p : Phase)
  deriving DecidableEq, Repr

/-- The statement buf[i] = v. -/
def bufWrite {α : Type} (buf : Buffer α) (i : Nat) (v : α) : Option (Buffer α) :=
  match buf with
  | none => none
  | some b => if i < b.length then some (some (b.set i v)) else none

/-- The expression buf[i]. -/
def bufRead {α : Type} (buf : Buffer α) (i : Nat) : Option α :=
  match buf with
  | none => none
  | some b => b[i]?

/-- The expression new float[len]; the content of a fresh allocation is
indeterminate and is represented by the default sample. -/
def newFloat {α : Type} [Inhabited α] (len : Nat) : Buffer α :=
  some (List.replicate len default)

/-- Modelled from the spec: non-blocking receive of the message-passing
substrate.  Posting only registers the request; the count travels as an int. -/
def MPI_Irecv {α : Type} (n : Fin 3) (count : Nat) (source tag : Int) : Option (List (Event α)) :=
  if count < INT_LIMIT then some [Event.irecv n source count tag] else none

/-- Modelled from the spec: non-blocking send of the message-passing
substrate.  The payload is the first count floats of the buffer. -/
def MPI_Isend {α : Type} (n : Fin 3) (buf : Buffer α) (count : Nat) (dest tag : Int) :
    Option (List (Event α)) :=
  if count < INT_LIMIT then
    match buf with
    | none => if count = 0 then some [Event.isend n dest count tag []] else none
    | some b => if count ≤ b.length then some [Event.isend n dest count tag (b.take count)] else none
  else none

/-- Modelled from the spec: blocking wait for the receive posted on axis n.
The message msg sent by the neighbour is delivered into the front of the
receive buffer; a message longer than the posted count is a substrate error. -/
def MPI_Wait {α : Type} (n : Fin 3) (buf : Buffer α) (count : Nat) (msg : List α) :
    Option (Buffer α × List (Event α)) :=
  if count < msg.length then none
  else
    match buf with
    | none => if msg.length = 0 then some (none, [Event.wait n]) else none
    | some b =>
      if msg.length ≤ b.length then some (some (msg ++ b.drop msg.length), [Event.wait n]) else none

/-- A for loop over the values xs of its loop variable: the body transforms
the loop state, may fail, and reports the events it performed. -/
def forLoop {σ ι ε : Type} (xs : List ι) (body : ι → σ → Option (σ × List ε)) (s : σ) :
    Option (σ × List ε) :=
  match xs with
  | [] => some (s, [])
  | x :: rest =>
    (body x s).bind fun r1 =>
      (forLoop rest body r1.1).bind fun r2 => some (r2.1, r1.2 ++ r2.2)

/-- Engine_MPI::Init. -/
def Init {α : Type} [Inhabited α] (B : BaseMethods α) (op : Operator_MPI) (e : Engine_MPI α) :
    Engine_MPI α :=
  let e0 : Engine_MPI α :=
    { base := B.Init e.base
      m_BufferUp := fun _ => none
      m_BufferDown := fun _ => none
      m_BufferSize := fun _ => 0 }
  if op.MPIEnabled then
    let size := (op.numLines 0 * op.numLines 1) % UINT_MOD
    let e1 := { e0 with m_BufferSize := Function.update e0.m_BufferSize 2 size }
    let e2 :=
      if 0 ≤ op.m_NeighborDown 2 then
        { e1 with m_BufferDown := Function.update e1.m_BufferDown 2 (newFloat ((size * 3) % UINT_MOD)) }
      else e1
    if 0 ≤ op.m_NeighborUp 2 then
      { e2 with m_BufferUp := Function.update e2.m_BufferUp 2 (newFloat ((size * 3) % UINT_MOD)) }
    else e2
  else e0

/-- Engine_MPI::Reset. -/
def Reset {α : Type} (B : BaseMethods α) (e : Engine_MPI α) : Engine_MPI α :=
  { base := B.Reset e.base
    m_BufferUp := fun _ => none
    m_BufferDown := fun _ => none
    m_BufferSize := fun _ => 0 }

/-- Body of the pack loops of SendReceiveVoltages; the loop state is the
up-buffer and iPos. -/
def packVoltBody {α : Type} (s : Engine_SSE_Compressed α) (n : Fin 3) (line a b : Nat)
    (st : Buffer α × Nat) : Option ((Buffer α × Nat) × List (Event α)) :=
  let pos := mkPos n line a b
  (bufWrite st.1 st.2 (s.GetVolt (axisP n) pos)).bind fun b1 =>
    (bufWrite b1 (st.2 + 1) (s.GetVolt (axisPP n) pos)).bind fun b2 =>
      some ((b2, st.2 + 2), [Event.getVolt n (axisP n) pos, Event.getVolt n (axisPP n) pos])

/-- Body of the unpack loops of SendReceiveVoltages; the loop state is the
field store and iPos. -/
def unpackVoltBody {α : Type} (buf : Buffer α) (n : Fin 3) (line a b : Nat)
    (st : Engine_SSE_Compressed α × Nat) :
    Option ((Engine_SSE_Compressed α × Nat) × List (Event α)) :=
  let pos := mkPos n line a b
  (bufRead buf st.2).bind fun v1 =>
    (bufRead buf (st.2 + 1)).bind fun v2 =>
      some ((((st.1.SetVolt (axisP n) pos v1).SetVolt (axisPP n) pos v2), st.2 + 2),
        [Event.setVolt n (axisP n) pos v1, Event.setVolt n (axisPP n) pos v2])

/-- The block "send voltages" of axis n. -/
def sendVoltages {α : Type} (op : Operator_MPI) (n : Fin 3) (e : Engine_MPI α) :
    Option (Engine_MPI α × List (Event α)) :=
  if 0 ≤ op.m_NeighborUp n then
    (forLoop (List.range (op.numLines (axisP n)))
      (fun a => forLoop (List.range (op.numLines (axisPP n)))
        (fun b => packVoltBody e.base n (usub1 (op.numLines n)) a b))
      (e.m_BufferUp n, 0)).bind fun r =>
      (MPI_Isend n r.1.1 ((e.m_BufferSize n * 2) % UINT_MOD) (op.m_NeighborUp n) op.m_MyTag).bind
        fun ev => some ({ e with m_BufferUp := Function.update e.m_BufferUp n r.1.1 }, r.2 ++ ev)
  else some (e, [])

/-- The block "receive voltages" of axis n; msg is the message that the
posted receive of axis n completes with. -/
def receiveVoltages {α : Type} (op : Operator_MPI) (msg : List α) (n : Fin 3) (e : Engine_MPI α) :
    Option (Engine_MPI α × List (Event α)) :=
  if 0 ≤ op.m_NeighborDown n then
    (MPI_Wait n (e.m_BufferDown n) ((e.m_BufferSize n * 2) % UINT_MOD) msg).bind fun w =>
      (forLoop (List.range (op.numLines (axisP n)))
        (fun a => forLoop (List.range (op.numLines (axisPP n)))
          (fun b => unpackVoltBody w.1 n 0 a b))
        (e.base, 0)).bind fun r =>
        some ({ e with base := r.1.1, m_BufferDown := Function.update e.m_BufferDown n w.1 },
          w.2 ++ r.2)
  else some (e, [])

/-- Body of the first loop of SendReceiveVoltages: the receive of axis n is
posted when the down link of axis n is valid. -/
def postReceiveVoltages {α : Type} (op : Operator_MPI) (n : Fin 3) (e : Engine_MPI α) :
    Option (Engine_MPI α × List (Event α)) :=
  if 0 ≤ op.m_NeighborDown n then
    (MPI_Irecv n ((e.m_BufferSize n * 2) % UINT_MOD) (op.m_NeighborDown n) op.m_MyTag).bind
      fun ev => some (e, ev)
  else some (e, [])

/-- Body of the second loop of SendReceiveVoltages: send, then receive, on axis n. -/
def exchangeVoltagesAxis {α : Type} (op : Operator_MPI) (rx : Fin 3 → List α) (n : Fin 3)
    (e : Engine_MPI α) : Option (Engine_MPI α × List (Event α)) :=
  (sendVoltages op n e).bind fun q1 =>
    (receiveVoltages op (rx n) n q1.1).bind fun q2 => some (q2.1, q1.2 ++ q2.2)

/-- Engine_MPI::SendReceiveVoltages; rx n is the message delivered to the
receive posted for axis n. -/
def SendReceiveVoltages {α : Type} (op : Operator_MPI) (rx : Fin 3 → List α) (e : Engine_MPI α) :
    Option (Engine_MPI α × List (Event α)) :=
  if op.MPIEnabled = false then some (e, [])
  else
    (forLoop [0, 1, 2] (postReceiveVoltages op) e).bind fun r1 =>
      (forLoop [0, 1, 2] (exchangeVoltagesAxis op rx) r1.1).bind fun r2 =>
        some (r2.1, r1.2 ++ r2.2)

/-- Body of the pack loops of SendReceiveCurrents; the loop state is the
down-buffer and iPos. -/
def packCurrBody {α : Type} (s : Engine_SSE_Compressed α) (n : Fin 3) (line a b : Nat)
    (st : Buffer α × Nat) : Option ((Buffer α × Nat) × List (Event α)) :=
  let pos := mkPos n line a b
  (bufWrite st.1 st.2 (s.GetCurr n pos)).bind fun b1 =>
    (bufWrite b1 (st.2 + 1) (s.GetCurr (axisP n) pos)).bind fun b2 =>
      (bufWrite b2 (st.2 + 2) (s.GetCurr (axisPP n) pos)).bind fun b3 =>
        some ((b3, st.2 + 3),
          [Event.getCurr n n pos, Event.getCurr n (axisP n) pos, Event.getCurr n (axisPP n) pos])

/-- Body of the unpack loops of SendReceiveCurrents; the loop state is the
field store and iPos. -/
def unpackCurrBody {α : Type} (buf : Buffer α) (n : Fin 3) (line a b : Nat)
    (st : Engine_SSE_Compressed α × Nat) :
    Option ((Engine_SSE_Compressed α × Nat) × List (Event α)) :=
  let pos := mkPos n line a b
  (bufRead buf st.2).bind fun v1 =>
    (bufRead buf (st.2 + 1)).bind fun v2 =>
      (bufRead buf (st.2 + 2)).bind fun v3 =>
        some (((((st.1.SetCurr n pos v1).SetCurr (axisP n) pos v2).SetCurr (axisPP n) pos v3),
            st.2 + 3),
          [Event.setCurr n n pos v1, Event.setCurr n (axisP n) pos v2,
            Event.setCurr n (axisPP n) pos v3])

/-- The block "send currents" of axis n. -/
def sendCurrents {α : Type} (op : Operator_MPI) (n : Fin 3) (e : Engine_MPI α) :
    Option (Engine_MPI α × List (Event α)) :=
  if 0 ≤ op.m_NeighborDown n then
    (forLoop (List.range (op.numLines (axisP n)))
      (fun a => forLoop (List.range (op.numLines (axisPP n)))
        (fun b => packCurrBody e.base n 0 a b))
      (e.m_BufferDown n, 0)).bind fun r =>
      (MPI_Isend n r.1.1 ((e.m_BufferSize n * 3) % UINT_MOD) (op.m_NeighborDown n) op.m_MyTag).bind
        fun ev => some ({ e with m_BufferDown := Function.update e.m_BufferDown n r.1.1 }, r.2 ++ ev)
  else some (e, [])

/-- The block "receive currents" of axis n; msg is the message that the
posted receive of axis n completes with. -/
def receiveCurrents {α : Type} (op : Operator_MPI) (msg : List α) (n : Fin 3) (e : Engine_MPI α) :
    Option (Engine_MPI α × List (Event α)) :=
  if 0 ≤ op.m_NeighborUp n then
    (MPI_Wait n (e.m_BufferUp n) ((e.m_BufferSize n * 3) % UINT_MOD) msg).bind fun w =>
      (forLoop (List.range (op.numLines (axisP n)))
        (fun a => forLoop (List.range (op.numLines (axisPP n)))
          (fun b => unpackCurrBody w.1 n (usub1 (op.numLines n)) a b))
        (e.base, 0)).bind fun r =>
        some ({ e with base := r.1.1, m_BufferUp := Function.update e.m_BufferUp n w.1 },
          w.2 ++ r.2)
  else some (e, [])

/-- Body of the first loop of SendReceiveCurrents: the receive of axis n is
posted when the up link of axis n is valid. -/
def postReceiveCurrents {α : Type} (op : Operator_MPI) (n : Fin 3) (e : Engine_MPI α) :
    Option (Engine_MPI α × List (Event α)) :=
  if 0 ≤ op.m_NeighborUp n then
    (MPI_Irecv n ((e.m_BufferSize n * 3) % UINT_MOD) (op.m_NeighborUp n) op.m_MyTag).bind
      fun ev => some (e, ev)
  else some (e, [])

/-- Body of the second loop of SendReceiveCurrents: send, then receive, on axis n. -/
def exchangeCurrentsAxis {α : Type} (op : Operator_MPI) (rx : Fin 3 → List α) (n : Fin 3)
    (e : Engine_MPI α) : Option (Engine_MPI α × List (Event α)) :=
  (sendCurrents op n e).bind fun q1 =>
    (receiveCurrents op (rx n) n q1.1).bind fun q2 => some (q2.1, q1.2 ++ q2.2)

/-- Engine_MPI::SendReceiveCurrents; rx n is the message delivered to the
receive posted for axis n. -/
def SendReceiveCurrents {α : Type} (op : Operator_MPI) (rx : Fin 3 → List α) (e : Engine_MPI α) :
    Option (Engine_MPI α × List (Event α)) :=
  if op.MPIEnabled = false then some (e, [])
  else
    (forLoop [0, 1, 2] (postReceiveCurrents op) e).bind fun r1 =>
      (forLoop [0, 1, 2] (exchangeCurrentsAxis op rx) r1.1).bind fun r2 =>
        some (r2.1, r1.2 ++ r2.2)

/-- A call of a base-engine method on the engine: it acts on the base part. -/
def onBase {α : Type} (f : Engine_SSE_Compressed α → Engine_SSE_Compressed α) (p : Phase)
    (e : Engine_MPI α) : Engine_MPI α × List (Event α) :=
  ({ e with base := f e.base }, [Event.call p])

/-- The statement ++numTS. -/
def incNumTS {α : Type} (e : Engine_MPI α) : Engine_MPI α × List (Event α) :=
  ({ e with base := { e.base with numTS := (e.base.numTS + 1) % UINT_MOD } }, [Event.call Phase.IncNumTS])

/-- Sequencing of a step that cannot fail after a run so far. -/
def andThen {α : Type} (r : Option (Engine_MPI α × List (Event α)))
    (f : Engine_MPI α → Engine_MPI α × List (Event α)) : Option (Engine_MPI α × List (Event α)) :=
  r.bind fun r1 => some ((f r1.1).1, r1.2 ++ (f r1.1).2)

/-- Sequencing of an exchange call, announced by its phase, after a run so far. -/
def andThenExchange {α : Type} (r : Option (Engine_MPI α × List (Event α))) (p : Phase)
    (f : Engine_MPI α → Option (Engine_MPI α × List (Event α))) :
    Option (Engine_MPI α × List (Event α)) :=
  r.bind fun r1 => (f r1.1).bind fun r2 => some (r2.1, r1.2 ++ Event.call p :: r2.2)

/-- Body of the loop of IterateTS in distributed mode: one time step.  rxV and
rxC are the messages delivered to the two exchanges of this step. -/
def timeStep {α : Type} (B : BaseMethods α) (op : Operator_MPI) (rxV rxC : Fin 3 → List α)
    (e : Engine_MPI α) : Option (Engine_MPI α × List (Event α)) :=
  let r0 : Option (Engine_MPI α × List (Event α)) := some (e, [])
  let r1 := andThen r0 (onBase B.DoPreVoltageUpdates Phase.DoPreVoltageUpdates)
  let r2 := andThen r1 (onBase (B.UpdateVoltages 0 (op.numLines 0))
    (Phase.UpdateVoltages 0 (op.numLines 0)))
  let r3 := andThen r2 (onBase B.DoPostVoltageUpdates Phase.DoPostVoltageUpdates)
  let r4 := andThen r3 (onBase B.Apply2Voltages Phase.Apply2Voltages)
  let r5 := andThen r4 (onBase B.ApplyVoltageExcite Phase.ApplyVoltageExcite)
  let r6 := andThenExchange r5 Phase.SendReceiveVoltages (SendReceiveVoltages op rxV)
  let r7 := andThen r6 (onBase B.DoPreCurrentUpdates Phase.DoPreCurrentUpdates)
  let r8 := andThen r7 (onBase (B.UpdateCurrents 0 (usub1 (op.numLines 0)))
    (Phase.UpdateCurrents 0 (usub1 (op.numLines 0))))
  let r9 := andThen r8 (onBase B.DoPostCurrentUpdates Phase.DoPostCurrentUpdates)
  let r10 := andThen r9 (onBase B.Apply2Current Phase.Apply2Current)
  let r11 := andThen r10 (onBase B.ApplyCurrentExcite Phase.ApplyCurrentExcite)
  let r12 := andThenExchange r11 Phase.SendReceiveCurrents (SendReceiveCurrents op rxC)
  andThen r12 incNumTS

/-- Engine_MPI::IterateTS; rxV iter and rxC iter are the messages delivered to
the voltage and the current exchange of iteration iter. -/
def IterateTS {α : Type} (B : BaseMethods α) (op : Operator_MPI) (rxV rxC : Nat → Fin 3 → List α)
    (iterTS : Nat) (e : Engine_MPI α) : Option ((Engine_MPI α × List (Event α)) × Bool) :=
  if op.MPIEnabled = false then
    some (({ e with base := (B.IterateTS iterTS e.base).1 }, []), (B.IterateTS iterTS e.base).2)
  else
    (forLoop (List.range iterTS) (fun iter s => timeStep B op (rxV iter) (rxC iter) s) e).bind
      fun r => some (r, true)

/-! ## Vocabulary of the statements -/

/-- The face of axis n: the values of (pos[nP], pos[nPP]) in the order the
two nested loops visit them. -/
def face (op : Operator_MPI) (n : Fin 3) : List (Nat × Nat) :=
  List.range (op.numLines (axisP n)) ×ˢ List.range (op.numLines (axisPP n))

/-- The kinds of events. -/
inductive Kind where
  | post
  | get
  | send
  | wait
  | set
  | call
  deriving DecidableEq, Repr

/-- The kind of an event: receive post, get-field, send, wait, set-field or phase call. -/
def Event.kind {α : Type} : Event α → Kind
  | Event.irecv _ _ _ _ => Kind.post
  | Event.isend _ _ _ _ _ => Kind.send
  | Event.wait _ => Kind.wait
  | Event.getVolt _ _ _ => Kind.get
  | Event.setVolt _ _ _ _ => Kind.set
  | Event.getCurr _ _ _ => Kind.get
  | Event.setCurr _ _ _ _ => Kind.set
  | Event.call _ => Kind.call

/-- The axis whose exchange performs the event; a phase call has none. -/
def Event.axis {α : Type} : Event α → Option (Fin 3)
  | Event.irecv n _ _ _ => some n
  | Event.isend n _ _ _ _ => some n
  | Event.wait n => some n
  | Event.getVolt n _ _ => some n
  | Event.setVolt n _ _ _ => some n
  | Event.getCurr n _ _ => some n
  | Event.setCurr n _ _ _ => some n
  | Event.call _ => none

/-- Every event satisfying P occurs before every event satisfying Q: no
Q-event is followed by a P-event. -/
def Precedes {α : Type} (P Q : Event α → Prop) (tr : List (Event α)) : Prop :=
  tr.Pairwise fun x y => ¬ (Q x ∧ P y)

/-- Position of an event in the schedule of one exchange call: the receive
posts of the axes 0, 1, 2 come first, then for each axis in turn its packing
reads and its send, its wait, and its unpacking writes. -/
def stage {α : Type} (ev : Event α) : Nat :=
  match ev.kind, ev.axis with
  | Kind.post, some n => n.val
  | Kind.get, some n => 3 + 3 * n.val
  | Kind.send, some n => 3 + 3 * n.val
  | Kind.wait, some n => 4 + 3 * n.val
  | Kind.set, some n => 5 + 3 * n.val
  | _, _ => 12

/-- A segment of a trace that follows the schedule and lies between two stages. -/
def Staged {α : Type} (lo hi : Nat) (l : List (Event α)) : Prop :=
  l.Pairwise (fun x y => stage x ≤ stage y) ∧ ∀ ev ∈ l, lo ≤ stage ev ∧ stage ev ≤ hi

/-- A loop body that stores a block of k values at iPos and advances iPos by k. -/
def WritesBlock {α ι ε : Type} (k : Nat) (vals : ι → List α) (evs : ι → List ε)
    (body : ι → Buffer α × Nat → Option ((Buffer α × Nat) × List ε)) : Prop :=
  (∀ x, (vals x).length = k) ∧
  (∀ x i, body x (none, i) = none) ∧
  (∀ x buf i, body x (some buf, i) =
    if i + k ≤ buf.length then
      some ((some (buf.take i ++ vals x ++ buf.drop (i + k)), i + k), evs x)
    else none)

/-- The buffer state of an engine: for every axis the size m_BufferSize and,
for each of the two buffers, whether it is allocated and with how many floats. -/
def bufferShape {α : Type} (e : Engine_MPI α) : Fin 3 → Nat × Option Nat × Option Nat :=
  fun i => (e.m_BufferSize i, (e.m_BufferUp i).map List.length, (e.m_BufferDown i).map List.length)

/-! ## Vocabulary of the proofs, and concrete configurations -/

/-- The samples a voltage pack of axis n stores, in buffer order. -/
def packedVolt {α : Type} (s : Engine_SSE_Compressed α) (op : Operator_MPI) (n : Fin 3) : List α :=
  (face op n).flatMap fun ab =>
    [s.volt (axisP n) (mkPos n (usub1 (op.numLines n)) ab.1 ab.2),
      s.volt (axisPP n) (mkPos n (usub1 (op.numLines n)) ab.1 ab.2)]

/-- The samples a current pack of axis n stores, in buffer order. -/
def packedCurr {α : Type} (s : Engine_SSE_Compressed α) (op : Operator_MPI) (n : Fin 3) : List α :=
  (face op n).flatMap fun ab =>
    [s.curr n (mkPos n 0 ab.1 ab.2), s.curr (axisP n) (mkPos n 0 ab.1 ab.2),
      s.curr (axisPP n) (mkPos n 0 ab.1 ab.2)]

/-- The set-field events of a current unpack of axis n that stores the triples g. -/
def writesCurr {α : Type} (op : Operator_MPI) (n : Fin 3) (g0 g1 g2 : Nat × Nat → α) : List (Event α) :=
  (face op n).flatMap fun x =>
    [Event.setCurr n n (mkPos n (usub1 (op.numLines n)) x.1 x.2) (g0 x),
      Event.setCurr n (axisP n) (mkPos n (usub1 (op.numLines n)) x.1 x.2) (g1 x),
      Event.setCurr n (axisPP n) (mkPos n (usub1 (op.numLines n)) x.1 x.2) (g2 x)]

/-- The events posted for axis n by the first loop of an exchange call: one
receive post when the axis receives, nothing otherwise. -/
def PostTrace {α : Type} (n : Fin 3) (rcv : Bool) (t : List (Event α)) : Prop :=
  (rcv = false → t = []) ∧ (∀ ev ∈ t, ev.kind = Kind.post ∧ ev.axis = some n) ∧
  (rcv = true → ∃ source count tag, t = [Event.irecv n source count tag])

/-- The events of axis n in the second loop of an exchange call: packing reads
and one send when the axis sends, then the wait and the unpacking writes when
the axis receives. -/
def AxisTrace {α : Type} (n : Fin 3) (snd rcv : Bool) (t : List (Event α)) : Prop :=
  ∃ ts sets, t = ts ++ (if rcv = true then Event.wait n :: sets else []) ∧
    (snd = false → ts = []) ∧
    (∀ ev ∈ ts, (ev.kind = Kind.get ∨ ev.kind = Kind.send) ∧ ev.axis = some n) ∧
    (∀ ev ∈ sets, ev.kind = Kind.set ∧ ev.axis = some n) ∧
    (snd = true → ∃ gets dest count tag payload,
      ts = gets ++ [Event.isend n dest count tag payload] ∧ ∀ ev ∈ gets, ev.kind = Kind.get)

/-- The shape of the trace of one exchange call, given which axes send and
which receive. -/
def ExchangeTrace {α : Type} (snd rcv : Fin 3 → Bool) (tr : List (Event α)) : Prop :=
  ∃ p0 p1 p2 t0 t1 t2, tr = (p0 ++ (p1 ++ p2)) ++ (t0 ++ (t1 ++ t2)) ∧
    PostTrace 0 (rcv 0) p0 ∧ PostTrace 1 (rcv 1) p1 ∧ PostTrace 2 (rcv 2) p2 ∧
    AxisTrace 0 (snd 0) (rcv 0) t0 ∧ AxisTrace 1 (snd 1) (rcv 1) t1 ∧
    AxisTrace 2 (snd 2) (rcv 2) t2

/-- Whether the event is the wait for the receive of axis m. -/
def Event.isWaitOn {α : Type} (m : Fin 3) : Event α → Bool
  | Event.wait n => decide (n = m)
  | _ => false

/-- Whether the event is the receive post of axis m. -/
def Event.isPostOn {α : Type} (m : Fin 3) : Event α → Bool
  | Event.irecv n _ _ _ => decide (n = m)
  | _ => false

/-- Whether the event is the send of axis m. -/
def Event.isSendOn {α : Type} (m : Fin 3) : Event α → Bool
  | Event.isend n _ _ _ _ => decide (n = m)
  | _ => false

/-- The axes are handled in increasing order: of two receive posts, and of two
later events, the earlier one belongs to the lower or the same axis. -/
def AxisOrdered {α : Type} (tr : List (Event α)) : Prop :=
  tr.Pairwise fun x y =>
    (x.kind = Kind.post ↔ y.kind = Kind.post) →
      ∀ m n, x.axis = some m → y.axis = some n → m ≤ n

/-- The ordering guarantees of one exchange call, given which axes send and
which receive.  Occurrences: on every axis the receive post and the wait occur
once when the axis receives and the send occurs once when it sends, and not at
all otherwise.  Order: every receive post occurs before every send; on a
receiving axis n the wait occurs after every receive post, after the send of
axis n and before every set-field write of axis n; the axes are handled in
increasing order. -/
def ReceiveBeforeSend {α : Type} (snd rcv : Fin 3 → Bool) (tr : List (Event α)) : Prop :=
  (∀ n, tr.countP (Event.isPostOn n) = (if rcv n = true then 1 else 0) ∧
    tr.countP (Event.isWaitOn n) = (if rcv n = true then 1 else 0) ∧
    tr.countP (Event.isSendOn n) = (if snd n = true then 1 else 0)) ∧
  Precedes (fun ev => ev.kind = Kind.post) (fun ev => ev.kind = Kind.send) tr ∧
  (∀ n, rcv n = true →
    Precedes (fun ev => ev.kind = Kind.post) (fun ev => ev.isWaitOn n = true) tr ∧
    Precedes (fun ev => ev.kind = Kind.send ∧ ev.axis = some n)
      (fun ev => ev.isWaitOn n = true) tr ∧
    Precedes (fun ev => ev.isWaitOn n = true)
      (fun ev => ev.kind = Kind.set ∧ ev.axis = some n) tr) ∧
  AxisOrdered tr

/-- Whether the event is a set-field write. -/
def Event.isSet {α : Type} (ev : Event α) : Bool := decide (ev.kind = Kind.set)

/-- The element count handed to the substrate by a receive post or a send. -/
def Event.count {α : Type} : Event α → Option Nat
  | Event.irecv _ _ c _ => some c
  | Event.isend _ _ c _ _ => some c
  | _ => none

/-- Base-engine methods that leave the fields alone, for concrete runs; the
base IterateTS only advances the step counter. -/
def idleBase : BaseMethods Nat where
  Init := id
  Reset := id
  IterateTS := fun k s => ({ s with numTS := (s.numTS + k) % UINT_MOD }, true)
  DoPreVoltageUpdates := id
  UpdateVoltages := fun _ _ => id
  DoPostVoltageUpdates := id
  Apply2Voltages := id
  ApplyVoltageExcite := id
  DoPreCurrentUpdates := id
  UpdateCurrents := fun _ _ => id
  DoPostCurrentUpdates := id
  Apply2Current := id
  ApplyCurrentExcite := id

/-- Rank A of the scenario (rank 0): a 1x4x4 sub-volume whose up neighbour on
axis 2 is rank 1, tag 7. -/
def scenarioOpA : Operator_MPI where
  MPIEnabled := true
  numLines := ![1, 4, 4]
  m_NeighborUp := ![-1, -1, 1]
  m_NeighborDown := ![-1, -1, -1]
  m_MyTag := 7

/-- Rank B of the scenario (rank 1): a 1x4x4 sub-volume whose down neighbour on
axis 2 is rank 0, tag 7. -/
def scenarioOpB : Operator_MPI where
  MPIEnabled := true
  numLines := ![1, 4, 4]
  m_NeighborUp := ![-1, -1, -1]
  m_NeighborDown := ![-1, -1, 0]
  m_MyTag := 7

/-- An engine without buffers whose fields are zero. -/
def zeroEngine : Engine_MPI Nat where
  base := { volt := fun _ _ => 0, curr := fun _ _ => 0, numTS := 0 }
  m_BufferUp := fun _ => none
  m_BufferDown := fun _ => none
  m_BufferSize := fun _ => 0

/-- Fields of rank A: on the last line of axis 2 the voltage components 0 and
1 hold the bit patterns of the floats 1.0 and 2.0; everything else is zero. -/
def scenarioFieldsA : Engine_MPI Nat where
  base :=
    { volt := fun c p =>
        if p.2.2 = 3 then (if c = 0 then 1065353216 else if c = 1 then 1073741824 else 0) else 0
      curr := fun _ _ => 0
      numTS := 0 }
  m_BufferUp := fun _ => none
  m_BufferDown := fun _ => none
  m_BufferSize := fun _ => 0

/-- Fields of rank B: on the first line of axis 2 the current component c at
(0, j, 0) holds 10*j + c + 1; everything else is zero. -/
def scenarioFieldsB : Engine_MPI Nat where
  base :=
    { volt := fun _ _ => 0
      curr := fun c p => if p.2.2 = 0 then 10 * p.2.1 + c.val + 1 else 0
      numTS := 0 }
  m_BufferUp := fun _ => none
  m_BufferDown := fun _ => none
  m_BufferSize := fun _ => 0

/-- No message on any axis. -/
def noRx : Fin 3 → List Nat := fun _ => []

/-- The voltage message rank B receives on axis 2: the packed last line of rank A. -/
def scenarioRxB : Fin 3 → List Nat :=
  ![[], [], [1065353216, 1073741824, 1065353216, 1073741824, 1065353216, 1073741824,
    1065353216, 1073741824]]

/-- The current message rank A receives on axis 2: the packed first line of rank B. -/
def scenarioRxA : Fin 3 → List Nat :=
  ![[], [], [3, 1, 2, 13, 11, 12, 23, 21, 22, 33, 31, 32]]

/-- A rank in the middle of a chain along axis 2 (rank 1): a 1x2x3 sub-volume
with down neighbour 0 and up neighbour 2. -/
def middleOp : Operator_MPI where
  MPIEnabled := true
  numLines := ![1, 2, 3]
  m_NeighborUp := ![-1, -1, 2]
  m_NeighborDown := ![-1, -1, 0]
  m_MyTag := 7

/-- A voltage message for the middle rank: two samples of two components. -/
def middleRxV : Fin 3 → List Nat := ![[], [], [5, 6, 7, 8]]

/-- A current message for the middle rank: two samples of three components. -/
def middleRxC : Fin 3 → List Nat := ![[], [], [1, 2, 3, 4, 5, 6]]

/-- An invalid topology for the local rank 0: the up link of axis 2 names rank
0 itself.  It agrees with rank A of the scenario on everything else. -/
def selfLinkedOp : Operator_MPI where
  MPIEnabled := true
  numLines := ![1, 4, 4]
  m_NeighborUp := ![-1, -1, 0]
  m_NeighborDown := ![-1, -1, -1]
  m_MyTag := 7

/-- An invalid topology for the local rank 0: the extent of axis 2 is zero. -/
def zeroExtentOp : Operator_MPI where
  MPIEnabled := true
  numLines := ![1, 4, 0]
  m_NeighborUp := ![-1, -1, 1]
  m_NeighborDown := ![-1, -1, -1]
  m_MyTag := 7

/-- An invalid topology for the local rank 0: the extent of axis 0 is zero, so
the face of axis 2 holds no sample. -/
def emptyFaceOp : Operator_MPI where
  MPIEnabled := true
  numLines := ![0, 4, 4]
  m_NeighborUp := ![-1, -1, 1]
  m_NeighborDown := ![-1, -1, -1]
  m_MyTag := 7

/-- A local-only configuration: distributed execution disabled. -/
def localOp : Operator_MPI where
  MPIEnabled := false
  numLines := ![1, 4, 4]
  m_NeighborUp := ![-1, -1, 1]
  m_NeighborDown := ![-1, -1, 0]
  m_MyTag := 7

/-- The result of a run, or the given engine with no event when the run failed. -/
def runOf {α : Type} (r : Option (Engine_MPI α × List (Event α))) (e : Engine_MPI α) :
    Engine_MPI α × List (Event α) :=
  r.getD (e, [])

/-! ## Lemmas -/

/-! ## Loops -/

section Loops
variable {σ ι κ ε : Type}

theorem forLoop_nil (body : ι → σ → Option (σ × List ε)) (s : σ) :
    forLoop [] body s = some (s, []) := rfl

theorem forLoop_cons (x : ι) (xs : List ι) (body : ι → σ → Option (σ × List ε)) (s : σ) :
    forLoop (x :: xs) body s =
      (body x s).bind fun r1 =>
        (forLoop xs body r1.1).bind fun r2 => some (r2.1, r1.2 ++ r2.2) := rfl

theorem forLoop_append (xs ys : List ι) (body : ι → σ → Option (σ × List ε)) (s : σ) :
    forLoop (xs ++ ys) body s =
      (forLoop xs body s).bind fun r1 =>
        (forLoop ys body r1.1).bind fun r2 => some (r2.1, r1.2 ++ r2.2) := by
  induction xs generalizing s with
  | nil =>
    simp only [List.nil_append, forLoop_nil, Option.some_bind, List.nil_append]
    cases forLoop ys body s <;> rfl
  | cons x xs ih =>
    simp only [List.cons_append, forLoop_cons]
    cases hb : body x s with
    | none => rfl
    | some r1 =>
      simp only [Option.some_bind, ih]
      cases forLoop xs body r1.1 with
      | none => rfl
      | some r2 =>
        simp only [Option.some_bind]
        cases forLoop ys body r2.1 with
        | none => rfl
        | some r3 => simp [List.append_assoc]

theorem forLoop_map (g : κ → ι) (ys : List κ) (body : ι → σ → Option (σ × List ε)) (s : σ) :
    forLoop (ys.map g) body s = forLoop ys (fun k => body (g k)) s := by
  induction ys generalizing s with
  | nil => rfl
  | cons y ys ih =>
    simp only [List.map_cons, forLoop_cons]
    cases body (g y) s with
    | none => rfl
    | some r1 => simp only [Option.some_bind, ih]

/-- Two nested loops run their body over the product of the two ranges, row by row. -/
theorem forLoop_nested (xs : List ι) (ys : List κ) (f : ι → κ → σ → Option (σ × List ε)) (s : σ) :
    forLoop xs (fun a => forLoop ys (f a)) s =
      forLoop (xs ×ˢ ys) (fun ab => f ab.1 ab.2) s := by
  induction xs generalizing s with
  | nil => rfl
  | cons x xs ih =>
    rw [List.product_cons, forLoop_append, forLoop_cons, forLoop_map]
    cases forLoop ys (f x) s with
    | none => rfl
    | some r1 => simp only [Option.some_bind, ih]

/-- A loop whose body fails in every state reachable under an invariant runs
only when it has nothing to iterate over. -/
theorem forLoop_stuck (xs : List ι) (body : ι → σ → Option (σ × List ε)) (s : σ)
    (hstuck : ∀ x, body x s = none) (r : σ × List ε) (h : forLoop xs body s = some r) :
    xs = [] ∧ r = (s, []) := by
  cases xs with
  | nil => simp [forLoop_nil] at h; exact ⟨rfl, h.symm⟩
  | cons x xs => simp [forLoop_cons, hstuck x] at h

/-- Every event of a loop is an event of one run of its body. -/
theorem forLoop_events (P : ε → Prop) (xs : List ι) (body : ι → σ → Option (σ × List ε))
    (hbody : ∀ x s r, body x s = some r → ∀ ev ∈ r.2, P ev)
    (s : σ) (r : σ × List ε) (h : forLoop xs body s = some r) : ∀ ev ∈ r.2, P ev := by
  induction xs generalizing s r with
  | nil =>
    simp [forLoop_nil] at h; subst h; simp
  | cons x xs ih =>
    rw [forLoop_cons] at h
    cases hb : body x s with
    | none => simp [hb] at h
    | some r1 =>
      simp only [hb, Option.some_bind] at h
      cases hl : forLoop xs body r1.1 with
      | none => simp [hl] at h
      | some r2 =>
        simp only [hl, Option.some_bind, Option.some.injEq] at h
        subst h
        intro ev hev
        rcases List.mem_append.mp hev with h1 | h2
        · exact hbody x s r1 hb ev h1
        · exact ih r1.1 r2 hl ev h2

/-- An invariant of the loop state kept by the body is kept by the loop. -/
theorem forLoop_invariant (I : σ → Prop) (xs : List ι) (body : ι → σ → Option (σ × List ε))
    (hbody : ∀ x s r, I s → body x s = some r → I r.1)
    (s : σ) (r : σ × List ε) (hs : I s) (h : forLoop xs body s = some r) : I r.1 := by
  induction xs generalizing s r with
  | nil =>
    simp [forLoop_nil] at h; subst h; exact hs
  | cons x xs ih =>
    rw [forLoop_cons] at h
    cases hb : body x s with
    | none => simp [hb] at h
    | some r1 =>
      simp only [hb, Option.some_bind] at h
      cases hl : forLoop xs body r1.1 with
      | none => simp [hl] at h
      | some r2 =>
        simp only [hl, Option.some_bind, Option.some.injEq] at h
        subst h
        exact ih r1.1 r2 (hbody x s r1 hs hb) hl

end Loops

/-! ## Coordinates -/

theorem axisP_ne_axisPP (n : Fin 3) : axisP n ≠ axisPP n := by
  fin_cases n <;> decide

theorem self_ne_axisP (n : Fin 3) : n ≠ axisP n := by
  fin_cases n <;> decide

theorem self_ne_axisPP (n : Fin 3) : n ≠ axisPP n := by
  fin_cases n <;> decide

theorem mkPos_axis2 (line a b : Nat) : mkPos 2 line a b = (a, b, line) := rfl

theorem mkPos_inj (n : Fin 3) (line a b a1 b1 : Nat) (h : mkPos n line a b = mkPos n line a1 b1) :
    a = a1 ∧ b = b1 := by
  fin_cases n <;> simp [mkPos, setPos, axisP, axisPP] at h <;> omega

/-! ## Buffers -/

section Buffers
variable {α ι ε : Type}

theorem bufWrite_some (buf : List α) (i : Nat) (v : α) :
    bufWrite (some buf) i v = if i < buf.length then some (some (buf.set i v)) else none := rfl

theorem set_eq_block (buf : List α) (i : Nat) (v : α) (h : i < buf.length) :
    buf.set i v = buf.take i ++ [v] ++ buf.drop (i + 1) := by
  rw [List.set_eq_take_append_cons_drop, if_pos h]; simp

theorem block_length (buf vals : List α) (i : Nat) (h : i + vals.length ≤ buf.length) :
    (buf.take i ++ vals ++ buf.drop (i + vals.length)).length = buf.length := by
  simp; omega

theorem block_block (buf v1 v2 : List α) (i : Nat) (h : i + v1.length + v2.length ≤ buf.length) :
    (buf.take i ++ v1 ++ buf.drop (i + v1.length)).take (i + v1.length) ++ v2 ++
        (buf.take i ++ v1 ++ buf.drop (i + v1.length)).drop (i + v1.length + v2.length) =
      buf.take i ++ (v1 ++ v2) ++ buf.drop (i + (v1 ++ v2).length) := by
  have hl : (buf.take i ++ v1).length = i + v1.length := by simp; omega
  rw [List.take_left' hl]
  have hd : (buf.take i ++ v1 ++ buf.drop (i + v1.length)).drop (i + v1.length + v2.length) =
      buf.drop (i + v1.length + v2.length) := by
    rw [← hl, List.drop_append, List.drop_drop, hl]
  rw [hd]; simp [List.append_assoc, Nat.add_assoc]

end Buffers

section Pack
variable {α ι ε : Type}

theorem flatMap_length_const (k : Nat) (vals : ι → List α) (hk : ∀ x, (vals x).length = k)
    (xs : List ι) : (xs.flatMap vals).length = k * xs.length := by
  induction xs with
  | nil => simp
  | cons x xs ih => simp [List.flatMap_cons, hk, ih, Nat.mul_succ]; omega

/-- A pack loop that returns has written the blocks of all iterations, in
order, from iPos on, and the buffer was large enough for them. -/
theorem forLoop_writesBlock (k : Nat) (vals : ι → List α) (evs : ι → List ε)
    (body : ι → Buffer α × Nat → Option ((Buffer α × Nat) × List ε))
    (hb : WritesBlock k vals evs body) (xs : List ι) (buf : List α) (i : Nat)
    (hi : i ≤ buf.length) (r : (Buffer α × Nat) × List ε)
    (h : forLoop xs body (some buf, i) = some r) :
    i + k * xs.length ≤ buf.length ∧
      r = ((some (buf.take i ++ xs.flatMap vals ++ buf.drop (i + k * xs.length)),
        i + k * xs.length), xs.flatMap evs) := by
  obtain ⟨hk, _, hsome⟩ := hb
  induction xs generalizing buf i r with
  | nil =>
    simp [forLoop_nil] at h
    subst h
    simp [hi]
  | cons x xs ih =>
    rw [forLoop_cons, hsome] at h
    by_cases hik : i + k ≤ buf.length
    · rw [if_pos hik] at h
      simp only [Option.some_bind] at h
      cases hl : forLoop xs body (some (buf.take i ++ vals x ++ buf.drop (i + k)), i + k) with
      | none => rw [hl] at h; simp at h
      | some r2 =>
        have hlen : (buf.take i ++ vals x ++ buf.drop (i + k)).length = buf.length := by
          have := block_length buf (vals x) i (by rw [hk]; exact hik)
          rwa [hk] at this
        have := ih _ (i + k) (by rw [hlen]; exact hik) r2 hl
        obtain ⟨hbound, hr2⟩ := this
        rw [hlen] at hbound
        rw [hl] at h
        simp only [Option.some_bind, Option.some.injEq] at h
        subst h
        subst hr2
        refine ⟨by simp [Nat.mul_succ]; omega, ?_⟩
        have hbb := block_block buf (vals x) (xs.flatMap vals) i
          (by rw [hk, flatMap_length_const k vals hk]; omega)
        simp only [hk, flatMap_length_const k vals hk, List.length_append] at hbb
        simp only [List.flatMap_cons, List.length_cons, Nat.mul_succ]
        have e1 : i + (k * xs.length + k) = i + (k + k * xs.length) := by omega
        rw [e1, ← hbb, Nat.add_assoc]
    · rw [if_neg hik] at h
      simp at h

/-- A pack loop on a NULL buffer returns only when it has no iteration. -/
theorem forLoop_writesBlock_null (k : Nat) (vals : ι → List α) (evs : ι → List ε)
    (body : ι → Buffer α × Nat → Option ((Buffer α × Nat) × List ε))
    (hb : WritesBlock k vals evs body) (xs : List ι) (i : Nat)
    (r : (Buffer α × Nat) × List ε) (h : forLoop xs body (none, i) = some r) :
    xs = [] ∧ r = ((none, i), []) :=
  forLoop_stuck xs body (none, i) (fun x => hb.2.1 x i) r h

theorem packVoltBody_writesBlock (s : Engine_SSE_Compressed α) (n : Fin 3) (line : Nat) :
    WritesBlock 2
      (fun ab : Nat × Nat =>
        [s.volt (axisP n) (mkPos n line ab.1 ab.2), s.volt (axisPP n) (mkPos n line ab.1 ab.2)])
      (fun ab : Nat × Nat =>
        [Event.getVolt n (axisP n) (mkPos n line ab.1 ab.2),
          Event.getVolt n (axisPP n) (mkPos n line ab.1 ab.2)])
      (fun ab => packVoltBody s n line ab.1 ab.2) := by
  refine ⟨fun _ => rfl, fun _ _ => rfl, ?_⟩
  intro x buf i
  simp only [packVoltBody, bufWrite_some, Engine_SSE_Compressed.GetVolt]
  by_cases h : i + 2 ≤ buf.length
  · have h0 : i < buf.length := by omega
    have h1 : i + 1 < (buf.set i (s.volt (axisP n) (mkPos n line x.1 x.2))).length := by
      simp; omega
    rw [if_pos h0, Option.some_bind, bufWrite_some, if_pos h1, Option.some_bind, if_pos h]
    congr 3
    rw [set_eq_block _ _ _ h1, set_eq_block _ _ _ h0]
    have := block_block buf [s.volt (axisP n) (mkPos n line x.1 x.2)]
      [s.volt (axisPP n) (mkPos n line x.1 x.2)] i (by simpa using h)
    simpa using this
  · rw [if_neg h]
    by_cases h0 : i < buf.length
    · have h1 : ¬ i + 1 < (buf.set i (s.volt (axisP n) (mkPos n line x.1 x.2))).length := by
        simp; omega
      rw [if_pos h0, Option.some_bind, bufWrite_some, if_neg h1]; rfl
    · rw [if_neg h0]; rfl

end Pack

section Pack
variable {α ι ε : Type}

theorem bufWrite_block (buf pre : List α) (i k : Nat) (v : α) (hk : pre.length = k)
    (h : i + k ≤ buf.length) :
    bufWrite (some (buf.take i ++ pre ++ buf.drop (i + k))) (i + k) v =
      if i + k + 1 ≤ buf.length then
        some (some (buf.take i ++ (pre ++ [v]) ++ buf.drop (i + (k + 1))))
      else none := by
  subst hk
  have hlen := block_length buf pre i h
  rw [bufWrite_some, hlen]
  by_cases h1 : i + pre.length + 1 ≤ buf.length
  · have h2 : i + pre.length < buf.length := by omega
    rw [if_pos h1, if_pos h2, set_eq_block _ _ _ (by rw [hlen]; exact h2)]
    have := block_block buf pre [v] i (by simpa using h1)
    simp only [List.length_singleton, List.length_append] at this
    rw [this]
  · have h2 : ¬ i + pre.length < buf.length := by omega
    rw [if_neg h1, if_neg h2]

theorem bufWrite_first (buf : List α) (i : Nat) (v : α) :
    bufWrite (some buf) i v =
      if i + 1 ≤ buf.length then some (some (buf.take i ++ [v] ++ buf.drop (i + 1))) else none := by
  rw [bufWrite_some]
  by_cases h : i < buf.length
  · rw [if_pos h, if_pos (by omega : i + 1 ≤ buf.length), set_eq_block _ _ _ h]
  · rw [if_neg h, if_neg (by omega : ¬ i + 1 ≤ buf.length)]

theorem packCurrBody_writesBlock (s : Engine_SSE_Compressed α) (n : Fin 3) (line : Nat) :
    WritesBlock 3
      (fun ab : Nat × Nat =>
        [s.curr n (mkPos n line ab.1 ab.2), s.curr (axisP n) (mkPos n line ab.1 ab.2),
          s.curr (axisPP n) (mkPos n line ab.1 ab.2)])
      (fun ab : Nat × Nat =>
        [Event.getCurr n n (mkPos n line ab.1 ab.2),
          Event.getCurr n (axisP n) (mkPos n line ab.1 ab.2),
          Event.getCurr n (axisPP n) (mkPos n line ab.1 ab.2)])
      (fun ab => packCurrBody s n line ab.1 ab.2) := by
  refine ⟨fun _ => rfl, fun _ _ => rfl, ?_⟩
  intro x buf i
  simp only [packCurrBody, Engine_SSE_Compressed.GetCurr]
  rw [bufWrite_first]
  by_cases h1 : i + 1 ≤ buf.length
  · rw [if_pos h1, Option.some_bind, bufWrite_block buf [s.curr n (mkPos n line x.1 x.2)] i 1 _ rfl h1]
    by_cases h2 : i + 1 + 1 ≤ buf.length
    · rw [if_pos h2, Option.some_bind]
      have := bufWrite_block buf
        ([s.curr n (mkPos n line x.1 x.2)] ++ [s.curr (axisP n) (mkPos n line x.1 x.2)]) i 2
        (s.curr (axisPP n) (mkPos n line x.1 x.2)) rfl h2
      rw [this]
      by_cases h3 : i + 3 ≤ buf.length
      · rw [if_pos h3, if_pos h3]; simp
      · rw [if_neg h3, if_neg h3]; rfl
    · rw [if_neg h2, if_neg (by omega : ¬ i + 3 ≤ buf.length)]; rfl
  · rw [if_neg h1, if_neg (by omega : ¬ i + 3 ≤ buf.length)]; rfl

end Pack

section Unpack
variable {α : Type}

theorem bufRead_drop (buf : List α) (i j : Nat) : bufRead (some buf) (i + j) = (buf.drop i)[j]? := by
  simp [bufRead, List.getElem?_drop]

theorem unpackVoltBody_some (buf : List α) (n : Fin 3) (line a b : Nat)
    (st : Engine_SSE_Compressed α) (i : Nat) :
    unpackVoltBody (some buf) n line a b (st, i) =
      match buf.drop i with
      | v1 :: v2 :: _ =>
        some ((((st.SetVolt (axisP n) (mkPos n line a b) v1).SetVolt (axisPP n)
            (mkPos n line a b) v2), i + 2),
          [Event.setVolt n (axisP n) (mkPos n line a b) v1,
            Event.setVolt n (axisPP n) (mkPos n line a b) v2])
      | _ => none := by
  have h0 := bufRead_drop buf i 0
  have h1 := bufRead_drop buf i 1
  simp only [Nat.add_zero] at h0
  simp only [unpackVoltBody, h0, h1]
  cases buf.drop i with
  | nil => rfl
  | cons v1 t =>
    cases t with
    | nil => rfl
    | cons v2 t2 => simp

theorem unpackCurrBody_some (buf : List α) (n : Fin 3) (line a b : Nat)
    (st : Engine_SSE_Compressed α) (i : Nat) :
    unpackCurrBody (some buf) n line a b (st, i) =
      match buf.drop i with
      | v1 :: v2 :: v3 :: _ =>
        some (((((st.SetCurr n (mkPos n line a b) v1).SetCurr (axisP n) (mkPos n line a b) v2).SetCurr
            (axisPP n) (mkPos n line a b) v3), i + 3),
          [Event.setCurr n n (mkPos n line a b) v1,
            Event.setCurr n (axisP n) (mkPos n line a b) v2,
            Event.setCurr n (axisPP n) (mkPos n line a b) v3])
      | _ => none := by
  have h0 := bufRead_drop buf i 0
  have h1 := bufRead_drop buf i 1
  have h2 := bufRead_drop buf i 2
  simp only [Nat.add_zero] at h0
  simp only [unpackCurrBody, h0, h1, h2]
  cases buf.drop i with
  | nil => rfl
  | cons v1 t =>
    cases t with
    | nil => rfl
    | cons v2 t2 =>
      cases t2 with
      | nil => rfl
      | cons v3 t3 => simp

theorem unpackVoltBody_null (n : Fin 3) (line a b : Nat)
    (st : Engine_SSE_Compressed α × Nat) : unpackVoltBody (none : Buffer α) n line a b st = none := rfl

theorem unpackCurrBody_null (n : Fin 3) (line a b : Nat)
    (st : Engine_SSE_Compressed α × Nat) : unpackCurrBody (none : Buffer α) n line a b st = none := rfl

end Unpack

section Unpack
variable {α : Type}

theorem SetVolt_volt (st : Engine_SSE_Compressed α) (c : Fin 3) (p : Pos) (v : α) (c1 : Fin 3)
    (p1 : Pos) : (st.SetVolt c p v).volt c1 p1 = if c1 = c ∧ p1 = p then v else st.volt c1 p1 := rfl

theorem SetCurr_curr (st : Engine_SSE_Compressed α) (c : Fin 3) (p : Pos) (v : α) (c1 : Fin 3)
    (p1 : Pos) : (st.SetCurr c p v).curr c1 p1 = if c1 = c ∧ p1 = p then v else st.curr c1 p1 := rfl

/-- The unpack loop of the voltage exchange on a buffer that holds, from iPos
on, one pair of samples per face coordinate: it returns, writes exactly the
face, and every face coordinate ends with its own pair. -/
theorem unpackVolt_loop (n : Fin 3) (line : Nat) (buf : List α) (g1 g2 : Nat × Nat → α)
    (ps : List (Nat × Nat)) (post : List α) (i : Nat) (st : Engine_SSE_Compressed α)
    (hbuf : buf.drop i = ps.flatMap (fun x => [g1 x, g2 x]) ++ post) :
    ∃ st1 : Engine_SSE_Compressed α,
      forLoop ps (fun ab => unpackVoltBody (some buf) n line ab.1 ab.2) (st, i) =
        some ((st1, i + 2 * ps.length),
          ps.flatMap (fun x =>
            [Event.setVolt n (axisP n) (mkPos n line x.1 x.2) (g1 x),
              Event.setVolt n (axisPP n) (mkPos n line x.1 x.2) (g2 x)])) ∧
      st1.curr = st.curr ∧ st1.numTS = st.numTS ∧
      (∀ c q, (∀ x ∈ ps, q ≠ mkPos n line x.1 x.2) → st1.volt c q = st.volt c q) ∧
      (ps.Nodup → ∀ x ∈ ps,
        st1.volt (axisP n) (mkPos n line x.1 x.2) = g1 x ∧
          st1.volt (axisPP n) (mkPos n line x.1 x.2) = g2 x) := by
  induction ps generalizing i st with
  | nil => exact ⟨st, rfl, rfl, rfl, fun _ _ _ => rfl, fun _ x hx => by simp at hx⟩
  | cons x rest ih =>
    have hbuf1 : buf.drop i =
        g1 x :: g2 x :: (rest.flatMap (fun x => [g1 x, g2 x]) ++ post) := by
      simpa [List.flatMap_cons] using hbuf
    have hd2 : buf.drop (i + 2) = rest.flatMap (fun x => [g1 x, g2 x]) ++ post := by
      have := congrArg (List.drop 2) hbuf1
      simpa [List.drop_drop] using this
    obtain ⟨st1, hl, hc, hn, hframe, hval⟩ :=
      ih (i + 2) ((st.SetVolt (axisP n) (mkPos n line x.1 x.2) (g1 x)).SetVolt (axisPP n)
        (mkPos n line x.1 x.2) (g2 x)) hd2
    refine ⟨st1, ?_, ?_, ?_, ?_, ?_⟩
    · rw [forLoop_cons, unpackVoltBody_some, hbuf1]
      simp only [Option.some_bind, hl, List.flatMap_cons, List.length_cons]
      have : i + 2 + 2 * rest.length = i + 2 * (rest.length + 1) := by omega
      rw [this]
    · rw [hc]; rfl
    · rw [hn]; rfl
    · intro c q hq
      have hqx : q ≠ mkPos n line x.1 x.2 := hq x (List.mem_cons_self _ _)
      rw [hframe c q (fun y hy => hq y (List.mem_cons_of_mem _ hy))]
      simp [SetVolt_volt, hqx]
    · intro hnd y hy
      have hnd1 : x ∉ rest ∧ rest.Nodup := List.nodup_cons.mp hnd
      rcases List.mem_cons.mp hy with hyx | hyr
      · subst hyx
        have hfr : ∀ z ∈ rest, mkPos n line y.1 y.2 ≠ mkPos n line z.1 z.2 := by
          intro z hz heq
          have := mkPos_inj n line y.1 y.2 z.1 z.2 heq
          exact hnd1.1 (by rw [Prod.ext this.1 this.2]; exact hz)
        rw [hframe _ _ hfr, hframe _ _ hfr]
        simp [SetVolt_volt, axisP_ne_axisPP n]
      · exact hval hnd1.2 y hyr

/-- The unpack loop of the current exchange on a buffer that holds, from iPos
on, one triple of samples per face coordinate. -/
theorem unpackCurr_loop (n : Fin 3) (line : Nat) (buf : List α) (g0 g1 g2 : Nat × Nat → α)
    (ps : List (Nat × Nat)) (post : List α) (i : Nat) (st : Engine_SSE_Compressed α)
    (hbuf : buf.drop i = ps.flatMap (fun x => [g0 x, g1 x, g2 x]) ++ post) :
    ∃ st1 : Engine_SSE_Compressed α,
      forLoop ps (fun ab => unpackCurrBody (some buf) n line ab.1 ab.2) (st, i) =
        some ((st1, i + 3 * ps.length),
          ps.flatMap (fun x =>
            [Event.setCurr n n (mkPos n line x.1 x.2) (g0 x),
              Event.setCurr n (axisP n) (mkPos n line x.1 x.2) (g1 x),
              Event.setCurr n (axisPP n) (mkPos n line x.1 x.2) (g2 x)])) ∧
      st1.volt = st.volt ∧ st1.numTS = st.numTS ∧
      (∀ c q, (∀ x ∈ ps, q ≠ mkPos n line x.1 x.2) → st1.curr c q = st.curr c q) ∧
      (ps.Nodup → ∀ x ∈ ps,
        st1.curr n (mkPos n line x.1 x.2) = g0 x ∧
          st1.curr (axisP n) (mkPos n line x.1 x.2) = g1 x ∧
            st1.curr (axisPP n) (mkPos n line x.1 x.2) = g2 x) := by
  induction ps generalizing i st with
  | nil => exact ⟨st, rfl, rfl, rfl, fun _ _ _ => rfl, fun _ x hx => by simp at hx⟩
  | cons x rest ih =>
    have hbuf1 : buf.drop i =
        g0 x :: g1 x :: g2 x :: (rest.flatMap (fun x => [g0 x, g1 x, g2 x]) ++ post) := by
      simpa [List.flatMap_cons] using hbuf
    have hd2 : buf.drop (i + 3) = rest.flatMap (fun x => [g0 x, g1 x, g2 x]) ++ post := by
      have := congrArg (List.drop 3) hbuf1
      simpa [List.drop_drop] using this
    obtain ⟨st1, hl, hc, hn, hframe, hval⟩ :=
      ih (i + 3) (((st.SetCurr n (mkPos n line x.1 x.2) (g0 x)).SetCurr (axisP n)
        (mkPos n line x.1 x.2) (g1 x)).SetCurr (axisPP n) (mkPos n line x.1 x.2) (g2 x)) hd2
    refine ⟨st1, ?_, ?_, ?_, ?_, ?_⟩
    · rw [forLoop_cons, unpackCurrBody_some, hbuf1]
      simp only [Option.some_bind, hl, List.flatMap_cons, List.length_cons]
      have : i + 3 + 3 * rest.length = i + 3 * (rest.length + 1) := by omega
      rw [this]
    · rw [hc]; rfl
    · rw [hn]; rfl
    · intro c q hq
      have hqx : q ≠ mkPos n line x.1 x.2 := hq x (List.mem_cons_self _ _)
      rw [hframe c q (fun y hy => hq y (List.mem_cons_of_mem _ hy))]
      simp [SetCurr_curr, hqx]
    · intro hnd y hy
      have hnd1 : x ∉ rest ∧ rest.Nodup := List.nodup_cons.mp hnd
      rcases List.mem_cons.mp hy with hyx | hyr
      · subst hyx
        have hfr : ∀ z ∈ rest, mkPos n line y.1 y.2 ≠ mkPos n line z.1 z.2 := by
          intro z hz heq
          have := mkPos_inj n line y.1 y.2 z.1 z.2 heq
          exact hnd1.1 (by rw [Prod.ext this.1 this.2]; exact hz)
        rw [hframe _ _ hfr, hframe _ _ hfr, hframe _ _ hfr]
        simp [SetCurr_curr, axisP_ne_axisPP n, self_ne_axisP n, self_ne_axisPP n]
      · exact hval hnd1.2 y hyr

end Unpack

section PackLoops
variable {α : Type}

theorem packVolt_loop_null (s : Engine_SSE_Compressed α) (n : Fin 3) (line : Nat)
    (xs : List (Nat × Nat)) (i : Nat) (r : (Buffer α × Nat) × List (Event α))
    (h : forLoop xs (fun ab => packVoltBody s n line ab.1 ab.2) (none, i) = some r) :
    xs = [] ∧ r = ((none, i), []) := by
  have hb := packVoltBody_writesBlock s n line
  exact forLoop_writesBlock_null 2 _ _ _ hb xs i r h

theorem packCurr_loop_null (s : Engine_SSE_Compressed α) (n : Fin 3) (line : Nat)
    (xs : List (Nat × Nat)) (i : Nat) (r : (Buffer α × Nat) × List (Event α))
    (h : forLoop xs (fun ab => packCurrBody s n line ab.1 ab.2) (none, i) = some r) :
    xs = [] ∧ r = ((none, i), []) := by
  have hb := packCurrBody_writesBlock s n line
  exact forLoop_writesBlock_null 3 _ _ _ hb xs i r h

theorem packVolt_loop (s : Engine_SSE_Compressed α) (n : Fin 3) (line : Nat)
    (xs : List (Nat × Nat)) (buf : List α) (r : (Buffer α × Nat) × List (Event α))
    (h : forLoop xs (fun ab => packVoltBody s n line ab.1 ab.2) (some buf, 0) = some r) :
    2 * xs.length ≤ buf.length ∧
      r.1.1 = some (xs.flatMap (fun ab : Nat × Nat =>
          [s.volt (axisP n) (mkPos n line ab.1 ab.2),
            s.volt (axisPP n) (mkPos n line ab.1 ab.2)]) ++ buf.drop (2 * xs.length)) := by
  have hb := packVoltBody_writesBlock s n line
  obtain ⟨h1, h2⟩ := forLoop_writesBlock 2 _ _ _ hb xs buf 0 (Nat.zero_le _) r h
  refine ⟨by omega, ?_⟩
  rw [h2]
  simp

theorem packCurr_loop (s : Engine_SSE_Compressed α) (n : Fin 3) (line : Nat)
    (xs : List (Nat × Nat)) (buf : List α) (r : (Buffer α × Nat) × List (Event α))
    (h : forLoop xs (fun ab => packCurrBody s n line ab.1 ab.2) (some buf, 0) = some r) :
    3 * xs.length ≤ buf.length ∧
      r.1.1 = some (xs.flatMap (fun ab : Nat × Nat =>
          [s.curr n (mkPos n line ab.1 ab.2), s.curr (axisP n) (mkPos n line ab.1 ab.2),
            s.curr (axisPP n) (mkPos n line ab.1 ab.2)]) ++ buf.drop (3 * xs.length)) := by
  have hb := packCurrBody_writesBlock s n line
  obtain ⟨h1, h2⟩ := forLoop_writesBlock 3 _ _ _ hb xs buf 0 (Nat.zero_le _) r h
  refine ⟨by omega, ?_⟩
  rw [h2]
  simp

end PackLoops

section UnpackNull
variable {α : Type}

theorem unpackVolt_loop_null (n : Fin 3) (line : Nat) (xs : List (Nat × Nat))
    (st : Engine_SSE_Compressed α × Nat)
    (r : (Engine_SSE_Compressed α × Nat) × List (Event α))
    (h : forLoop xs (fun ab => unpackVoltBody none n line ab.1 ab.2) st = some r) :
    xs = [] ∧ r = (st, []) := by
  have hs : ∀ x : Nat × Nat, unpackVoltBody (none : Buffer α) n line x.1 x.2 st = none :=
    fun x => unpackVoltBody_null n line x.1 x.2 st
  exact forLoop_stuck xs (fun ab => unpackVoltBody none n line ab.1 ab.2) st hs r h

theorem unpackCurr_loop_null (n : Fin 3) (line : Nat) (xs : List (Nat × Nat))
    (st : Engine_SSE_Compressed α × Nat)
    (r : (Engine_SSE_Compressed α × Nat) × List (Event α))
    (h : forLoop xs (fun ab => unpackCurrBody none n line ab.1 ab.2) st = some r) :
    xs = [] ∧ r = (st, []) := by
  have hs : ∀ x : Nat × Nat, unpackCurrBody (none : Buffer α) n line x.1 x.2 st = none :=
    fun x => unpackCurrBody_null n line x.1 x.2 st
  exact forLoop_stuck xs (fun ab => unpackCurrBody none n line ab.1 ab.2) st hs r h

end UnpackNull

section Voltages
variable {α : Type}

theorem sendVoltages_eq (op : Operator_MPI) (n : Fin 3) (e : Engine_MPI α)
    (hup : 0 ≤ op.m_NeighborUp n) :
    sendVoltages op n e =
      (forLoop (face op n)
        (fun ab => packVoltBody e.base n (usub1 (op.numLines n)) ab.1 ab.2)
        (e.m_BufferUp n, 0)).bind fun r =>
        (MPI_Isend n r.1.1 ((e.m_BufferSize n * 2) % UINT_MOD) (op.m_NeighborUp n) op.m_MyTag).bind
          fun ev => some ({ e with m_BufferUp := Function.update e.m_BufferUp n r.1.1 }, r.2 ++ ev) := by
  unfold sendVoltages face
  rw [if_pos hup, forLoop_nested]

theorem receiveVoltages_eq (op : Operator_MPI) (msg : List α) (n : Fin 3) (e : Engine_MPI α)
    (hdown : 0 ≤ op.m_NeighborDown n) :
    receiveVoltages op msg n e =
      (MPI_Wait n (e.m_BufferDown n) ((e.m_BufferSize n * 2) % UINT_MOD) msg).bind fun w =>
        (forLoop (face op n) (fun ab => unpackVoltBody w.1 n 0 ab.1 ab.2) (e.base, 0)).bind fun r =>
          some ({ e with base := r.1.1, m_BufferDown := Function.update e.m_BufferDown n w.1 },
            w.2 ++ r.2) := by
  unfold receiveVoltages face
  rw [if_pos hdown]
  simp only [forLoop_nested]

theorem update_up_self (e : Engine_MPI α) (n : Fin 3) (b : Buffer α) (h : e.m_BufferUp n = b) :
    { e with m_BufferUp := Function.update e.m_BufferUp n b } = e := by
  subst h
  cases e
  simp

theorem update_down_self (e : Engine_MPI α) (n : Fin 3) (b : Buffer α) (h : e.m_BufferDown n = b) :
    { e with base := e.base, m_BufferDown := Function.update e.m_BufferDown n b } = e := by
  subst h
  cases e
  simp

/-- On an axis whose up-buffer is NULL a returning send block leaves the
engine as it was and reads no field. -/
theorem sendVoltages_null (op : Operator_MPI) (n : Fin 3) (e q : Engine_MPI α)
    (t : List (Event α)) (hU : e.m_BufferUp n = none) (h : sendVoltages op n e = some (q, t)) :
    q = e ∧ ∀ ev ∈ t, ev.kind = Kind.send ∧ ev.axis = some n := by
  by_cases hup : 0 ≤ op.m_NeighborUp n
  · rw [sendVoltages_eq op n e hup, hU] at h
    obtain ⟨r, hr, h⟩ := Option.bind_eq_some.mp h
    obtain ⟨_, hr2⟩ := packVolt_loop_null e.base n (usub1 (op.numLines n)) (face op n) 0 r hr
    subst hr2
    obtain ⟨ev, hev, h⟩ := Option.bind_eq_some.mp h
    simp only [Option.some.injEq, Prod.mk.injEq] at h
    obtain ⟨hq, ht⟩ := h
    refine ⟨?_, ?_⟩
    · rw [← hq]; exact update_up_self e n none hU
    · subst ht
      simp only [MPI_Isend] at hev
      split_ifs at hev
      simp only [Option.some.injEq] at hev
      subst hev
      simp [Event.kind, Event.axis]
  · simp only [sendVoltages, if_neg hup, Option.some.injEq, Prod.mk.injEq] at h
    obtain ⟨hq, ht⟩ := h
    subst hq; subst ht
    simp

/-- On an axis whose down-buffer is NULL a returning receive block leaves the
engine as it was and writes no field. -/
theorem receiveVoltages_null (op : Operator_MPI) (msg : List α) (n : Fin 3) (e q : Engine_MPI α)
    (t : List (Event α)) (hD : e.m_BufferDown n = none)
    (h : receiveVoltages op msg n e = some (q, t)) :
    q = e ∧ ∀ ev ∈ t, ev.kind = Kind.wait ∧ ev.axis = some n := by
  by_cases hdown : 0 ≤ op.m_NeighborDown n
  · rw [receiveVoltages_eq op msg n e hdown, hD] at h
    obtain ⟨w, hw, h⟩ := Option.bind_eq_some.mp h
    have hw2 : w = (none, [Event.wait n]) := by
      simp only [MPI_Wait] at hw
      split_ifs at hw
      simp only [Option.some.injEq] at hw
      exact hw.symm
    subst hw2
    obtain ⟨r, hr, h⟩ := Option.bind_eq_some.mp h
    obtain ⟨_, hr2⟩ := unpackVolt_loop_null n 0 (face op n) (e.base, 0) r hr
    subst hr2
    simp only [Option.some.injEq, Prod.mk.injEq] at h
    obtain ⟨hq, ht⟩ := h
    refine ⟨?_, ?_⟩
    · rw [← hq]; exact update_down_self e n none hD
    · subst ht
      simp [Event.kind, Event.axis]
  · simp only [receiveVoltages, if_neg hdown, Option.some.injEq, Prod.mk.injEq] at h
    obtain ⟨hq, ht⟩ := h
    subst hq; subst ht
    simp

theorem exchangeVoltagesAxis_split (op : Operator_MPI) (rx : Fin 3 → List α) (n : Fin 3)
    (e e1 : Engine_MPI α) (t : List (Event α))
    (h : exchangeVoltagesAxis op rx n e = some (e1, t)) :
    ∃ q ts tr, sendVoltages op n e = some (q, ts) ∧
      receiveVoltages op (rx n) n q = some (e1, tr) ∧ t = ts ++ tr := by
  unfold exchangeVoltagesAxis at h
  obtain ⟨q1, hq1, h⟩ := Option.bind_eq_some.mp h
  obtain ⟨q2, hq2, h⟩ := Option.bind_eq_some.mp h
  simp only [Option.some.injEq, Prod.mk.injEq] at h
  exact ⟨q1.1, q1.2, q2.2, hq1, by rw [hq2, ← h.1], h.2.symm⟩

/-- On an axis without buffers a returning exchange leaves the engine as it
was and touches no field. -/
theorem exchangeVoltagesAxis_null (op : Operator_MPI) (rx : Fin 3 → List α) (n : Fin 3)
    (e e1 : Engine_MPI α) (t : List (Event α)) (hU : e.m_BufferUp n = none)
    (hD : e.m_BufferDown n = none) (h : exchangeVoltagesAxis op rx n e = some (e1, t)) :
    e1 = e := by
  obtain ⟨q, ts, tr, hs, hr, _⟩ := exchangeVoltagesAxis_split op rx n e e1 t h
  have hq := (sendVoltages_null op n e q ts hU hs).1
  subst hq
  exact (receiveVoltages_null op (rx n) n q e1 tr hD hr).1

theorem postReceiveVoltages_state (op : Operator_MPI) (n : Fin 3) (e : Engine_MPI α)
    (r : Engine_MPI α × List (Event α)) (h : postReceiveVoltages op n e = some r) : r.1 = e := by
  unfold postReceiveVoltages at h
  split_ifs at h
  · obtain ⟨ev, _, h⟩ := Option.bind_eq_some.mp h
    simp only [Option.some.injEq] at h
    rw [← h]
  · simp only [Option.some.injEq] at h
    rw [← h]

/-- The steps of a returning voltage exchange in distributed mode. -/
theorem SendReceiveVoltages_steps (op : Operator_MPI) (rx : Fin 3 → List α)
    (e e1 : Engine_MPI α) (tr : List (Event α)) (hen : op.MPIEnabled = true)
    (h : SendReceiveVoltages op rx e = some (e1, tr)) :
    ∃ tp s1 t0 s2 t1 t2,
      forLoop [0, 1, 2] (postReceiveVoltages op) e = some (e, tp) ∧
      exchangeVoltagesAxis op rx 0 e = some (s1, t0) ∧
      exchangeVoltagesAxis op rx 1 s1 = some (s2, t1) ∧
      exchangeVoltagesAxis op rx 2 s2 = some (e1, t2) ∧
      tr = tp ++ (t0 ++ (t1 ++ t2)) := by
  unfold SendReceiveVoltages at h
  rw [if_neg (by simp [hen])] at h
  obtain ⟨r1, hr1, h⟩ := Option.bind_eq_some.mp h
  have hs : r1.1 = e :=
    forLoop_invariant (fun s => s = e) _ _
      (fun x s r hs hb => by rw [postReceiveVoltages_state op x s r hb, hs]) e r1 rfl hr1
  obtain ⟨r2, hr2, h⟩ := Option.bind_eq_some.mp h
  rw [hs] at hr2
  simp only [forLoop_cons, forLoop_nil] at hr2
  obtain ⟨a0, ha0, hr2⟩ := Option.bind_eq_some.mp hr2
  obtain ⟨b0, hb0, hr2⟩ := Option.bind_eq_some.mp hr2
  obtain ⟨a1, ha1, hb0⟩ := Option.bind_eq_some.mp hb0
  obtain ⟨b1, hb1, hb0⟩ := Option.bind_eq_some.mp hb0
  obtain ⟨a2, ha2, hb1⟩ := Option.bind_eq_some.mp hb1
  simp only [Option.some_bind, Option.some.injEq] at hb1 hb0 hr2 h
  refine ⟨r1.2, a0.1, a0.2, a1.1, a1.2, a2.2, ?_, ha0, ha1, ?_, ?_⟩
  · rw [hr1, ← hs]
  · rw [ha2]
    have : a2.1 = e1 := by
      have h1 := congrArg Prod.fst h
      simp only at h1
      rw [← h1, ← hr2, ← hb0, ← hb1]
    rw [← this]
  · have h2 := congrArg Prod.snd h
    simp only at h2
    rw [← h2, ← hr2, ← hb0, ← hb1]
    simp

end Voltages

section Voltages
variable {α : Type}

theorem face_length (op : Operator_MPI) (n : Fin 3) :
    (face op n).length = op.numLines (axisP n) * op.numLines (axisPP n) := by
  simp [face, List.length_product]

theorem face_nodup (op : Operator_MPI) (n : Fin 3) : (face op n).Nodup :=
  List.Nodup.product (List.nodup_range _) (List.nodup_range _)

theorem mem_face (op : Operator_MPI) (n : Fin 3) (a b : Nat) :
    (a, b) ∈ face op n ↔ a < op.numLines (axisP n) ∧ b < op.numLines (axisPP n) := by
  simp [face, List.mem_product]

theorem packedVolt_length (s : Engine_SSE_Compressed α) (op : Operator_MPI) (n : Fin 3) :
    (packedVolt s op n).length = 2 * (face op n).length := by
  unfold packedVolt
  apply flatMap_length_const
  intro x
  rfl

/-- A returning send block on an allocated up-buffer: the buffer was large
enough for the face, it now starts with the packed samples, and nothing else
of the engine changed. -/
theorem sendVoltages_packed (op : Operator_MPI) (n : Fin 3) (e q : Engine_MPI α)
    (t : List (Event α)) (b : List α) (hup : 0 ≤ op.m_NeighborUp n)
    (hb : e.m_BufferUp n = some b) (h : sendVoltages op n e = some (q, t)) :
    2 * (face op n).length ≤ b.length ∧
      q = { e with m_BufferUp := (Function.update e.m_BufferUp n
              (some (packedVolt e.base op n ++ b.drop (2 * (face op n).length)))) } := by
  rw [sendVoltages_eq op n e hup, hb] at h
  obtain ⟨r, hr, h⟩ := Option.bind_eq_some.mp h
  obtain ⟨hlen, hr2⟩ := packVolt_loop e.base n (usub1 (op.numLines n)) (face op n) b r hr
  obtain ⟨ev, _, h⟩ := Option.bind_eq_some.mp h
  simp only [Option.some.injEq, Prod.mk.injEq] at h
  refine ⟨hlen, ?_⟩
  rw [← h.1, hr2]
  rfl

theorem sendVoltages_frame (op : Operator_MPI) (n : Fin 3) (e q : Engine_MPI α)
    (t : List (Event α)) (h : sendVoltages op n e = some (q, t)) :
    q.base = e.base ∧ q.m_BufferDown = e.m_BufferDown ∧ q.m_BufferSize = e.m_BufferSize ∧
      (∀ m, m ≠ n → q.m_BufferUp m = e.m_BufferUp m) := by
  by_cases hup : 0 ≤ op.m_NeighborUp n
  · rw [sendVoltages_eq op n e hup] at h
    obtain ⟨r, _, h⟩ := Option.bind_eq_some.mp h
    obtain ⟨ev, _, h⟩ := Option.bind_eq_some.mp h
    simp only [Option.some.injEq, Prod.mk.injEq] at h
    rw [← h.1]
    refine ⟨rfl, rfl, rfl, fun m hm => ?_⟩
    simp [Function.update, hm]
  · simp only [sendVoltages, if_neg hup, Option.some.injEq, Prod.mk.injEq] at h
    rw [← h.1]
    exact ⟨rfl, rfl, rfl, fun _ _ => rfl⟩

theorem unpackVoltBody_keeps (buf : Buffer α) (n : Fin 3) (line a b : Nat)
    (st : Engine_SSE_Compressed α × Nat)
    (r : (Engine_SSE_Compressed α × Nat) × List (Event α))
    (h : unpackVoltBody buf n line a b st = some r) :
    r.1.1.curr = st.1.curr ∧ r.1.1.numTS = st.1.numTS ∧
      ∀ ev ∈ r.2, ev.kind = Kind.set ∧ ev.axis = some n := by
  unfold unpackVoltBody at h
  obtain ⟨v1, _, h⟩ := Option.bind_eq_some.mp h
  obtain ⟨v2, _, h⟩ := Option.bind_eq_some.mp h
  simp only [Option.some.injEq] at h
  rw [← h]
  refine ⟨rfl, rfl, ?_⟩
  simp [Event.kind, Event.axis]

theorem packVoltBody_events (s : Engine_SSE_Compressed α) (n : Fin 3) (line a b : Nat)
    (st : Buffer α × Nat) (r : (Buffer α × Nat) × List (Event α))
    (h : packVoltBody s n line a b st = some r) :
    ∀ ev ∈ r.2, ev.kind = Kind.get ∧ ev.axis = some n := by
  unfold packVoltBody at h
  obtain ⟨v1, _, h⟩ := Option.bind_eq_some.mp h
  obtain ⟨v2, _, h⟩ := Option.bind_eq_some.mp h
  simp only [Option.some.injEq] at h
  rw [← h]
  simp [Event.kind, Event.axis]

theorem receiveVoltages_frame (op : Operator_MPI) (msg : List α) (n : Fin 3) (e q : Engine_MPI α)
    (t : List (Event α)) (h : receiveVoltages op msg n e = some (q, t)) :
    q.m_BufferUp = e.m_BufferUp ∧ q.m_BufferSize = e.m_BufferSize ∧
      q.base.curr = e.base.curr ∧ q.base.numTS = e.base.numTS ∧
      (∀ m, m ≠ n → q.m_BufferDown m = e.m_BufferDown m) := by
  by_cases hdown : 0 ≤ op.m_NeighborDown n
  · rw [receiveVoltages_eq op msg n e hdown] at h
    obtain ⟨w, _, h⟩ := Option.bind_eq_some.mp h
    obtain ⟨r, hr, h⟩ := Option.bind_eq_some.mp h
    have hinv := forLoop_invariant
      (fun s : Engine_SSE_Compressed α × Nat =>
        s.1.curr = e.base.curr ∧ s.1.numTS = e.base.numTS) _ _
      (fun x s r hs hb => by
        have := unpackVoltBody_keeps w.1 n 0 x.1 x.2 s r hb
        exact ⟨this.1.trans hs.1, this.2.1.trans hs.2⟩)
      (e.base, 0) r ⟨rfl, rfl⟩ hr
    simp only [Option.some.injEq, Prod.mk.injEq] at h
    rw [← h.1]
    refine ⟨rfl, rfl, hinv.1, hinv.2, fun m hm => ?_⟩
    simp [Function.update, hm]
  · simp only [receiveVoltages, if_neg hdown, Option.some.injEq, Prod.mk.injEq] at h
    rw [← h.1]
    exact ⟨rfl, rfl, rfl, rfl, fun _ _ => rfl⟩

/-- A returning receive block whose message holds one pair of samples per
face coordinate: every face coordinate of the first line ends with its pair. -/
theorem receiveVoltages_unpacked (op : Operator_MPI) (msg : List α) (n : Fin 3)
    (e q : Engine_MPI α) (t : List (Event α)) (g1 g2 : Nat × Nat → α)
    (hdown : 0 ≤ op.m_NeighborDown n)
    (hmsg : msg = (face op n).flatMap fun x => [g1 x, g2 x])
    (h : receiveVoltages op msg n e = some (q, t)) :
    ∀ x ∈ face op n,
      q.base.volt (axisP n) (mkPos n 0 x.1 x.2) = g1 x ∧
        q.base.volt (axisPP n) (mkPos n 0 x.1 x.2) = g2 x := by
  rw [receiveVoltages_eq op msg n e hdown] at h
  obtain ⟨w, hw, h⟩ := Option.bind_eq_some.mp h
  obtain ⟨r, hr, h⟩ := Option.bind_eq_some.mp h
  simp only [Option.some.injEq, Prod.mk.injEq] at h
  have hq : q.base = r.1.1 := by rw [← h.1]
  cases hbd : e.m_BufferDown n with
  | none =>
    rw [hbd] at hw
    have hw2 : w.1 = none := by
      simp only [MPI_Wait] at hw
      split_ifs at hw
      simp only [Option.some.injEq] at hw
      rw [← hw]
    rw [hw2] at hr
    obtain ⟨hnil, _⟩ := unpackVolt_loop_null n 0 (face op n) (e.base, 0) r hr
    intro x hx
    rw [hnil] at hx
    simp at hx
  | some b =>
    rw [hbd] at hw
    have hw2 : w.1 = some (msg ++ b.drop msg.length) := by
      simp only [MPI_Wait] at hw
      split_ifs at hw
      simp only [Option.some.injEq] at hw
      rw [← hw]
    rw [hw2] at hr
    obtain ⟨st1, hl, _, _, _, hval⟩ := unpackVolt_loop n 0 (msg ++ b.drop msg.length) g1 g2
      (face op n) (b.drop msg.length) 0 e.base (by rw [List.drop_zero, hmsg])
    rw [hl] at hr
    simp only [Option.some.injEq] at hr
    rw [hq, ← hr]
    exact hval (face_nodup op n)

end Voltages

section InitShape
variable {α : Type} [Inhabited α]

theorem bufferShape_Init (B : BaseMethods α) (op : Operator_MPI) (e : Engine_MPI α) :
    bufferShape (Init B op e) = fun i =>
      if op.MPIEnabled = true ∧ i = 2 then
        ((op.numLines 0 * op.numLines 1) % UINT_MOD,
          (if 0 ≤ op.m_NeighborUp 2 then
            some (((op.numLines 0 * op.numLines 1) % UINT_MOD * 3) % UINT_MOD) else none),
          (if 0 ≤ op.m_NeighborDown 2 then
            some (((op.numLines 0 * op.numLines 1) % UINT_MOD * 3) % UINT_MOD) else none))
      else (0, none, none) := by
  funext i
  unfold Init bufferShape
  by_cases hen : op.MPIEnabled = true <;> by_cases hu : 0 ≤ op.m_NeighborUp 2 <;>
    by_cases hd : 0 ≤ op.m_NeighborDown 2 <;> fin_cases i <;>
    simp [hen, hu, hd, Function.update, newFloat]

/-- What the buffer state left by Init in distributed mode says about an engine. -/
theorem initShape_facts (B : BaseMethods α) (op : Operator_MPI) (e e0 : Engine_MPI α)
    (hen : op.MPIEnabled = true) (hs : bufferShape e = bufferShape (Init B op e0)) :
    e.m_BufferSize 2 = (op.numLines 0 * op.numLines 1) % UINT_MOD ∧
    e.m_BufferSize 0 = 0 ∧ e.m_BufferSize 1 = 0 ∧
    e.m_BufferUp 0 = none ∧ e.m_BufferUp 1 = none ∧
    e.m_BufferDown 0 = none ∧ e.m_BufferDown 1 = none ∧
    (0 ≤ op.m_NeighborUp 2 → ∃ b, e.m_BufferUp 2 = some b ∧
      b.length = ((op.numLines 0 * op.numLines 1) % UINT_MOD * 3) % UINT_MOD) ∧
    (0 ≤ op.m_NeighborDown 2 → ∃ b, e.m_BufferDown 2 = some b ∧
      b.length = ((op.numLines 0 * op.numLines 1) % UINT_MOD * 3) % UINT_MOD) := by
  rw [bufferShape_Init] at hs
  have h0 := congrFun hs 0
  have h1 := congrFun hs 1
  have h2 := congrFun hs 2
  simp only [bufferShape, hen, true_and, Prod.mk.injEq] at h0 h1 h2
  simp only [Fin.isValue, Fin.reduceEq, ↓reduceIte, Prod.mk.injEq, Option.map_eq_none'] at h0 h1 h2
  refine ⟨h2.1, h0.1, h1.1, h0.2.1, h1.2.1, h0.2.2, h1.2.2, ?_, ?_⟩
  · intro hu
    have := h2.2.1
    rw [if_pos hu] at this
    cases hb : e.m_BufferUp 2 with
    | none => rw [hb] at this; simp at this
    | some b => rw [hb] at this; simp only [Option.map_some', Option.some.injEq] at this; exact ⟨b, rfl, this⟩
  · intro hd
    have := h2.2.2
    rw [if_pos hd] at this
    cases hb : e.m_BufferDown 2 with
    | none => rw [hb] at this; simp at this
    | some b => rw [hb] at this; simp only [Option.map_some', Option.some.injEq] at this; exact ⟨b, rfl, this⟩

end InitShape

section RoundTrip
variable {α : Type} [Inhabited α]

theorem face_axis2 (op : Operator_MPI) :
    face op 2 = List.range (op.numLines 0) ×ˢ List.range (op.numLines 1) := rfl

/-- A returning voltage exchange of an engine initialised in distributed mode
with a valid up link on axis 2: the up-buffer of axis 2 ends holding the packed
last line, and the payload size is exactly the packed length. -/
theorem SendReceiveVoltages_packs (B : BaseMethods α) (op : Operator_MPI) (rx : Fin 3 → List α)
    (e0 e e1 : Engine_MPI α) (tr : List (Event α)) (hen : op.MPIEnabled = true)
    (hinit : bufferShape e = bufferShape (Init B op e0)) (hup : 0 ≤ op.m_NeighborUp 2)
    (h : SendReceiveVoltages op rx e = some (e1, tr)) :
    (e1.m_BufferUp 2).map (List.take (e1.m_BufferSize 2 * 2 % UINT_MOD)) =
      some (packedVolt e.base op 2) := by
  obtain ⟨hsz, _, _, hu0, hu1, hd0, hd1, hu2, _⟩ := initShape_facts B op e e0 hen hinit
  obtain ⟨b, hb, hblen⟩ := hu2 hup
  obtain ⟨tp, s1, t0, s2, t1, t2, _, h0, h1, h2, _⟩ := SendReceiveVoltages_steps op rx e e1 tr hen h
  have hs1 := exchangeVoltagesAxis_null op rx 0 e s1 t0 hu0 hd0 h0
  subst hs1
  have hs2 := exchangeVoltagesAxis_null op rx 1 s1 s2 t1 hu1 hd1 h1
  subst hs2
  obtain ⟨q, ts, trr, hs, hr, _⟩ := exchangeVoltagesAxis_split op rx 2 s2 e1 t2 h2
  obtain ⟨hlen, hq⟩ := sendVoltages_packed op 2 s2 q ts b hup hb hs
  obtain ⟨hfu, hfs, _⟩ := receiveVoltages_frame op (rx 2) 2 q e1 trr hr
  have hflen : (face op 2).length = op.numLines 0 * op.numLines 1 := face_length op 2
  have hM : b.length < UINT_MOD := by rw [hblen]; exact Nat.mod_lt _ (by decide)
  have hsmall : op.numLines 0 * op.numLines 1 < UINT_MOD := by omega
  have hsize : e1.m_BufferSize 2 = op.numLines 0 * op.numLines 1 := by
    rw [hfs, hq]
    show s2.m_BufferSize 2 = _
    rw [hsz, Nat.mod_eq_of_lt hsmall]
  have hcnt : e1.m_BufferSize 2 * 2 % UINT_MOD = (packedVolt s2.base op 2).length := by
    rw [hsize, packedVolt_length, hflen, Nat.mod_eq_of_lt (by omega)]
    omega
  rw [hfu, hq, hcnt]
  simp [Function.update]

/-- A returning voltage exchange of an engine initialised in distributed mode
with a valid down link on axis 2, whose axis-2 message holds one pair of
samples per face coordinate: the first line ends holding these pairs. -/
theorem SendReceiveVoltages_unpacks (B : BaseMethods α) (op : Operator_MPI)
    (rx : Fin 3 → List α) (e0 e e1 : Engine_MPI α) (tr : List (Event α))
    (g1 g2 : Nat × Nat → α) (hen : op.MPIEnabled = true)
    (hinit : bufferShape e = bufferShape (Init B op e0)) (hdown : 0 ≤ op.m_NeighborDown 2)
    (hmsg : rx 2 = (face op 2).flatMap fun x => [g1 x, g2 x])
    (h : SendReceiveVoltages op rx e = some (e1, tr)) :
    ∀ i j, i < op.numLines 0 → j < op.numLines 1 →
      e1.base.volt 0 (i, j, 0) = g1 (i, j) ∧ e1.base.volt 1 (i, j, 0) = g2 (i, j) := by
  obtain ⟨_, _, _, hu0, hu1, hd0, hd1, _, _⟩ := initShape_facts B op e e0 hen hinit
  obtain ⟨tp, s1, t0, s2, t1, t2, _, h0, h1, h2, _⟩ := SendReceiveVoltages_steps op rx e e1 tr hen h
  have hs1 := exchangeVoltagesAxis_null op rx 0 e s1 t0 hu0 hd0 h0
  subst hs1
  have hs2 := exchangeVoltagesAxis_null op rx 1 s1 s2 t1 hu1 hd1 h1
  subst hs2
  obtain ⟨q, ts, trr, _, hr, _⟩ := exchangeVoltagesAxis_split op rx 2 s2 e1 t2 h2
  intro i j hi hj
  exact receiveVoltages_unpacked op (rx 2) 2 q e1 trr g1 g2 hdown hmsg hr (i, j)
    ((mem_face op 2 i j).mpr ⟨hi, hj⟩)

end RoundTrip

section Currents
variable {α : Type}

theorem sendCurrents_eq (op : Operator_MPI) (n : Fin 3) (e : Engine_MPI α)
    (hdown : 0 ≤ op.m_NeighborDown n) :
    sendCurrents op n e =
      (forLoop (face op n) (fun ab => packCurrBody e.base n 0 ab.1 ab.2)
        (e.m_BufferDown n, 0)).bind fun r =>
        (MPI_Isend n r.1.1 ((e.m_BufferSize n * 3) % UINT_MOD) (op.m_NeighborDown n)
          op.m_MyTag).bind
          fun ev =>
            some ({ e with m_BufferDown := Function.update e.m_BufferDown n r.1.1 }, r.2 ++ ev) := by
  unfold sendCurrents face
  rw [if_pos hdown, forLoop_nested]

theorem receiveCurrents_eq (op : Operator_MPI) (msg : List α) (n : Fin 3) (e : Engine_MPI α)
    (hup : 0 ≤ op.m_NeighborUp n) :
    receiveCurrents op msg n e =
      (MPI_Wait n (e.m_BufferUp n) ((e.m_BufferSize n * 3) % UINT_MOD) msg).bind fun w =>
        (forLoop (face op n)
          (fun ab => unpackCurrBody w.1 n (usub1 (op.numLines n)) ab.1 ab.2) (e.base, 0)).bind
          fun r =>
            some ({ e with base := r.1.1, m_BufferUp := Function.update e.m_BufferUp n w.1 },
              w.2 ++ r.2) := by
  unfold receiveCurrents face
  rw [if_pos hup]
  simp only [forLoop_nested]

theorem update_down_only_self (e : Engine_MPI α) (n : Fin 3) (b : Buffer α)
    (h : e.m_BufferDown n = b) :
    { e with m_BufferDown := Function.update e.m_BufferDown n b } = e := by
  subst h
  cases e
  simp

theorem update_up_base_self (e : Engine_MPI α) (n : Fin 3) (b : Buffer α)
    (h : e.m_BufferUp n = b) :
    { e with base := e.base, m_BufferUp := Function.update e.m_BufferUp n b } = e := by
  subst h
  cases e
  simp

/-- On an axis whose down-buffer is NULL a returning send block leaves the
engine as it was and reads no field. -/
theorem sendCurrents_null (op : Operator_MPI) (n : Fin 3) (e q : Engine_MPI α)
    (t : List (Event α)) (hD : e.m_BufferDown n = none) (h : sendCurrents op n e = some (q, t)) :
    q = e ∧ ∀ ev ∈ t, ev.kind = Kind.send ∧ ev.axis = some n := by
  by_cases hdown : 0 ≤ op.m_NeighborDown n
  · rw [sendCurrents_eq op n e hdown, hD] at h
    obtain ⟨r, hr, h⟩ := Option.bind_eq_some.mp h
    obtain ⟨_, hr2⟩ := packCurr_loop_null e.base n 0 (face op n) 0 r hr
    subst hr2
    obtain ⟨ev, hev, h⟩ := Option.bind_eq_some.mp h
    simp only [Option.some.injEq, Prod.mk.injEq] at h
    obtain ⟨hq, ht⟩ := h
    refine ⟨?_, ?_⟩
    · rw [← hq]; exact update_down_only_self e n none hD
    · subst ht
      simp only [MPI_Isend] at hev
      split_ifs at hev
      simp only [Option.some.injEq] at hev
      subst hev
      simp [Event.kind, Event.axis]
  · simp only [sendCurrents, if_neg hdown, Option.some.injEq, Prod.mk.injEq] at h
    obtain ⟨hq, ht⟩ := h
    subst hq; subst ht
    simp

/-- On an axis whose up-buffer is NULL a returning receive block leaves the
engine as it was and writes no field. -/
theorem receiveCurrents_null (op : Operator_MPI) (msg : List α) (n : Fin 3) (e q : Engine_MPI α)
    (t : List (Event α)) (hU : e.m_BufferUp n = none)
    (h : receiveCurrents op msg n e = some (q, t)) :
    q = e ∧ ∀ ev ∈ t, ev.kind = Kind.wait ∧ ev.axis = some n := by
  by_cases hup : 0 ≤ op.m_NeighborUp n
  · rw [receiveCurrents_eq op msg n e hup, hU] at h
    obtain ⟨w, hw, h⟩ := Option.bind_eq_some.mp h
    have hw2 : w = (none, [Event.wait n]) := by
      simp only [MPI_Wait] at hw
      split_ifs at hw
      simp only [Option.some.injEq] at hw
      exact hw.symm
    subst hw2
    obtain ⟨r, hr, h⟩ := Option.bind_eq_some.mp h
    obtain ⟨_, hr2⟩ := unpackCurr_loop_null n (usub1 (op.numLines n)) (face op n) (e.base, 0) r hr
    subst hr2
    simp only [Option.some.injEq, Prod.mk.injEq] at h
    obtain ⟨hq, ht⟩ := h
    refine ⟨?_, ?_⟩
    · rw [← hq]; exact update_up_base_self e n none hU
    · subst ht
      simp [Event.kind, Event.axis]
  · simp only [receiveCurrents, if_neg hup, Option.some.injEq, Prod.mk.injEq] at h
    obtain ⟨hq, ht⟩ := h
    subst hq; subst ht
    simp

theorem exchangeCurrentsAxis_split (op : Operator_MPI) (rx : Fin 3 → List α) (n : Fin 3)
    (e e1 : Engine_MPI α) (t : List (Event α))
    (h : exchangeCurrentsAxis op rx n e = some (e1, t)) :
    ∃ q ts tr, sendCurrents op n e = some (q, ts) ∧
      receiveCurrents op (rx n) n q = some (e1, tr) ∧ t = ts ++ tr := by
  unfold exchangeCurrentsAxis at h
  obtain ⟨q1, hq1, h⟩ := Option.bind_eq_some.mp h
  obtain ⟨q2, hq2, h⟩ := Option.bind_eq_some.mp h
  simp only [Option.some.injEq, Prod.mk.injEq] at h
  exact ⟨q1.1, q1.2, q2.2, hq1, by rw [hq2, ← h.1], h.2.symm⟩

/-- On an axis without buffers a returning exchange leaves the engine as it was. -/
theorem exchangeCurrentsAxis_null (op : Operator_MPI) (rx : Fin 3 → List α) (n : Fin 3)
    (e e1 : Engine_MPI α) (t : List (Event α)) (hU : e.m_BufferUp n = none)
    (hD : e.m_BufferDown n = none) (h : exchangeCurrentsAxis op rx n e = some (e1, t)) :
    e1 = e := by
  obtain ⟨q, ts, tr, hs, hr, _⟩ := exchangeCurrentsAxis_split op rx n e e1 t h
  have hq := (sendCurrents_null op n e q ts hD hs).1
  subst hq
  exact (receiveCurrents_null op (rx n) n q e1 tr hU hr).1

theorem postReceiveCurrents_state (op : Operator_MPI) (n : Fin 3) (e : Engine_MPI α)
    (r : Engine_MPI α × List (Event α)) (h : postReceiveCurrents op n e = some r) : r.1 = e := by
  unfold postReceiveCurrents at h
  split_ifs at h
  · obtain ⟨ev, _, h⟩ := Option.bind_eq_some.mp h
    simp only [Option.some.injEq] at h
    rw [← h]
  · simp only [Option.some.injEq] at h
    rw [← h]

/-- The steps of a returning current exchange in distributed mode. -/
theorem SendReceiveCurrents_steps (op : Operator_MPI) (rx : Fin 3 → List α)
    (e e1 : Engine_MPI α) (tr : List (Event α)) (hen : op.MPIEnabled = true)
    (h : SendReceiveCurrents op rx e = some (e1, tr)) :
    ∃ tp s1 t0 s2 t1 t2,
      forLoop [0, 1, 2] (postReceiveCurrents op) e = some (e, tp) ∧
      exchangeCurrentsAxis op rx 0 e = some (s1, t0) ∧
      exchangeCurrentsAxis op rx 1 s1 = some (s2, t1) ∧
      exchangeCurrentsAxis op rx 2 s2 = some (e1, t2) ∧
      tr = tp ++ (t0 ++ (t1 ++ t2)) := by
  unfold SendReceiveCurrents at h
  rw [if_neg (by simp [hen])] at h
  obtain ⟨r1, hr1, h⟩ := Option.bind_eq_some.mp h
  have hs : r1.1 = e :=
    forLoop_invariant (fun s => s = e) _ _
      (fun x s r hs hb => by rw [postReceiveCurrents_state op x s r hb, hs]) e r1 rfl hr1
  obtain ⟨r2, hr2, h⟩ := Option.bind_eq_some.mp h
  rw [hs] at hr2
  simp only [forLoop_cons, forLoop_nil] at hr2
  obtain ⟨a0, ha0, hr2⟩ := Option.bind_eq_some.mp hr2
  obtain ⟨b0, hb0, hr2⟩ := Option.bind_eq_some.mp hr2
  obtain ⟨a1, ha1, hb0⟩ := Option.bind_eq_some.mp hb0
  obtain ⟨b1, hb1, hb0⟩ := Option.bind_eq_some.mp hb0
  obtain ⟨a2, ha2, hb1⟩ := Option.bind_eq_some.mp hb1
  simp only [Option.some_bind, Option.some.injEq] at hb1 hb0 hr2 h
  refine ⟨r1.2, a0.1, a0.2, a1.1, a1.2, a2.2, ?_, ha0, ha1, ?_, ?_⟩
  · rw [hr1, ← hs]
  · rw [ha2]
    have : a2.1 = e1 := by
      have h1 := congrArg Prod.fst h
      simp only at h1
      rw [← h1, ← hr2, ← hb0, ← hb1]
    rw [← this]
  · have h2 := congrArg Prod.snd h
    simp only at h2
    rw [← h2, ← hr2, ← hb0, ← hb1]
    simp

theorem packedCurr_length (s : Engine_SSE_Compressed α) (op : Operator_MPI) (n : Fin 3) :
    (packedCurr s op n).length = 3 * (face op n).length := by
  unfold packedCurr
  apply flatMap_length_const
  intro x
  rfl

/-- A returning send block on an allocated down-buffer: the buffer was large
enough for the face, it now starts with the packed samples, and nothing else
of the engine changed. -/
theorem sendCurrents_packed (op : Operator_MPI) (n : Fin 3) (e q : Engine_MPI α)
    (t : List (Event α)) (b : List α) (hdown : 0 ≤ op.m_NeighborDown n)
    (hb : e.m_BufferDown n = some b) (h : sendCurrents op n e = some (q, t)) :
    3 * (face op n).length ≤ b.length ∧
      q = { e with m_BufferDown := (Function.update e.m_BufferDown n
              (some (packedCurr e.base op n ++ b.drop (3 * (face op n).length)))) } := by
  rw [sendCurrents_eq op n e hdown, hb] at h
  obtain ⟨r, hr, h⟩ := Option.bind_eq_some.mp h
  obtain ⟨hlen, hr2⟩ := packCurr_loop e.base n 0 (face op n) b r hr
  obtain ⟨ev, _, h⟩ := Option.bind_eq_some.mp h
  simp only [Option.some.injEq, Prod.mk.injEq] at h
  refine ⟨hlen, ?_⟩
  rw [← h.1, hr2]
  rfl

theorem sendCurrents_frame (op : Operator_MPI) (n : Fin 3) (e q : Engine_MPI α)
    (t : List (Event α)) (h : sendCurrents op n e = some (q, t)) :
    q.base = e.base ∧ q.m_BufferUp = e.m_BufferUp ∧ q.m_BufferSize = e.m_BufferSize ∧
      (∀ m, m ≠ n → q.m_BufferDown m = e.m_BufferDown m) := by
  by_cases hdown : 0 ≤ op.m_NeighborDown n
  · rw [sendCurrents_eq op n e hdown] at h
    obtain ⟨r, _, h⟩ := Option.bind_eq_some.mp h
    obtain ⟨ev, _, h⟩ := Option.bind_eq_some.mp h
    simp only [Option.some.injEq, Prod.mk.injEq] at h
    rw [← h.1]
    refine ⟨rfl, rfl, rfl, fun m hm => ?_⟩
    simp [Function.update, hm]
  · simp only [sendCurrents, if_neg hdown, Option.some.injEq, Prod.mk.injEq] at h
    rw [← h.1]
    exact ⟨rfl, rfl, rfl, fun _ _ => rfl⟩

theorem unpackCurrBody_keeps (buf : Buffer α) (n : Fin 3) (line a b : Nat)
    (st : Engine_SSE_Compressed α × Nat)
    (r : (Engine_SSE_Compressed α × Nat) × List (Event α))
    (h : unpackCurrBody buf n line a b st = some r) :
    r.1.1.volt = st.1.volt ∧ r.1.1.numTS = st.1.numTS ∧
      ∀ ev ∈ r.2, ev.kind = Kind.set ∧ ev.axis = some n := by
  unfold unpackCurrBody at h
  obtain ⟨v1, _, h⟩ := Option.bind_eq_some.mp h
  obtain ⟨v2, _, h⟩ := Option.bind_eq_some.mp h
  obtain ⟨v3, _, h⟩ := Option.bind_eq_some.mp h
  simp only [Option.some.injEq] at h
  rw [← h]
  refine ⟨rfl, rfl, ?_⟩
  simp [Event.kind, Event.axis]

theorem packCurrBody_events (s : Engine_SSE_Compressed α) (n : Fin 3) (line a b : Nat)
    (st : Buffer α × Nat) (r : (Buffer α × Nat) × List (Event α))
    (h : packCurrBody s n line a b st = some r) :
    ∀ ev ∈ r.2, ev.kind = Kind.get ∧ ev.axis = some n := by
  unfold packCurrBody at h
  obtain ⟨v1, _, h⟩ := Option.bind_eq_some.mp h
  obtain ⟨v2, _, h⟩ := Option.bind_eq_some.mp h
  obtain ⟨v3, _, h⟩ := Option.bind_eq_some.mp h
  simp only [Option.some.injEq] at h
  rw [← h]
  simp [Event.kind, Event.axis]

theorem receiveCurrents_frame (op : Operator_MPI) (msg : List α) (n : Fin 3) (e q : Engine_MPI α)
    (t : List (Event α)) (h : receiveCurrents op msg n e = some (q, t)) :
    q.m_BufferDown = e.m_BufferDown ∧ q.m_BufferSize = e.m_BufferSize ∧
      q.base.volt = e.base.volt ∧ q.base.numTS = e.base.numTS ∧
      (∀ m, m ≠ n → q.m_BufferUp m = e.m_BufferUp m) := by
  by_cases hup : 0 ≤ op.m_NeighborUp n
  · rw [receiveCurrents_eq op msg n e hup] at h
    obtain ⟨w, _, h⟩ := Option.bind_eq_some.mp h
    obtain ⟨r, hr, h⟩ := Option.bind_eq_some.mp h
    have hinv := forLoop_invariant
      (fun s : Engine_SSE_Compressed α × Nat =>
        s.1.volt = e.base.volt ∧ s.1.numTS = e.base.numTS) _ _
      (fun x s r hs hb => by
        have := unpackCurrBody_keeps w.1 n (usub1 (op.numLines n)) x.1 x.2 s r hb
        exact ⟨this.1.trans hs.1, this.2.1.trans hs.2⟩)
      (e.base, 0) r ⟨rfl, rfl⟩ hr
    simp only [Option.some.injEq, Prod.mk.injEq] at h
    rw [← h.1]
    refine ⟨rfl, rfl, hinv.1, hinv.2, fun m hm => ?_⟩
    simp [Function.update, hm]
  · simp only [receiveCurrents, if_neg hup, Option.some.injEq, Prod.mk.injEq] at h
    rw [← h.1]
    exact ⟨rfl, rfl, rfl, rfl, fun _ _ => rfl⟩

/-- A returning receive block whose message holds one triple of samples per
face coordinate: every face coordinate of the last line ends with its triple,
written in the order n, nP, nPP. -/
theorem receiveCurrents_unpacked (op : Operator_MPI) (msg : List α) (n : Fin 3)
    (e q : Engine_MPI α) (t : List (Event α)) (g0 g1 g2 : Nat × Nat → α)
    (b : List α) (hup : 0 ≤ op.m_NeighborUp n)
    (hmsg : msg = (face op n).flatMap fun x => [g0 x, g1 x, g2 x])
    (hbd : e.m_BufferUp n = some b)
    (h : receiveCurrents op msg n e = some (q, t)) :
    t = Event.wait n :: writesCurr op n g0 g1 g2 ∧
    ∀ x ∈ face op n,
      q.base.curr n (mkPos n (usub1 (op.numLines n)) x.1 x.2) = g0 x ∧
        q.base.curr (axisP n) (mkPos n (usub1 (op.numLines n)) x.1 x.2) = g1 x ∧
          q.base.curr (axisPP n) (mkPos n (usub1 (op.numLines n)) x.1 x.2) = g2 x := by
  rw [receiveCurrents_eq op msg n e hup] at h
  obtain ⟨w, hw, h⟩ := Option.bind_eq_some.mp h
  obtain ⟨r, hr, h⟩ := Option.bind_eq_some.mp h
  simp only [Option.some.injEq, Prod.mk.injEq] at h
  have hq : q.base = r.1.1 := by rw [← h.1]
  rw [hbd] at hw
  have hw2 : w = (some (msg ++ b.drop msg.length), [Event.wait n]) := by
    simp only [MPI_Wait] at hw
    split_ifs at hw
    simp only [Option.some.injEq] at hw
    rw [← hw]
  rw [hw2] at hr
  obtain ⟨st1, hl, _, _, _, hval⟩ := unpackCurr_loop n (usub1 (op.numLines n))
    (msg ++ b.drop msg.length) g0 g1 g2
    (face op n) (b.drop msg.length) 0 e.base (by rw [List.drop_zero, hmsg])
  rw [hl] at hr
  simp only [Option.some.injEq] at hr
  refine ⟨?_, ?_⟩
  · rw [← h.2, hw2, ← hr]
    rfl
  · rw [hq, ← hr]
    exact hval (face_nodup op n)

end Currents

section Events
variable {α : Type}

theorem MPI_Isend_events (n : Fin 3) (buf : Buffer α) (c : Nat) (d tag : Int)
    (ev : List (Event α)) (h : MPI_Isend n buf c d tag = some ev) :
    ∃ pl, ev = [Event.isend n d c tag pl] := by
  unfold MPI_Isend at h
  cases buf with
  | none =>
    simp only at h
    split_ifs at h
    simp only [Option.some.injEq] at h
    exact ⟨[], h.symm⟩
  | some b =>
    simp only at h
    split_ifs at h
    simp only [Option.some.injEq] at h
    exact ⟨_, h.symm⟩

theorem MPI_Wait_events (n : Fin 3) (buf : Buffer α) (c : Nat) (msg : List α)
    (w : Buffer α × List (Event α)) (h : MPI_Wait n buf c msg = some w) :
    w.2 = [Event.wait n] := by
  unfold MPI_Wait at h
  cases buf with
  | none =>
    simp only at h
    split_ifs at h
    simp only [Option.some.injEq] at h
    rw [← h]
  | some b =>
    simp only at h
    split_ifs at h
    simp only [Option.some.injEq] at h
    rw [← h]

theorem packVolt_loop_events (s : Engine_SSE_Compressed α) (n : Fin 3) (line : Nat)
    (xs : List (Nat × Nat)) (st : Buffer α × Nat) (r : (Buffer α × Nat) × List (Event α))
    (h : forLoop xs (fun ab => packVoltBody s n line ab.1 ab.2) st = some r) :
    ∀ ev ∈ r.2, ev.kind = Kind.get ∧ ev.axis = some n := by
  have hb : ∀ (x : Nat × Nat) (st : Buffer α × Nat) (r : (Buffer α × Nat) × List (Event α)),
      packVoltBody s n line x.1 x.2 st = some r →
        ∀ ev ∈ r.2, ev.kind = Kind.get ∧ ev.axis = some n :=
    fun x st r hr => packVoltBody_events s n line x.1 x.2 st r hr
  exact forLoop_events (fun ev => ev.kind = Kind.get ∧ ev.axis = some n) xs
    (fun ab => packVoltBody s n line ab.1 ab.2) hb st r h

theorem packCurr_loop_events (s : Engine_SSE_Compressed α) (n : Fin 3) (line : Nat)
    (xs : List (Nat × Nat)) (st : Buffer α × Nat) (r : (Buffer α × Nat) × List (Event α))
    (h : forLoop xs (fun ab => packCurrBody s n line ab.1 ab.2) st = some r) :
    ∀ ev ∈ r.2, ev.kind = Kind.get ∧ ev.axis = some n := by
  have hb : ∀ (x : Nat × Nat) (st : Buffer α × Nat) (r : (Buffer α × Nat) × List (Event α)),
      packCurrBody s n line x.1 x.2 st = some r →
        ∀ ev ∈ r.2, ev.kind = Kind.get ∧ ev.axis = some n :=
    fun x st r hr => packCurrBody_events s n line x.1 x.2 st r hr
  exact forLoop_events (fun ev => ev.kind = Kind.get ∧ ev.axis = some n) xs
    (fun ab => packCurrBody s n line ab.1 ab.2) hb st r h

theorem unpackVolt_loop_events (buf : Buffer α) (n : Fin 3) (line : Nat)
    (xs : List (Nat × Nat)) (st : Engine_SSE_Compressed α × Nat)
    (r : (Engine_SSE_Compressed α × Nat) × List (Event α))
    (h : forLoop xs (fun ab => unpackVoltBody buf n line ab.1 ab.2) st = some r) :
    ∀ ev ∈ r.2, ev.kind = Kind.set ∧ ev.axis = some n := by
  have hb : ∀ (x : Nat × Nat) (st : Engine_SSE_Compressed α × Nat)
      (r : (Engine_SSE_Compressed α × Nat) × List (Event α)),
      unpackVoltBody buf n line x.1 x.2 st = some r →
        ∀ ev ∈ r.2, ev.kind = Kind.set ∧ ev.axis = some n :=
    fun x st r hr => (unpackVoltBody_keeps buf n line x.1 x.2 st r hr).2.2
  exact forLoop_events (fun ev => ev.kind = Kind.set ∧ ev.axis = some n) xs
    (fun ab => unpackVoltBody buf n line ab.1 ab.2) hb st r h

theorem unpackCurr_loop_events (buf : Buffer α) (n : Fin 3) (line : Nat)
    (xs : List (Nat × Nat)) (st : Engine_SSE_Compressed α × Nat)
    (r : (Engine_SSE_Compressed α × Nat) × List (Event α))
    (h : forLoop xs (fun ab => unpackCurrBody buf n line ab.1 ab.2) st = some r) :
    ∀ ev ∈ r.2, ev.kind = Kind.set ∧ ev.axis = some n := by
  have hb : ∀ (x : Nat × Nat) (st : Engine_SSE_Compressed α × Nat)
      (r : (Engine_SSE_Compressed α × Nat) × List (Event α)),
      unpackCurrBody buf n line x.1 x.2 st = some r →
        ∀ ev ∈ r.2, ev.kind = Kind.set ∧ ev.axis = some n :=
    fun x st r hr => (unpackCurrBody_keeps buf n line x.1 x.2 st r hr).2.2
  exact forLoop_events (fun ev => ev.kind = Kind.set ∧ ev.axis = some n) xs
    (fun ab => unpackCurrBody buf n line ab.1 ab.2) hb st r h

/-- The events of a returning send block of the voltage exchange: the packing
reads of axis n followed by the send of axis n, or nothing without up link. -/
theorem sendVoltages_events (op : Operator_MPI) (n : Fin 3) (e q : Engine_MPI α)
    (t : List (Event α)) (h : sendVoltages op n e = some (q, t)) :
    (op.m_NeighborUp n < 0 → t = []) ∧
      ∀ ev ∈ t, (ev.kind = Kind.get ∨ ev.kind = Kind.send) ∧ ev.axis = some n := by
  by_cases hup : 0 ≤ op.m_NeighborUp n
  · rw [sendVoltages_eq op n e hup] at h
    obtain ⟨r, hr, h⟩ := Option.bind_eq_some.mp h
    obtain ⟨sd, hsd, h⟩ := Option.bind_eq_some.mp h
    obtain ⟨pl, hpl⟩ := MPI_Isend_events n _ _ _ _ sd hsd
    simp only [Option.some.injEq, Prod.mk.injEq] at h
    have hg := packVolt_loop_events e.base n (usub1 (op.numLines n)) (face op n) _ r hr
    refine ⟨fun hneg => absurd hup (by omega), ?_⟩
    rw [← h.2, hpl]
    intro ev hev
    rcases List.mem_append.mp hev with h1 | h1
    · exact ⟨Or.inl (hg ev h1).1, (hg ev h1).2⟩
    · simp only [List.mem_singleton] at h1
      subst h1
      exact ⟨Or.inr rfl, rfl⟩
  · simp only [sendVoltages, if_neg hup, Option.some.injEq, Prod.mk.injEq] at h
    rw [← h.2]
    exact ⟨fun _ => rfl, fun ev hev => by simp at hev⟩

/-- The events of a returning send block of the current exchange. -/
theorem sendCurrents_events (op : Operator_MPI) (n : Fin 3) (e q : Engine_MPI α)
    (t : List (Event α)) (h : sendCurrents op n e = some (q, t)) :
    (op.m_NeighborDown n < 0 → t = []) ∧
      ∀ ev ∈ t, (ev.kind = Kind.get ∨ ev.kind = Kind.send) ∧ ev.axis = some n := by
  by_cases hdown : 0 ≤ op.m_NeighborDown n
  · rw [sendCurrents_eq op n e hdown] at h
    obtain ⟨r, hr, h⟩ := Option.bind_eq_some.mp h
    obtain ⟨sd, hsd, h⟩ := Option.bind_eq_some.mp h
    obtain ⟨pl, hpl⟩ := MPI_Isend_events n _ _ _ _ sd hsd
    simp only [Option.some.injEq, Prod.mk.injEq] at h
    have hg := packCurr_loop_events e.base n 0 (face op n) _ r hr
    refine ⟨fun hneg => absurd hdown (by omega), ?_⟩
    rw [← h.2, hpl]
    intro ev hev
    rcases List.mem_append.mp hev with h1 | h1
    · exact ⟨Or.inl (hg ev h1).1, (hg ev h1).2⟩
    · simp only [List.mem_singleton] at h1
      subst h1
      exact ⟨Or.inr rfl, rfl⟩
  · simp only [sendCurrents, if_neg hdown, Option.some.injEq, Prod.mk.injEq] at h
    rw [← h.2]
    exact ⟨fun _ => rfl, fun ev hev => by simp at hev⟩

/-- The events of a returning receive block of the voltage exchange: the wait
of axis n followed by the unpacking writes of axis n, or nothing without down
link. -/
theorem receiveVoltages_events (op : Operator_MPI) (msg : List α) (n : Fin 3)
    (e q : Engine_MPI α) (t : List (Event α)) (h : receiveVoltages op msg n e = some (q, t)) :
    (op.m_NeighborDown n < 0 → t = []) ∧
      (0 ≤ op.m_NeighborDown n → ∃ sets, t = Event.wait n :: sets ∧
        ∀ ev ∈ sets, ev.kind = Kind.set ∧ ev.axis = some n) := by
  by_cases hdown : 0 ≤ op.m_NeighborDown n
  · rw [receiveVoltages_eq op msg n e hdown] at h
    obtain ⟨w, hw, h⟩ := Option.bind_eq_some.mp h
    obtain ⟨r, hr, h⟩ := Option.bind_eq_some.mp h
    have hw2 := MPI_Wait_events n _ _ _ w hw
    simp only [Option.some.injEq, Prod.mk.injEq] at h
    have hg := unpackVolt_loop_events w.1 n 0 (face op n) _ r hr
    refine ⟨fun hneg => absurd hdown (by omega), fun _ => ⟨r.2, ?_, hg⟩⟩
    rw [← h.2, hw2]
    rfl
  · simp only [receiveVoltages, if_neg hdown, Option.some.injEq, Prod.mk.injEq] at h
    rw [← h.2]
    exact ⟨fun _ => rfl, fun hd => absurd hd hdown⟩

/-- The events of a returning receive block of the current exchange. -/
theorem receiveCurrents_events (op : Operator_MPI) (msg : List α) (n : Fin 3)
    (e q : Engine_MPI α) (t : List (Event α)) (h : receiveCurrents op msg n e = some (q, t)) :
    (op.m_NeighborUp n < 0 → t = []) ∧
      (0 ≤ op.m_NeighborUp n → ∃ sets, t = Event.wait n :: sets ∧
        ∀ ev ∈ sets, ev.kind = Kind.set ∧ ev.axis = some n) := by
  by_cases hup : 0 ≤ op.m_NeighborUp n
  · rw [receiveCurrents_eq op msg n e hup] at h
    obtain ⟨w, hw, h⟩ := Option.bind_eq_some.mp h
    obtain ⟨r, hr, h⟩ := Option.bind_eq_some.mp h
    have hw2 := MPI_Wait_events n _ _ _ w hw
    simp only [Option.some.injEq, Prod.mk.injEq] at h
    have hg := unpackCurr_loop_events w.1 n (usub1 (op.numLines n)) (face op n) _ r hr
    refine ⟨fun hneg => absurd hup (by omega), fun _ => ⟨r.2, ?_, hg⟩⟩
    rw [← h.2, hw2]
    rfl
  · simp only [receiveCurrents, if_neg hup, Option.some.injEq, Prod.mk.injEq] at h
    rw [← h.2]
    exact ⟨fun _ => rfl, fun hd => absurd hd hup⟩

theorem postReceiveVoltages_events (op : Operator_MPI) (n : Fin 3) (e : Engine_MPI α)
    (r : Engine_MPI α × List (Event α)) (h : postReceiveVoltages op n e = some r) :
    (op.m_NeighborDown n < 0 → r.2 = []) ∧
      ∀ ev ∈ r.2, ev.kind = Kind.post ∧ ev.axis = some n := by
  unfold postReceiveVoltages at h
  split_ifs at h with hd
  · obtain ⟨ev, hev, h⟩ := Option.bind_eq_some.mp h
    simp only [Option.some.injEq] at h
    unfold MPI_Irecv at hev
    split_ifs at hev
    simp only [Option.some.injEq] at hev
    rw [← h, ← hev]
    exact ⟨fun hneg => absurd hd (by omega), fun ev hev => by
      simp only [List.mem_singleton] at hev; subst hev; exact ⟨rfl, rfl⟩⟩
  · simp only [Option.some.injEq] at h
    rw [← h]
    exact ⟨fun _ => rfl, fun ev hev => by simp at hev⟩

theorem postReceiveCurrents_events (op : Operator_MPI) (n : Fin 3) (e : Engine_MPI α)
    (r : Engine_MPI α × List (Event α)) (h : postReceiveCurrents op n e = some r) :
    (op.m_NeighborUp n < 0 → r.2 = []) ∧
      ∀ ev ∈ r.2, ev.kind = Kind.post ∧ ev.axis = some n := by
  unfold postReceiveCurrents at h
  split_ifs at h with hd
  · obtain ⟨ev, hev, h⟩ := Option.bind_eq_some.mp h
    simp only [Option.some.injEq] at h
    unfold MPI_Irecv at hev
    split_ifs at hev
    simp only [Option.some.injEq] at hev
    rw [← h, ← hev]
    exact ⟨fun hneg => absurd hd (by omega), fun ev hev => by
      simp only [List.mem_singleton] at hev; subst hev; exact ⟨rfl, rfl⟩⟩
  · simp only [Option.some.injEq] at h
    rw [← h]
    exact ⟨fun _ => rfl, fun ev hev => by simp at hev⟩

/-- The events of a returning send block of the voltage exchange on an axis
with up link: packing reads, then exactly one send. -/
theorem sendVoltages_events_send (op : Operator_MPI) (n : Fin 3) (e q : Engine_MPI α)
    (t : List (Event α)) (h : sendVoltages op n e = some (q, t)) (hup : 0 ≤ op.m_NeighborUp n) :
    ∃ gets dest count tag payload, t = gets ++ [Event.isend n dest count tag payload] ∧
      ∀ ev ∈ gets, ev.kind = Kind.get := by
  rw [sendVoltages_eq op n e hup] at h
  obtain ⟨r, hr, h⟩ := Option.bind_eq_some.mp h
  obtain ⟨sd, hsd, h⟩ := Option.bind_eq_some.mp h
  obtain ⟨pl, hpl⟩ := MPI_Isend_events n _ _ _ _ sd hsd
  simp only [Option.some.injEq, Prod.mk.injEq] at h
  have hg := packVolt_loop_events e.base n (usub1 (op.numLines n)) (face op n) _ r hr
  exact ⟨r.2, _, _, _, pl, by rw [← h.2, hpl], fun ev hev => (hg ev hev).1⟩

/-- The events of a returning send block of the current exchange on an axis
with down link: packing reads, then exactly one send. -/
theorem sendCurrents_events_send (op : Operator_MPI) (n : Fin 3) (e q : Engine_MPI α)
    (t : List (Event α)) (h : sendCurrents op n e = some (q, t))
    (hdown : 0 ≤ op.m_NeighborDown n) :
    ∃ gets dest count tag payload, t = gets ++ [Event.isend n dest count tag payload] ∧
      ∀ ev ∈ gets, ev.kind = Kind.get := by
  rw [sendCurrents_eq op n e hdown] at h
  obtain ⟨r, hr, h⟩ := Option.bind_eq_some.mp h
  obtain ⟨sd, hsd, h⟩ := Option.bind_eq_some.mp h
  obtain ⟨pl, hpl⟩ := MPI_Isend_events n _ _ _ _ sd hsd
  simp only [Option.some.injEq, Prod.mk.injEq] at h
  have hg := packCurr_loop_events e.base n 0 (face op n) _ r hr
  exact ⟨r.2, _, _, _, pl, by rw [← h.2, hpl], fun ev hev => (hg ev hev).1⟩

/-- A returning receive post of the voltage exchange: the engine is unchanged,
and one receive is posted on the down link of axis n when that link is valid. -/
theorem postReceiveVoltages_post (op : Operator_MPI) (n : Fin 3) (e : Engine_MPI α)
    (r : Engine_MPI α × List (Event α)) (h : postReceiveVoltages op n e = some r) :
    r.1 = e ∧ r.2 = if 0 ≤ op.m_NeighborDown n then
      [Event.irecv n (op.m_NeighborDown n) ((e.m_BufferSize n * 2) % UINT_MOD) op.m_MyTag]
      else [] := by
  unfold postReceiveVoltages at h
  split_ifs at h with hd
  · obtain ⟨ev, hev, h⟩ := Option.bind_eq_some.mp h
    simp only [Option.some.injEq] at h
    unfold MPI_Irecv at hev
    split_ifs at hev
    simp only [Option.some.injEq] at hev
    rw [← h, ← hev, if_pos hd]
    exact ⟨rfl, rfl⟩
  · simp only [Option.some.injEq] at h
    rw [← h, if_neg hd]
    exact ⟨rfl, rfl⟩

/-- A returning receive post of the current exchange: the engine is unchanged,
and one receive is posted on the up link of axis n when that link is valid. -/
theorem postReceiveCurrents_post (op : Operator_MPI) (n : Fin 3) (e : Engine_MPI α)
    (r : Engine_MPI α × List (Event α)) (h : postReceiveCurrents op n e = some r) :
    r.1 = e ∧ r.2 = if 0 ≤ op.m_NeighborUp n then
      [Event.irecv n (op.m_NeighborUp n) ((e.m_BufferSize n * 3) % UINT_MOD) op.m_MyTag]
      else [] := by
  unfold postReceiveCurrents at h
  split_ifs at h with hd
  · obtain ⟨ev, hev, h⟩ := Option.bind_eq_some.mp h
    simp only [Option.some.injEq] at h
    unfold MPI_Irecv at hev
    split_ifs at hev
    simp only [Option.some.injEq] at hev
    rw [← h, ← hev, if_pos hd]
    exact ⟨rfl, rfl⟩
  · simp only [Option.some.injEq] at h
    rw [← h, if_neg hd]
    exact ⟨rfl, rfl⟩

end Events

section Traces
variable {α : Type}

theorem stage_post (ev : Event α) (n : Fin 3) (h : ev.kind = Kind.post ∧ ev.axis = some n) :
    stage ev = n.val := by
  cases ev <;> simp [Event.kind, Event.axis, stage] at h ⊢
  rw [h]

theorem stage_pack (ev : Event α) (n : Fin 3)
    (h : (ev.kind = Kind.get ∨ ev.kind = Kind.send) ∧ ev.axis = some n) :
    stage ev = 3 + 3 * n.val := by
  cases ev <;> simp [Event.kind, Event.axis, stage] at h ⊢ <;> rw [h]

theorem stage_set (ev : Event α) (n : Fin 3) (h : ev.kind = Kind.set ∧ ev.axis = some n) :
    stage ev = 5 + 3 * n.val := by
  cases ev <;> simp [Event.kind, Event.axis, stage] at h ⊢ <;> rw [h]

theorem stage_wait (n : Fin 3) : stage (Event.wait n : Event α) = 4 + 3 * n.val := rfl

theorem staged_nil (lo hi : Nat) : Staged lo hi ([] : List (Event α)) :=
  ⟨List.Pairwise.nil, fun _ h => by simp at h⟩

theorem staged_of_const (k lo hi : Nat) (l : List (Event α)) (h : ∀ ev ∈ l, stage ev = k)
    (h1 : lo ≤ k) (h2 : k ≤ hi) : Staged lo hi l :=
  ⟨List.pairwise_of_forall_mem_list fun a ha b hb => by rw [h a ha, h b hb],
    fun ev hev => by rw [h ev hev]; exact ⟨h1, h2⟩⟩

theorem staged_append (a b c d : Nat) (l1 l2 : List (Event α)) (h1 : Staged a b l1)
    (h2 : Staged c d l2) (hbc : b ≤ c) (hac : a ≤ c) (hbd : b ≤ d) :
    Staged a d (l1 ++ l2) := by
  refine ⟨List.pairwise_append.mpr ⟨h1.1, h2.1, fun x hx y hy => ?_⟩, fun ev hev => ?_⟩
  · have := (h1.2 x hx).2
    have := (h2.2 y hy).1
    omega
  · rcases List.mem_append.mp hev with h | h
    · have := h1.2 ev h
      omega
    · have := h2.2 ev h
      omega

theorem postTrace_staged (n : Fin 3) (rcv : Bool) (t : List (Event α)) (h : PostTrace n rcv t) :
    Staged n.val n.val t :=
  staged_of_const n.val _ _ t (fun ev hev => stage_post ev n (h.2.1 ev hev)) (Nat.le_refl _)
    (Nat.le_refl _)

theorem axisTrace_staged (n : Fin 3) (snd rcv : Bool) (t : List (Event α))
    (h : AxisTrace n snd rcv t) : Staged (3 + 3 * n.val) (5 + 3 * n.val) t := by
  obtain ⟨ts, sets, ht, _, hts, hsets, _⟩ := h
  rw [ht]
  have h1 : Staged (3 + 3 * n.val) (3 + 3 * n.val) ts :=
    staged_of_const _ _ _ ts (fun ev hev => stage_pack ev n (hts ev hev)) (Nat.le_refl _)
      (Nat.le_refl _)
  have h2 : Staged (4 + 3 * n.val) (5 + 3 * n.val)
      (if rcv = true then Event.wait n :: sets else []) := by
    split_ifs
    · have hw : Staged (4 + 3 * n.val) (4 + 3 * n.val) [(Event.wait n : Event α)] :=
        staged_of_const _ _ _ _ (fun ev hev => by
          simp only [List.mem_singleton] at hev; rw [hev]; rfl) (Nat.le_refl _) (Nat.le_refl _)
      have hs : Staged (5 + 3 * n.val) (5 + 3 * n.val) sets :=
        staged_of_const _ _ _ sets (fun ev hev => stage_set ev n (hsets ev hev)) (Nat.le_refl _)
          (Nat.le_refl _)
      exact staged_append _ _ _ _ [Event.wait n] sets hw hs (by omega) (by omega) (by omega)
    · exact staged_nil _ _
  exact staged_append _ _ _ _ ts _ h1 h2 (by omega) (by omega) (by omega)

/-- The trace of an exchange call follows the schedule: posts of the axes 0,
1, 2, then per axis packing reads and send, wait, unpacking writes. -/
theorem exchangeTrace_staged (snd rcv : Fin 3 → Bool) (tr : List (Event α))
    (h : ExchangeTrace snd rcv tr) : tr.Pairwise fun x y => stage x ≤ stage y := by
  obtain ⟨p0, p1, p2, t0, t1, t2, htr, hp0, hp1, hp2, ht0, ht1, ht2⟩ := h
  have s0 := postTrace_staged 0 _ p0 hp0
  have s1 := postTrace_staged 1 _ p1 hp1
  have s2 := postTrace_staged 2 _ p2 hp2
  have a0 := axisTrace_staged 0 _ _ t0 ht0
  have a1 := axisTrace_staged 1 _ _ t1 ht1
  have a2 := axisTrace_staged 2 _ _ t2 ht2
  simp only [Fin.val_zero, Fin.val_one, Fin.val_two] at s0 s1 s2 a0 a1 a2
  have s12 := staged_append _ _ _ _ p1 p2 s1 s2 (by omega) (by omega) (by omega)
  have s012 := staged_append _ _ _ _ p0 _ s0 s12 (by omega) (by omega) (by omega)
  have a12 := staged_append _ _ _ _ t1 t2 a1 a2 (by omega) (by omega) (by omega)
  have a012 := staged_append _ _ _ _ t0 _ a0 a12 (by omega) (by omega) (by omega)
  rw [htr]
  exact (staged_append _ _ _ _ _ _ s012 a012 (by omega) (by omega) (by omega)).1

theorem countP_eq_zero_of_kind (p : Event α → Bool) (l : List (Event α))
    (h : ∀ ev ∈ l, p ev = false) : l.countP p = 0 :=
  List.countP_eq_zero.mpr fun ev hev => by rw [h ev hev]; simp

theorem postTrace_count_wait (n m : Fin 3) (rcv : Bool) (t : List (Event α))
    (h : PostTrace n rcv t) : t.countP (Event.isWaitOn m) = 0 := by
  apply countP_eq_zero_of_kind
  intro ev hev
  have := (h.2.1 ev hev).1
  cases ev <;> first | rfl | simp [Event.kind] at this

theorem axisTrace_count_wait (n m : Fin 3) (snd rcv : Bool) (t : List (Event α))
    (h : AxisTrace n snd rcv t) :
    t.countP (Event.isWaitOn m) = if rcv = true ∧ n = m then 1 else 0 := by
  obtain ⟨ts, sets, ht, _, hts, hsets, _⟩ := h
  have h1 : ts.countP (Event.isWaitOn m) = 0 := by
    apply countP_eq_zero_of_kind
    intro ev hev
    have := (hts ev hev).1
    cases ev <;> first | rfl | simp [Event.kind] at this
  have h2 : sets.countP (Event.isWaitOn m) = 0 := by
    apply countP_eq_zero_of_kind
    intro ev hev
    have := (hsets ev hev).1
    cases ev <;> first | rfl | simp [Event.kind] at this
  rw [ht, List.countP_append, h1]
  by_cases hr : rcv = true
  · rw [if_pos hr, List.countP_cons, h2]
    by_cases hnm : n = m
    · simp [hr, hnm, Event.isWaitOn]
    · simp [hr, hnm, Event.isWaitOn]
  · simp [hr]

theorem postTrace_count_post (n m : Fin 3) (rcv : Bool) (t : List (Event α))
    (h : PostTrace n rcv t) :
    t.countP (Event.isPostOn m) = if rcv = true ∧ n = m then 1 else 0 := by
  by_cases hr : rcv = true
  · obtain ⟨src, cnt, tag, ht⟩ := h.2.2 hr
    rw [ht]
    by_cases hnm : n = m
    · simp [hr, hnm, Event.isPostOn]
    · simp [hr, hnm, Event.isPostOn]
  · have hf : rcv = false := by simpa using hr
    rw [h.1 hf]
    simp [hf]

theorem postTrace_count_send (n m : Fin 3) (rcv : Bool) (t : List (Event α))
    (h : PostTrace n rcv t) : t.countP (Event.isSendOn m) = 0 := by
  apply countP_eq_zero_of_kind
  intro ev hev
  have := (h.2.1 ev hev).1
  cases ev <;> first | rfl | simp [Event.kind] at this

theorem axisTrace_count_post (n m : Fin 3) (snd rcv : Bool) (t : List (Event α))
    (h : AxisTrace n snd rcv t) : t.countP (Event.isPostOn m) = 0 := by
  obtain ⟨ts, sets, ht, _, hts, hsets, _⟩ := h
  apply countP_eq_zero_of_kind
  intro ev hev
  rw [ht] at hev
  rcases List.mem_append.mp hev with h1 | h1
  · have := (hts ev h1).1
    cases ev <;> first | rfl | simp [Event.kind] at this
  · split_ifs at h1
    · rcases List.mem_cons.mp h1 with h2 | h2
      · subst h2; rfl
      · have := (hsets ev h2).1
        cases ev <;> first | rfl | simp [Event.kind] at this
    · simp at h1

theorem axisTrace_count_send (n m : Fin 3) (snd rcv : Bool) (t : List (Event α))
    (h : AxisTrace n snd rcv t) :
    t.countP (Event.isSendOn m) = if snd = true ∧ n = m then 1 else 0 := by
  obtain ⟨ts, sets, ht, hnil, hts, hsets, hsend⟩ := h
  have h2 : (if rcv = true then Event.wait n :: sets else []).countP (Event.isSendOn m) = 0 := by
    apply countP_eq_zero_of_kind
    intro ev hev
    split_ifs at hev
    · rcases List.mem_cons.mp hev with h3 | h3
      · subst h3; rfl
      · have := (hsets ev h3).1
        cases ev <;> first | rfl | simp [Event.kind] at this
    · simp at hev
  rw [ht, List.countP_append, h2, Nat.add_zero]
  by_cases hs : snd = true
  · obtain ⟨gets, dest, count, tag, payload, hts2, hgets⟩ := hsend hs
    have h1 : gets.countP (Event.isSendOn m) = 0 := by
      apply countP_eq_zero_of_kind
      intro ev hev
      have := hgets ev hev
      cases ev <;> first | rfl | simp [Event.kind] at this
    rw [hts2, List.countP_append, h1]
    by_cases hnm : n = m
    · simp [hs, hnm, Event.isSendOn]
    · simp [hs, hnm, Event.isSendOn]
  · have hf : snd = false := by simpa using hs
    rw [hnil hf]
    simp [hf]

/-- In the trace of an exchange call the axis m has one receive post and one
wait when it receives, one send when it sends, and none otherwise. -/
theorem exchangeTrace_counts (snd rcv : Fin 3 → Bool) (tr : List (Event α))
    (h : ExchangeTrace snd rcv tr) (m : Fin 3) :
    tr.countP (Event.isPostOn m) = (if rcv m = true then 1 else 0) ∧
    tr.countP (Event.isWaitOn m) = (if rcv m = true then 1 else 0) ∧
    tr.countP (Event.isSendOn m) = (if snd m = true then 1 else 0) := by
  obtain ⟨p0, p1, p2, t0, t1, t2, htr, hp0, hp1, hp2, ht0, ht1, ht2⟩ := h
  rw [htr]
  simp only [List.countP_append, postTrace_count_wait 0 m _ p0 hp0,
    postTrace_count_wait 1 m _ p1 hp1, postTrace_count_wait 2 m _ p2 hp2,
    axisTrace_count_wait 0 m _ _ t0 ht0, axisTrace_count_wait 1 m _ _ t1 ht1,
    axisTrace_count_wait 2 m _ _ t2 ht2, postTrace_count_post 0 m _ p0 hp0,
    postTrace_count_post 1 m _ p1 hp1, postTrace_count_post 2 m _ p2 hp2,
    axisTrace_count_post 0 m _ _ t0 ht0, axisTrace_count_post 1 m _ _ t1 ht1,
    axisTrace_count_post 2 m _ _ t2 ht2, postTrace_count_send 0 m _ p0 hp0,
    postTrace_count_send 1 m _ p1 hp1, postTrace_count_send 2 m _ p2 hp2,
    axisTrace_count_send 0 m _ _ t0 ht0, axisTrace_count_send 1 m _ _ t1 ht1,
    axisTrace_count_send 2 m _ _ t2 ht2]
  fin_cases m <;> simp

/-- An axis that neither sends nor receives has no event in the trace of an
exchange call. -/
theorem exchangeTrace_silent (snd rcv : Fin 3 → Bool) (tr : List (Event α))
    (h : ExchangeTrace snd rcv tr) (m : Fin 3) (hs : snd m = false) (hr : rcv m = false) :
    ∀ ev ∈ tr, ev.axis ≠ some m := by
  obtain ⟨p0, p1, p2, t0, t1, t2, htr, hp0, hp1, hp2, ht0, ht1, ht2⟩ := h
  have hpost : ∀ (n : Fin 3) (p : List (Event α)), PostTrace n (rcv n) p →
      ∀ ev ∈ p, ev.axis ≠ some m := by
    intro n p hp ev hev hax
    have h1 := (hp.2.1 ev hev).2
    rw [h1] at hax
    simp only [Option.some.injEq] at hax
    subst hax
    rw [hp.1 hr] at hev
    simp at hev
  have haxis : ∀ (n : Fin 3) (t : List (Event α)), AxisTrace n (snd n) (rcv n) t →
      ∀ ev ∈ t, ev.axis ≠ some m := by
    intro n t ht ev hev hax
    obtain ⟨ts, sets, hteq, hnil, hts, hsets, _⟩ := ht
    rw [hteq] at hev
    by_cases hnm : n = m
    · subst hnm
      rw [hnil hs, hr] at hev
      simp at hev
    · rcases List.mem_append.mp hev with h1 | h1
      · have := (hts ev h1).2
        rw [this] at hax
        simp only [Option.some.injEq] at hax
        exact hnm hax
      · split_ifs at h1
        · rcases List.mem_cons.mp h1 with h2 | h2
          · subst h2
            simp only [Event.axis, Option.some.injEq] at hax
            exact hnm hax
          · have := (hsets ev h2).2
            rw [this] at hax
            simp only [Option.some.injEq] at hax
            exact hnm hax
        · simp at h1
  rw [htr]
  intro ev hev
  simp only [List.mem_append] at hev
  rcases hev with (h | h | h) | (h | h | h)
  · exact hpost 0 p0 hp0 ev h
  · exact hpost 1 p1 hp1 ev h
  · exact hpost 2 p2 hp2 ev h
  · exact haxis 0 t0 ht0 ev h
  · exact haxis 1 t1 ht1 ev h
  · exact haxis 2 t2 ht2 ev h

end Traces

section ExchangeTraces
variable {α : Type}

theorem exchangeVoltagesAxis_trace (op : Operator_MPI) (rx : Fin 3 → List α) (n : Fin 3)
    (e e1 : Engine_MPI α) (t : List (Event α))
    (h : exchangeVoltagesAxis op rx n e = some (e1, t)) :
    AxisTrace n (decide (0 ≤ op.m_NeighborUp n)) (decide (0 ≤ op.m_NeighborDown n)) t := by
  obtain ⟨q, ts, tr, hs, hr, ht⟩ := exchangeVoltagesAxis_split op rx n e e1 t h
  obtain ⟨hs1, hs2⟩ := sendVoltages_events op n e q ts hs
  obtain ⟨hr1, hr2⟩ := receiveVoltages_events op (rx n) n q e1 tr hr
  have hs3 : decide (0 ≤ op.m_NeighborUp n) = true → ∃ gets dest count tag payload,
      ts = gets ++ [Event.isend n dest count tag payload] ∧ ∀ ev ∈ gets, ev.kind = Kind.get :=
    fun hu => sendVoltages_events_send op n e q ts hs (by simpa using hu)
  by_cases hd : 0 ≤ op.m_NeighborDown n
  · obtain ⟨sets, hsets, hall⟩ := hr2 hd
    refine ⟨ts, sets, ?_, ?_, hs2, hall, hs3⟩
    · rw [ht, hsets]; simp [hd]
    · intro hf
      exact hs1 (by simpa using hf)
  · refine ⟨ts, [], ?_, ?_, hs2, fun ev hev => by simp at hev, hs3⟩
    · rw [ht, hr1 (by omega)]; simp [hd]
    · intro hf
      exact hs1 (by simpa using hf)

theorem exchangeCurrentsAxis_trace (op : Operator_MPI) (rx : Fin 3 → List α) (n : Fin 3)
    (e e1 : Engine_MPI α) (t : List (Event α))
    (h : exchangeCurrentsAxis op rx n e = some (e1, t)) :
    AxisTrace n (decide (0 ≤ op.m_NeighborDown n)) (decide (0 ≤ op.m_NeighborUp n)) t := by
  obtain ⟨q, ts, tr, hs, hr, ht⟩ := exchangeCurrentsAxis_split op rx n e e1 t h
  obtain ⟨hs1, hs2⟩ := sendCurrents_events op n e q ts hs
  obtain ⟨hr1, hr2⟩ := receiveCurrents_events op (rx n) n q e1 tr hr
  have hs3 : decide (0 ≤ op.m_NeighborDown n) = true → ∃ gets dest count tag payload,
      ts = gets ++ [Event.isend n dest count tag payload] ∧ ∀ ev ∈ gets, ev.kind = Kind.get :=
    fun hu => sendCurrents_events_send op n e q ts hs (by simpa using hu)
  by_cases hd : 0 ≤ op.m_NeighborUp n
  · obtain ⟨sets, hsets, hall⟩ := hr2 hd
    refine ⟨ts, sets, ?_, ?_, hs2, hall, hs3⟩
    · rw [ht, hsets]; simp [hd]
    · intro hf
      exact hs1 (by simpa using hf)
  · refine ⟨ts, [], ?_, ?_, hs2, fun ev hev => by simp at hev, hs3⟩
    · rw [ht, hr1 (by omega)]; simp [hd]
    · intro hf
      exact hs1 (by simpa using hf)

theorem postReceiveVoltages_trace (op : Operator_MPI) (n : Fin 3) (e : Engine_MPI α)
    (r : Engine_MPI α × List (Event α)) (h : postReceiveVoltages op n e = some r) :
    PostTrace n (decide (0 ≤ op.m_NeighborDown n)) r.2 := by
  obtain ⟨h1, h2⟩ := postReceiveVoltages_events op n e r h
  refine ⟨fun hf => h1 (by simpa using hf), h2, fun ht =>
    ⟨op.m_NeighborDown n, (e.m_BufferSize n * 2) % UINT_MOD, op.m_MyTag, ?_⟩⟩
  rw [(postReceiveVoltages_post op n e r h).2, if_pos (by simpa using ht)]

theorem postReceiveCurrents_trace (op : Operator_MPI) (n : Fin 3) (e : Engine_MPI α)
    (r : Engine_MPI α × List (Event α)) (h : postReceiveCurrents op n e = some r) :
    PostTrace n (decide (0 ≤ op.m_NeighborUp n)) r.2 := by
  obtain ⟨h1, h2⟩ := postReceiveCurrents_events op n e r h
  refine ⟨fun hf => h1 (by simpa using hf), h2, fun ht =>
    ⟨op.m_NeighborUp n, (e.m_BufferSize n * 3) % UINT_MOD, op.m_MyTag, ?_⟩⟩
  rw [(postReceiveCurrents_post op n e r h).2, if_pos (by simpa using ht)]

/-- The three iterations of a returning loop over the axes 0, 1, 2. -/
theorem forLoop_axes {σ ε : Type} (body : Fin 3 → σ → Option (σ × List ε)) (s : σ)
    (r : σ × List ε) (h : forLoop [0, 1, 2] body s = some r) :
    ∃ r0 r1 r2, body 0 s = some r0 ∧ body 1 r0.1 = some r1 ∧ body 2 r1.1 = some r2 ∧
      r = (r2.1, r0.2 ++ (r1.2 ++ r2.2)) := by
  simp only [forLoop_cons, forLoop_nil] at h
  obtain ⟨a0, ha0, h⟩ := Option.bind_eq_some.mp h
  obtain ⟨b0, hb0, h⟩ := Option.bind_eq_some.mp h
  obtain ⟨a1, ha1, hb0⟩ := Option.bind_eq_some.mp hb0
  obtain ⟨b1, hb1, hb0⟩ := Option.bind_eq_some.mp hb0
  obtain ⟨a2, ha2, hb1⟩ := Option.bind_eq_some.mp hb1
  simp only [Option.some_bind, Option.some.injEq] at hb1 hb0 h
  refine ⟨a0, a1, a2, ha0, ha1, ha2, ?_⟩
  rw [← h, ← hb0, ← hb1]
  simp

/-- The trace of a returning voltage exchange in distributed mode: the axes
with a valid up link send, those with a valid down link receive. -/
theorem SendReceiveVoltages_trace (op : Operator_MPI) (rx : Fin 3 → List α)
    (e e1 : Engine_MPI α) (tr : List (Event α)) (hen : op.MPIEnabled = true)
    (h : SendReceiveVoltages op rx e = some (e1, tr)) :
    ExchangeTrace (fun n => decide (0 ≤ op.m_NeighborUp n))
      (fun n => decide (0 ≤ op.m_NeighborDown n)) tr := by
  obtain ⟨tp, s1, t0, s2, t1, t2, hp, h0, h1, h2, htr⟩ :=
    SendReceiveVoltages_steps op rx e e1 tr hen h
  obtain ⟨r0, r1, r2, hr0, hr1, hr2, hr⟩ := forLoop_axes _ _ _ hp
  simp only [Prod.mk.injEq] at hr
  refine ⟨r0.2, r1.2, r2.2, t0, t1, t2, ?_, postReceiveVoltages_trace op 0 _ r0 hr0,
    postReceiveVoltages_trace op 1 _ r1 hr1, postReceiveVoltages_trace op 2 _ r2 hr2,
    exchangeVoltagesAxis_trace op rx 0 _ _ t0 h0, exchangeVoltagesAxis_trace op rx 1 _ _ t1 h1,
    exchangeVoltagesAxis_trace op rx 2 _ _ t2 h2⟩
  rw [htr, hr.2]

/-- The trace of a returning current exchange in distributed mode: the axes
with a valid down link send, those with a valid up link receive. -/
theorem SendReceiveCurrents_trace (op : Operator_MPI) (rx : Fin 3 → List α)
    (e e1 : Engine_MPI α) (tr : List (Event α)) (hen : op.MPIEnabled = true)
    (h : SendReceiveCurrents op rx e = some (e1, tr)) :
    ExchangeTrace (fun n => decide (0 ≤ op.m_NeighborDown n))
      (fun n => decide (0 ≤ op.m_NeighborUp n)) tr := by
  obtain ⟨tp, s1, t0, s2, t1, t2, hp, h0, h1, h2, htr⟩ :=
    SendReceiveCurrents_steps op rx e e1 tr hen h
  obtain ⟨r0, r1, r2, hr0, hr1, hr2, hr⟩ := forLoop_axes _ _ _ hp
  simp only [Prod.mk.injEq] at hr
  refine ⟨r0.2, r1.2, r2.2, t0, t1, t2, ?_, postReceiveCurrents_trace op 0 _ r0 hr0,
    postReceiveCurrents_trace op 1 _ r1 hr1, postReceiveCurrents_trace op 2 _ r2 hr2,
    exchangeCurrentsAxis_trace op rx 0 _ _ t0 h0, exchangeCurrentsAxis_trace op rx 1 _ _ t1 h1,
    exchangeCurrentsAxis_trace op rx 2 _ _ t2 h2⟩
  rw [htr, hr.2]

end ExchangeTraces

section Ordering
variable {α : Type}

theorem isWaitOn_iff (n : Fin 3) (ev : Event α) : ev.isWaitOn n = true ↔ ev = Event.wait n := by
  cases ev <;> simp [Event.isWaitOn]

theorem stage_post_send (x y : Event α) (h : stage x ≤ stage y) :
    ¬ (x.kind = Kind.send ∧ y.kind = Kind.post) := by
  rintro ⟨hx, hy⟩
  cases x <;> simp [Event.kind] at hx
  cases y <;> simp [Event.kind] at hy
  simp [stage, Event.kind, Event.axis] at h
  omega

theorem stage_post_wait (n : Fin 3) (x y : Event α) (h : stage x ≤ stage y) :
    ¬ (x.isWaitOn n = true ∧ y.kind = Kind.post) := by
  rintro ⟨hx, hy⟩
  rw [isWaitOn_iff] at hx
  subst hx
  cases y <;> simp [Event.kind] at hy
  simp [stage, Event.kind, Event.axis] at h
  omega

theorem stage_send_wait (n : Fin 3) (x y : Event α) (h : stage x ≤ stage y) :
    ¬ (x.isWaitOn n = true ∧ (y.kind = Kind.send ∧ y.axis = some n)) := by
  rintro ⟨hx, hy, hya⟩
  rw [isWaitOn_iff] at hx
  subst hx
  cases y <;> simp [Event.kind] at hy
  simp [Event.axis] at hya
  subst hya
  simp [stage, Event.kind, Event.axis] at h

theorem stage_wait_set (n : Fin 3) (x y : Event α) (h : stage x ≤ stage y) :
    ¬ ((x.kind = Kind.set ∧ x.axis = some n) ∧ y.isWaitOn n = true) := by
  rintro ⟨⟨hx, hxa⟩, hy⟩
  rw [isWaitOn_iff] at hy
  subst hy
  cases x <;> simp [Event.kind] at hx <;> simp [Event.axis] at hxa <;> subst hxa <;>
    simp [stage, Event.kind, Event.axis] at h

theorem stage_axis (x y : Event α) (h : stage x ≤ stage y)
    (hk : x.kind = Kind.post ↔ y.kind = Kind.post) (m n : Fin 3) (hx : x.axis = some m)
    (hy : y.axis = some n) : m ≤ n := by
  cases x <;> cases y <;> simp [Event.kind] at hk <;> simp [Event.axis] at hx hy <;>
    subst hx <;> subst hy <;> simp [stage, Event.kind, Event.axis] at h <;>
    (rw [Fin.le_def]; omega)

/-- The ordering guarantees follow from the shape of the trace. -/
theorem exchangeTrace_ordering (snd rcv : Fin 3 → Bool) (tr : List (Event α))
    (h : ExchangeTrace snd rcv tr) : ReceiveBeforeSend snd rcv tr := by
  have hs := exchangeTrace_staged snd rcv tr h
  refine ⟨fun n => exchangeTrace_counts snd rcv tr h n,
    hs.imp (fun {a b} hab => stage_post_send a b hab), fun n hn => ?_,
    hs.imp (fun {a b} hab => stage_axis a b hab)⟩
  exact ⟨hs.imp (fun {a b} hab => stage_post_wait n a b hab),
    hs.imp (fun {a b} hab => stage_send_wait n a b hab),
    hs.imp (fun {a b} hab => stage_wait_set n a b hab)⟩

end Ordering

section Driver
variable {α : Type}

end Driver

section RoundTripCurrents
variable {α : Type}

/-- A returning current exchange of an engine initialised in distributed mode
with a valid down link on axis 2: the down-buffer of axis 2 ends holding the
packed first line, and the payload size is exactly the packed length. -/
theorem SendReceiveCurrents_packs [Inhabited α] (B : BaseMethods α) (op : Operator_MPI) (rx : Fin 3 → List α)
    (e0 e e1 : Engine_MPI α) (tr : List (Event α)) (hen : op.MPIEnabled = true)
    (hinit : bufferShape e = bufferShape (Init B op e0)) (hdown : 0 ≤ op.m_NeighborDown 2)
    (h : SendReceiveCurrents op rx e = some (e1, tr)) :
    (e1.m_BufferDown 2).map (List.take (e1.m_BufferSize 2 * 3 % UINT_MOD)) =
      some (packedCurr e.base op 2) := by
  obtain ⟨hsz, _, _, hu0, hu1, hd0, hd1, _, hd2⟩ := initShape_facts B op e e0 hen hinit
  obtain ⟨b, hb, hblen⟩ := hd2 hdown
  obtain ⟨tp, s1, t0, s2, t1, t2, _, h0, h1, h2, _⟩ := SendReceiveCurrents_steps op rx e e1 tr hen h
  have hs1 := exchangeCurrentsAxis_null op rx 0 e s1 t0 hu0 hd0 h0
  subst hs1
  have hs2 := exchangeCurrentsAxis_null op rx 1 s1 s2 t1 hu1 hd1 h1
  subst hs2
  obtain ⟨q, ts, trr, hs, hr, _⟩ := exchangeCurrentsAxis_split op rx 2 s2 e1 t2 h2
  obtain ⟨hlen, hq⟩ := sendCurrents_packed op 2 s2 q ts b hdown hb hs
  obtain ⟨hfd, hfs, _⟩ := receiveCurrents_frame op (rx 2) 2 q e1 trr hr
  have hflen : (face op 2).length = op.numLines 0 * op.numLines 1 := face_length op 2
  have hM : b.length < UINT_MOD := by rw [hblen]; exact Nat.mod_lt _ (by decide)
  have hsmall : op.numLines 0 * op.numLines 1 < UINT_MOD := by omega
  have hsize : e1.m_BufferSize 2 = op.numLines 0 * op.numLines 1 := by
    rw [hfs, hq]
    show s2.m_BufferSize 2 = _
    rw [hsz, Nat.mod_eq_of_lt hsmall]
  have hcnt : e1.m_BufferSize 2 * 3 % UINT_MOD = (packedCurr s2.base op 2).length := by
    rw [hsize, packedCurr_length, hflen, Nat.mod_eq_of_lt (by omega)]
    omega
  rw [hfd, hq, hcnt]
  simp [Function.update]

theorem filter_isSet_nil (l : List (Event α)) (h : ∀ ev ∈ l, ev.kind ≠ Kind.set) :
    l.filter Event.isSet = [] :=
  List.filter_eq_nil_iff.mpr fun ev hev => by simp [Event.isSet, h ev hev]

theorem filter_isSet_self (l : List (Event α)) (h : ∀ ev ∈ l, ev.kind = Kind.set) :
    l.filter Event.isSet = l :=
  List.filter_eq_self.mpr fun ev hev => by simp [Event.isSet, h ev hev]

theorem writesCurr_kind (op : Operator_MPI) (n : Fin 3) (g0 g1 g2 : Nat × Nat → α) :
    ∀ ev ∈ writesCurr op n g0 g1 g2, ev.kind = Kind.set := by
  intro ev hev
  simp only [writesCurr, List.mem_flatMap] at hev
  obtain ⟨x, _, hx⟩ := hev
  simp only [List.mem_cons, List.mem_singleton, List.not_mem_nil, or_false] at hx
  rcases hx with h | h | h <;> rw [h] <;> rfl

/-- A returning current exchange of an engine initialised in distributed mode
with a valid up link on axis 2, whose axis-2 message holds one triple of
samples per face coordinate: the last line ends holding these triples, and the
set-field writes of the call are exactly those of the triples, in the order n,
nP, nPP. -/
theorem SendReceiveCurrents_unpacks [Inhabited α] (B : BaseMethods α) (op : Operator_MPI)
    (rx : Fin 3 → List α) (e0 e e1 : Engine_MPI α) (tr : List (Event α))
    (g0 g1 g2 : Nat × Nat → α) (hen : op.MPIEnabled = true)
    (hinit : bufferShape e = bufferShape (Init B op e0)) (hup : 0 ≤ op.m_NeighborUp 2)
    (hmsg : rx 2 = (face op 2).flatMap fun x => [g0 x, g1 x, g2 x])
    (h : SendReceiveCurrents op rx e = some (e1, tr)) :
    tr.filter Event.isSet = writesCurr op 2 g0 g1 g2 ∧
    ∀ i j, i < op.numLines 0 → j < op.numLines 1 →
      e1.base.curr 2 (i, j, usub1 (op.numLines 2)) = g0 (i, j) ∧
      e1.base.curr 0 (i, j, usub1 (op.numLines 2)) = g1 (i, j) ∧
      e1.base.curr 1 (i, j, usub1 (op.numLines 2)) = g2 (i, j) := by
  obtain ⟨_, _, _, hu0, hu1, hd0, hd1, hu2, _⟩ := initShape_facts B op e e0 hen hinit
  obtain ⟨b, hb, _⟩ := hu2 hup
  obtain ⟨tp, s1, t0, s2, t1, t2, hp, h0, h1, h2, htr⟩ :=
    SendReceiveCurrents_steps op rx e e1 tr hen h
  have hs1 := exchangeCurrentsAxis_null op rx 0 e s1 t0 hu0 hd0 h0
  subst hs1
  have hs2 := exchangeCurrentsAxis_null op rx 1 s1 s2 t1 hu1 hd1 h1
  subst hs2
  obtain ⟨q0, ts0, tr0, hsd0, hrc0, ht0⟩ := exchangeCurrentsAxis_split op rx 0 s2 s2 t0 h0
  obtain ⟨q1, ts1, tr1, hsd1, hrc1, ht1⟩ := exchangeCurrentsAxis_split op rx 1 s2 s2 t1 h1
  obtain ⟨q, ts, trr, hs, hr, ht2⟩ := exchangeCurrentsAxis_split op rx 2 s2 e1 t2 h2
  have hqb : q.m_BufferUp 2 = some b := by
    rw [(sendCurrents_frame op 2 s2 q ts hs).2.1, hb]
  obtain ⟨htrr, hvals⟩ := receiveCurrents_unpacked op (rx 2) 2 q e1 trr g0 g1 g2 b hup hmsg hqb hr
  refine ⟨?_, fun i j hi hj => hvals (i, j) ((mem_face op 2 i j).mpr ⟨hi, hj⟩)⟩
  -- the posts
  obtain ⟨r0, r1, r2, hr0, hr1, hr2, hr⟩ := forLoop_axes _ _ _ hp
  simp only [Prod.mk.injEq] at hr
  have hpk : ∀ ev ∈ tp, ev.kind ≠ Kind.set := by
    intro ev hev
    rw [hr.2] at hev
    simp only [List.mem_append] at hev
    rcases hev with h | h | h
    · rw [((postReceiveCurrents_events op 0 _ r0 hr0).2 ev h).1]; decide
    · rw [((postReceiveCurrents_events op 1 _ r1 hr1).2 ev h).1]; decide
    · rw [((postReceiveCurrents_events op 2 _ r2 hr2).2 ev h).1]; decide
  have hsend : ∀ (n : Fin 3) (e2 q2 : Engine_MPI α) (t : List (Event α)),
      sendCurrents op n e2 = some (q2, t) → ∀ ev ∈ t, ev.kind ≠ Kind.set := by
    intro n e2 q2 t hst ev hev
    rcases ((sendCurrents_events op n e2 q2 t hst).2 ev hev).1 with h | h <;> rw [h] <;> decide
  have hq0 := (sendCurrents_null op 0 s2 q0 ts0 hd0 hsd0).1
  have hq1 := (sendCurrents_null op 1 s2 q1 ts1 hd1 hsd1).1
  have hk0 : ∀ ev ∈ tr0, ev.kind ≠ Kind.set := by
    intro ev hev
    rw [((receiveCurrents_null op (rx 0) 0 q0 s2 tr0 (by rw [hq0]; exact hu0) hrc0).2 ev hev).1]
    decide
  have hk1 : ∀ ev ∈ tr1, ev.kind ≠ Kind.set := by
    intro ev hev
    rw [((receiveCurrents_null op (rx 1) 1 q1 s2 tr1 (by rw [hq1]; exact hu1) hrc1).2 ev hev).1]
    decide
  rw [htr, ht0, ht1, ht2, htrr]
  simp only [List.filter_append, List.filter_cons, filter_isSet_nil tp hpk,
    filter_isSet_nil ts0 (hsend 0 _ _ ts0 hsd0), filter_isSet_nil ts1 (hsend 1 _ _ ts1 hsd1),
    filter_isSet_nil ts (hsend 2 _ _ ts hs), filter_isSet_nil tr0 hk0, filter_isSet_nil tr1 hk1,
    filter_isSet_self _ (writesCurr_kind op 2 g0 g1 g2), List.nil_append]
  rfl

end RoundTripCurrents

section Counts
variable {α : Type}

theorem count_none_of_kind (ev : Event α) (h : ev.kind ≠ Kind.post ∧ ev.kind ≠ Kind.send) :
    ev.count = none := by
  cases ev <;> first | rfl | simp [Event.kind] at h

theorem sendVoltages_counts (op : Operator_MPI) (n : Fin 3) (e q : Engine_MPI α)
    (t : List (Event α)) (h : sendVoltages op n e = some (q, t)) :
    ∀ ev ∈ t, ∀ c, ev.count = some c → c = e.m_BufferSize n * 2 % UINT_MOD := by
  by_cases hup : 0 ≤ op.m_NeighborUp n
  · rw [sendVoltages_eq op n e hup] at h
    obtain ⟨r, hr, h⟩ := Option.bind_eq_some.mp h
    obtain ⟨sd, hsd, h⟩ := Option.bind_eq_some.mp h
    obtain ⟨pl, hpl⟩ := MPI_Isend_events n _ _ _ _ sd hsd
    simp only [Option.some.injEq, Prod.mk.injEq] at h
    have hg := packVolt_loop_events e.base n (usub1 (op.numLines n)) (face op n) _ r hr
    rw [← h.2, hpl]
    intro ev hev c hc
    rcases List.mem_append.mp hev with h1 | h1
    · rw [count_none_of_kind ev (by rw [(hg ev h1).1]; decide)] at hc
      simp at hc
    · simp only [List.mem_singleton] at h1
      subst h1
      simp only [Event.count, Option.some.injEq] at hc
      exact hc.symm
  · simp only [sendVoltages, if_neg hup, Option.some.injEq, Prod.mk.injEq] at h
    rw [← h.2]
    intro ev hev
    simp at hev

theorem sendCurrents_counts (op : Operator_MPI) (n : Fin 3) (e q : Engine_MPI α)
    (t : List (Event α)) (h : sendCurrents op n e = some (q, t)) :
    ∀ ev ∈ t, ∀ c, ev.count = some c → c = e.m_BufferSize n * 3 % UINT_MOD := by
  by_cases hdown : 0 ≤ op.m_NeighborDown n
  · rw [sendCurrents_eq op n e hdown] at h
    obtain ⟨r, hr, h⟩ := Option.bind_eq_some.mp h
    obtain ⟨sd, hsd, h⟩ := Option.bind_eq_some.mp h
    obtain ⟨pl, hpl⟩ := MPI_Isend_events n _ _ _ _ sd hsd
    simp only [Option.some.injEq, Prod.mk.injEq] at h
    have hg := packCurr_loop_events e.base n 0 (face op n) _ r hr
    rw [← h.2, hpl]
    intro ev hev c hc
    rcases List.mem_append.mp hev with h1 | h1
    · rw [count_none_of_kind ev (by rw [(hg ev h1).1]; decide)] at hc
      simp at hc
    · simp only [List.mem_singleton] at h1
      subst h1
      simp only [Event.count, Option.some.injEq] at hc
      exact hc.symm
  · simp only [sendCurrents, if_neg hdown, Option.some.injEq, Prod.mk.injEq] at h
    rw [← h.2]
    intro ev hev
    simp at hev

theorem receive_counts (n : Fin 3) (t sets : List (Event α)) (ht : t = Event.wait n :: sets)
    (hsets : ∀ ev ∈ sets, ev.kind = Kind.set ∧ ev.axis = some n) :
    ∀ ev ∈ t, ev.count = none := by
  intro ev hev
  rw [ht] at hev
  rcases List.mem_cons.mp hev with h | h
  · rw [h]; rfl
  · exact count_none_of_kind ev (by rw [(hsets ev h).1]; decide)

theorem exchangeVoltagesAxis_counts (op : Operator_MPI) (rx : Fin 3 → List α) (n : Fin 3)
    (e e1 : Engine_MPI α) (t : List (Event α))
    (h : exchangeVoltagesAxis op rx n e = some (e1, t)) :
    e1.m_BufferSize = e.m_BufferSize ∧
      ∀ ev ∈ t, ev.axis = some n ∧ ∀ c, ev.count = some c → c = e.m_BufferSize n * 2 % UINT_MOD := by
  obtain ⟨q, ts, tr, hs, hr, ht⟩ := exchangeVoltagesAxis_split op rx n e e1 t h
  have hax := exchangeVoltagesAxis_trace op rx n e e1 t h
  refine ⟨by rw [(receiveVoltages_frame op (rx n) n q e1 tr hr).2.1,
    (sendVoltages_frame op n e q ts hs).2.2.1], fun ev hev => ⟨?_, ?_⟩⟩
  · obtain ⟨ts1, sets, hteq, _, hts, hsets, _⟩ := hax
    rw [hteq] at hev
    rcases List.mem_append.mp hev with h1 | h1
    · exact (hts ev h1).2
    · split_ifs at h1
      · rcases List.mem_cons.mp h1 with h2 | h2
        · rw [h2]; rfl
        · exact (hsets ev h2).2
      · simp at h1
  · rw [ht] at hev
    rcases List.mem_append.mp hev with h1 | h1
    · exact sendVoltages_counts op n e q ts hs ev h1
    · obtain ⟨hr1, hr2⟩ := receiveVoltages_events op (rx n) n q e1 tr hr
      by_cases hd : 0 ≤ op.m_NeighborDown n
      · obtain ⟨sets, hsets, hall⟩ := hr2 hd
        intro c hc
        rw [receive_counts n tr sets hsets hall ev h1] at hc
        simp at hc
      · rw [hr1 (by omega)] at h1
        simp at h1

theorem exchangeCurrentsAxis_counts (op : Operator_MPI) (rx : Fin 3 → List α) (n : Fin 3)
    (e e1 : Engine_MPI α) (t : List (Event α))
    (h : exchangeCurrentsAxis op rx n e = some (e1, t)) :
    e1.m_BufferSize = e.m_BufferSize ∧
      ∀ ev ∈ t, ev.axis = some n ∧ ∀ c, ev.count = some c → c = e.m_BufferSize n * 3 % UINT_MOD := by
  obtain ⟨q, ts, tr, hs, hr, ht⟩ := exchangeCurrentsAxis_split op rx n e e1 t h
  have hax := exchangeCurrentsAxis_trace op rx n e e1 t h
  refine ⟨by rw [(receiveCurrents_frame op (rx n) n q e1 tr hr).2.1,
    (sendCurrents_frame op n e q ts hs).2.2.1], fun ev hev => ⟨?_, ?_⟩⟩
  · obtain ⟨ts1, sets, hteq, _, hts, hsets, _⟩ := hax
    rw [hteq] at hev
    rcases List.mem_append.mp hev with h1 | h1
    · exact (hts ev h1).2
    · split_ifs at h1
      · rcases List.mem_cons.mp h1 with h2 | h2
        · rw [h2]; rfl
        · exact (hsets ev h2).2
      · simp at h1
  · rw [ht] at hev
    rcases List.mem_append.mp hev with h1 | h1
    · exact sendCurrents_counts op n e q ts hs ev h1
    · obtain ⟨hr1, hr2⟩ := receiveCurrents_events op (rx n) n q e1 tr hr
      by_cases hd : 0 ≤ op.m_NeighborUp n
      · obtain ⟨sets, hsets, hall⟩ := hr2 hd
        intro c hc
        rw [receive_counts n tr sets hsets hall ev h1] at hc
        simp at hc
      · rw [hr1 (by omega)] at h1
        simp at h1

theorem postReceiveVoltages_counts (op : Operator_MPI) (n : Fin 3) (e : Engine_MPI α)
    (r : Engine_MPI α × List (Event α)) (h : postReceiveVoltages op n e = some r) :
    ∀ ev ∈ r.2, ev.axis = some n ∧ ∀ c, ev.count = some c → c = e.m_BufferSize n * 2 % UINT_MOD := by
  unfold postReceiveVoltages at h
  split_ifs at h with hd
  · obtain ⟨ev, hev, h⟩ := Option.bind_eq_some.mp h
    simp only [Option.some.injEq] at h
    unfold MPI_Irecv at hev
    split_ifs at hev
    simp only [Option.some.injEq] at hev
    rw [← h, ← hev]
    intro ev hev
    simp only [List.mem_singleton] at hev
    subst hev
    exact ⟨rfl, fun c hc => by simp only [Event.count, Option.some.injEq] at hc; exact hc.symm⟩
  · simp only [Option.some.injEq] at h
    rw [← h]
    intro ev hev
    simp at hev

theorem postReceiveCurrents_counts (op : Operator_MPI) (n : Fin 3) (e : Engine_MPI α)
    (r : Engine_MPI α × List (Event α)) (h : postReceiveCurrents op n e = some r) :
    ∀ ev ∈ r.2, ev.axis = some n ∧ ∀ c, ev.count = some c → c = e.m_BufferSize n * 3 % UINT_MOD := by
  unfold postReceiveCurrents at h
  split_ifs at h with hd
  · obtain ⟨ev, hev, h⟩ := Option.bind_eq_some.mp h
    simp only [Option.some.injEq] at h
    unfold MPI_Irecv at hev
    split_ifs at hev
    simp only [Option.some.injEq] at hev
    rw [← h, ← hev]
    intro ev hev
    simp only [List.mem_singleton] at hev
    subst hev
    exact ⟨rfl, fun c hc => by simp only [Event.count, Option.some.injEq] at hc; exact hc.symm⟩
  · simp only [Option.some.injEq] at h
    rw [← h]
    intro ev hev
    simp at hev

/-- Every element count handed to the substrate by a voltage exchange for axis
n is m_BufferSize[n]*2. -/
theorem SendReceiveVoltages_counts (op : Operator_MPI) (rx : Fin 3 → List α)
    (e e1 : Engine_MPI α) (tr : List (Event α)) (hen : op.MPIEnabled = true)
    (h : SendReceiveVoltages op rx e = some (e1, tr)) :
    ∀ ev ∈ tr, ∀ n c, ev.axis = some n → ev.count = some c →
      c = e.m_BufferSize n * 2 % UINT_MOD := by
  obtain ⟨tp, s1, t0, s2, t1, t2, hp, h0, h1, h2, htr⟩ :=
    SendReceiveVoltages_steps op rx e e1 tr hen h
  obtain ⟨r0, r1, r2, hr0, hr1, hr2, hr⟩ := forLoop_axes _ _ _ hp
  simp only [Prod.mk.injEq] at hr
  have e0 := postReceiveVoltages_state op 0 e r0 hr0
  rw [e0] at hr1
  have e1' := postReceiveVoltages_state op 1 e r1 hr1
  rw [e1'] at hr2
  obtain ⟨hz0, hc0⟩ := exchangeVoltagesAxis_counts op rx 0 e s1 t0 h0
  obtain ⟨hz1, hc1⟩ := exchangeVoltagesAxis_counts op rx 1 s1 s2 t1 h1
  obtain ⟨_, hc2⟩ := exchangeVoltagesAxis_counts op rx 2 s2 e1 t2 h2
  rw [hz0] at hc1 hz1
  rw [hz1] at hc2
  have key : ∀ (m : Fin 3) (l : List (Event α)),
      (∀ ev ∈ l, ev.axis = some m ∧ ∀ c, ev.count = some c → c = e.m_BufferSize m * 2 % UINT_MOD) →
      ∀ ev ∈ l, ∀ n c, ev.axis = some n → ev.count = some c →
        c = e.m_BufferSize n * 2 % UINT_MOD := by
    intro m l hl ev hev n c hax hc
    have := (hl ev hev).1
    rw [this] at hax
    simp only [Option.some.injEq] at hax
    subst hax
    exact (hl ev hev).2 c hc
  rw [htr, hr.2]
  intro ev hev
  simp only [List.mem_append] at hev
  rcases hev with (h | h | h) | h | h | h
  · exact key 0 _ (postReceiveVoltages_counts op 0 e r0 hr0) ev h
  · exact key 1 _ (postReceiveVoltages_counts op 1 e r1 hr1) ev h
  · exact key 2 _ (postReceiveVoltages_counts op 2 e r2 hr2) ev h
  · exact key 0 _ hc0 ev h
  · exact key 1 _ hc1 ev h
  · exact key 2 _ hc2 ev h

/-- Every element count handed to the substrate by a current exchange for axis
n is m_BufferSize[n]*3. -/
theorem SendReceiveCurrents_counts (op : Operator_MPI) (rx : Fin 3 → List α)
    (e e1 : Engine_MPI α) (tr : List (Event α)) (hen : op.MPIEnabled = true)
    (h : SendReceiveCurrents op rx e = some (e1, tr)) :
    ∀ ev ∈ tr, ∀ n c, ev.axis = some n → ev.count = some c →
      c = e.m_BufferSize n * 3 % UINT_MOD := by
  obtain ⟨tp, s1, t0, s2, t1, t2, hp, h0, h1, h2, htr⟩ :=
    SendReceiveCurrents_steps op rx e e1 tr hen h
  obtain ⟨r0, r1, r2, hr0, hr1, hr2, hr⟩ := forLoop_axes _ _ _ hp
  simp only [Prod.mk.injEq] at hr
  have e0 := postReceiveCurrents_state op 0 e r0 hr0
  rw [e0] at hr1
  have e1' := postReceiveCurrents_state op 1 e r1 hr1
  rw [e1'] at hr2
  obtain ⟨hz0, hc0⟩ := exchangeCurrentsAxis_counts op rx 0 e s1 t0 h0
  obtain ⟨hz1, hc1⟩ := exchangeCurrentsAxis_counts op rx 1 s1 s2 t1 h1
  obtain ⟨_, hc2⟩ := exchangeCurrentsAxis_counts op rx 2 s2 e1 t2 h2
  rw [hz0] at hc1 hz1
  rw [hz1] at hc2
  have key : ∀ (m : Fin 3) (l : List (Event α)),
      (∀ ev ∈ l, ev.axis = some m ∧ ∀ c, ev.count = some c → c = e.m_BufferSize m * 3 % UINT_MOD) →
      ∀ ev ∈ l, ∀ n c, ev.axis = some n → ev.count = some c →
        c = e.m_BufferSize n * 3 % UINT_MOD := by
    intro m l hl ev hev n c hax hc
    have := (hl ev hev).1
    rw [this] at hax
    simp only [Option.some.injEq] at hax
    subst hax
    exact (hl ev hev).2 c hc
  rw [htr, hr.2]
  intro ev hev
  simp only [List.mem_append] at hev
  rcases hev with (h | h | h) | h | h | h
  · exact key 0 _ (postReceiveCurrents_counts op 0 e r0 hr0) ev h
  · exact key 1 _ (postReceiveCurrents_counts op 1 e r1 hr1) ev h
  · exact key 2 _ (postReceiveCurrents_counts op 2 e r2 hr2) ev h
  · exact key 0 _ hc0 ev h
  · exact key 1 _ hc1 ev h
  · exact key 2 _ hc2 ev h

end Counts

section Returns
variable {α : Type}

end Returns

section Returns
variable {α : Type}

end Returns

section Returns
variable {α : Type}

end Returns

section Lines
variable {α : Type}

theorem unpackVoltBody_line (buf : Buffer α) (n : Fin 3) (line a b : Nat)
    (st : Engine_SSE_Compressed α × Nat)
    (r : (Engine_SSE_Compressed α × Nat) × List (Event α))
    (h : unpackVoltBody buf n line a b st = some r) :
    ∀ c p, p ≠ mkPos n line a b → r.1.1.volt c p = st.1.volt c p := by
  unfold unpackVoltBody at h
  obtain ⟨v1, _, h⟩ := Option.bind_eq_some.mp h
  obtain ⟨v2, _, h⟩ := Option.bind_eq_some.mp h
  simp only [Option.some.injEq] at h
  rw [← h]
  intro c p hp
  simp [SetVolt_volt, hp]

theorem unpackCurrBody_line (buf : Buffer α) (n : Fin 3) (line a b : Nat)
    (st : Engine_SSE_Compressed α × Nat)
    (r : (Engine_SSE_Compressed α × Nat) × List (Event α))
    (h : unpackCurrBody buf n line a b st = some r) :
    ∀ c p, p ≠ mkPos n line a b → r.1.1.curr c p = st.1.curr c p := by
  unfold unpackCurrBody at h
  obtain ⟨v1, _, h⟩ := Option.bind_eq_some.mp h
  obtain ⟨v2, _, h⟩ := Option.bind_eq_some.mp h
  obtain ⟨v3, _, h⟩ := Option.bind_eq_some.mp h
  simp only [Option.some.injEq] at h
  rw [← h]
  intro c p hp
  simp [SetCurr_curr, hp]

/-- The receive block of the voltage exchange writes on the first line of its
axis only. -/
theorem receiveVoltages_line (op : Operator_MPI) (msg : List α) (n : Fin 3) (e q : Engine_MPI α)
    (t : List (Event α)) (h : receiveVoltages op msg n e = some (q, t)) :
    ∀ c p, (∀ a b, p ≠ mkPos n 0 a b) → q.base.volt c p = e.base.volt c p := by
  by_cases hdown : 0 ≤ op.m_NeighborDown n
  · rw [receiveVoltages_eq op msg n e hdown] at h
    obtain ⟨w, _, h⟩ := Option.bind_eq_some.mp h
    obtain ⟨r, hr, h⟩ := Option.bind_eq_some.mp h
    have hb : ∀ (x : Nat × Nat) (s : Engine_SSE_Compressed α × Nat)
        (r : (Engine_SSE_Compressed α × Nat) × List (Event α)),
        (∀ c p, (∀ a b, p ≠ mkPos n 0 a b) → s.1.volt c p = e.base.volt c p) →
        unpackVoltBody w.1 n 0 x.1 x.2 s = some r →
        ∀ c p, (∀ a b, p ≠ mkPos n 0 a b) → r.1.1.volt c p = e.base.volt c p :=
      fun x s r hs hbody c p hp => by
        rw [unpackVoltBody_line w.1 n 0 x.1 x.2 s r hbody c p (hp x.1 x.2)]
        exact hs c p hp
    have hinv := forLoop_invariant
      (fun s : Engine_SSE_Compressed α × Nat =>
        ∀ c p, (∀ a b, p ≠ mkPos n 0 a b) → s.1.volt c p = e.base.volt c p)
      (face op n) (fun ab => unpackVoltBody w.1 n 0 ab.1 ab.2) hb (e.base, 0) r
      (fun _ _ _ => rfl) hr
    simp only [Option.some.injEq, Prod.mk.injEq] at h
    rw [← h.1]
    exact hinv
  · simp only [receiveVoltages, if_neg hdown, Option.some.injEq, Prod.mk.injEq] at h
    rw [← h.1]
    exact fun _ _ _ => rfl

/-- The receive block of the current exchange writes on the last line of its
axis only. -/
theorem receiveCurrents_line (op : Operator_MPI) (msg : List α) (n : Fin 3) (e q : Engine_MPI α)
    (t : List (Event α)) (h : receiveCurrents op msg n e = some (q, t)) :
    ∀ c p, (∀ a b, p ≠ mkPos n (usub1 (op.numLines n)) a b) →
      q.base.curr c p = e.base.curr c p := by
  by_cases hup : 0 ≤ op.m_NeighborUp n
  · rw [receiveCurrents_eq op msg n e hup] at h
    obtain ⟨w, _, h⟩ := Option.bind_eq_some.mp h
    obtain ⟨r, hr, h⟩ := Option.bind_eq_some.mp h
    have hb : ∀ (x : Nat × Nat) (s : Engine_SSE_Compressed α × Nat)
        (r : (Engine_SSE_Compressed α × Nat) × List (Event α)),
        (∀ c p, (∀ a b, p ≠ mkPos n (usub1 (op.numLines n)) a b) →
          s.1.curr c p = e.base.curr c p) →
        unpackCurrBody w.1 n (usub1 (op.numLines n)) x.1 x.2 s = some r →
        ∀ c p, (∀ a b, p ≠ mkPos n (usub1 (op.numLines n)) a b) →
          r.1.1.curr c p = e.base.curr c p :=
      fun x s r hs hbody c p hp => by
        rw [unpackCurrBody_line w.1 n (usub1 (op.numLines n)) x.1 x.2 s r hbody c p (hp x.1 x.2)]
        exact hs c p hp
    have hinv := forLoop_invariant
      (fun s : Engine_SSE_Compressed α × Nat =>
        ∀ c p, (∀ a b, p ≠ mkPos n (usub1 (op.numLines n)) a b) →
          s.1.curr c p = e.base.curr c p)
      (face op n) (fun ab => unpackCurrBody w.1 n (usub1 (op.numLines n)) ab.1 ab.2) hb
      (e.base, 0) r (fun _ _ _ => rfl) hr
    simp only [Option.some.injEq, Prod.mk.injEq] at h
    rw [← h.1]
    exact hinv
  · simp only [receiveCurrents, if_neg hup, Option.some.injEq, Prod.mk.injEq] at h
    rw [← h.1]
    exact fun _ _ _ => rfl

/-- A returning voltage exchange of an engine in the buffer state of Init
changes voltages on the first line of axis 2 only. -/
theorem SendReceiveVoltages_line [Inhabited α] (B : BaseMethods α) (op : Operator_MPI)
    (rx : Fin 3 → List α) (e0 e e1 : Engine_MPI α) (tr : List (Event α))
    (hen : op.MPIEnabled = true) (hinit : bufferShape e = bufferShape (Init B op e0))
    (h : SendReceiveVoltages op rx e = some (e1, tr)) :
    ∀ c i j k, k ≠ 0 → e1.base.volt c (i, j, k) = e.base.volt c (i, j, k) := by
  obtain ⟨_, _, _, hu0, hu1, hd0, hd1, _, _⟩ := initShape_facts B op e e0 hen hinit
  obtain ⟨tp, s1, t0, s2, t1, t2, _, h0, h1, h2, _⟩ := SendReceiveVoltages_steps op rx e e1 tr hen h
  have hs1 := exchangeVoltagesAxis_null op rx 0 e s1 t0 hu0 hd0 h0
  subst hs1
  have hs2 := exchangeVoltagesAxis_null op rx 1 s1 s2 t1 hu1 hd1 h1
  subst hs2
  obtain ⟨q, ts, trr, hs, hr, _⟩ := exchangeVoltagesAxis_split op rx 2 s2 e1 t2 h2
  intro c i j k hk
  rw [receiveVoltages_line op (rx 2) 2 q e1 trr hr c (i, j, k)
    (fun a b heq => by rw [mkPos_axis2] at heq; simp only [Prod.mk.injEq] at heq; exact hk heq.2.2),
    (sendVoltages_frame op 2 s2 q ts hs).1]

/-- A returning current exchange of an engine in the buffer state of Init
changes currents on the last line of axis 2 only. -/
theorem SendReceiveCurrents_line [Inhabited α] (B : BaseMethods α) (op : Operator_MPI)
    (rx : Fin 3 → List α) (e0 e e1 : Engine_MPI α) (tr : List (Event α))
    (hen : op.MPIEnabled = true) (hinit : bufferShape e = bufferShape (Init B op e0))
    (h : SendReceiveCurrents op rx e = some (e1, tr)) :
    ∀ c i j k, k ≠ usub1 (op.numLines 2) → e1.base.curr c (i, j, k) = e.base.curr c (i, j, k) := by
  obtain ⟨_, _, _, hu0, hu1, hd0, hd1, _, _⟩ := initShape_facts B op e e0 hen hinit
  obtain ⟨tp, s1, t0, s2, t1, t2, _, h0, h1, h2, _⟩ := SendReceiveCurrents_steps op rx e e1 tr hen h
  have hs1 := exchangeCurrentsAxis_null op rx 0 e s1 t0 hu0 hd0 h0
  subst hs1
  have hs2 := exchangeCurrentsAxis_null op rx 1 s1 s2 t1 hu1 hd1 h1
  subst hs2
  obtain ⟨q, ts, trr, hs, hr, _⟩ := exchangeCurrentsAxis_split op rx 2 s2 e1 t2 h2
  intro c i j k hk
  rw [receiveCurrents_line op (rx 2) 2 q e1 trr hr c (i, j, k)
    (fun a b heq => by rw [mkPos_axis2] at heq; simp only [Prod.mk.injEq] at heq; exact hk heq.2.2),
    (sendCurrents_frame op 2 s2 q ts hs).1]

end Lines

section Schedule
variable {α : Type}

end Schedule

/-! ## The claims -/

theorem some_runOf {α : Type} (r : Option (Engine_MPI α × List (Event α))) (e : Engine_MPI α)
    (h : r.isSome = true) : r = some ((runOf r e).1, (runOf r e).2) := by
  cases r with
  | none => simp at h
  | some x => rfl

/-- C1: voltage round trip on axis 2.  Ranks A and B are both initialised by
Init in distributed mode, agree on numLines[0] and numLines[1], A has a valid
up link and B a valid down link on axis 2, and the message B receives on axis 2
is the first m_BufferSize[2]*2 floats of the up-buffer packed by the voltage
exchange of A.  Then after the voltage exchange of B the voltage components 0
and 1 at (i, j, 0) on B are the components 0 and 1 that A held at
(i, j, numLines[2]-1) when it packed them, for every transverse coordinate
(i, j); and A still holds them there after its own exchange whenever its last
line is not its first line. -/
theorem voltage_round_trip_axis2 {α : Type} [Inhabited α] (BA BB : BaseMethods α)
    (opA opB : Operator_MPI) (a0 b0 eA eB eA1 eB1 : Engine_MPI α) (rxA rxB : Fin 3 → List α)
    (trA trB : List (Event α))
    (henA : opA.MPIEnabled = true) (henB : opB.MPIEnabled = true)
    (hinitA : bufferShape eA = bufferShape (Init BA opA a0))
    (hinitB : bufferShape eB = bufferShape (Init BB opB b0))
    (hl0 : opA.numLines 0 = opB.numLines 0) (hl1 : opA.numLines 1 = opB.numLines 1)
    (hup : 0 ≤ opA.m_NeighborUp 2) (hdown : 0 ≤ opB.m_NeighborDown 2)
    (hA : SendReceiveVoltages opA rxA eA = some (eA1, trA))
    (hmsg : (eA1.m_BufferUp 2).map (List.take (eA1.m_BufferSize 2 * 2 % UINT_MOD)) =
      some (rxB 2))
    (hB : SendReceiveVoltages opB rxB eB = some (eB1, trB)) :
    ∀ i j, i < opB.numLines 0 → j < opB.numLines 1 →
      eB1.base.volt 0 (i, j, 0) = eA.base.volt 0 (i, j, usub1 (opA.numLines 2)) ∧
      eB1.base.volt 1 (i, j, 0) = eA.base.volt 1 (i, j, usub1 (opA.numLines 2)) ∧
      (usub1 (opA.numLines 2) ≠ 0 → ∀ c : Fin 3,
        eA1.base.volt c (i, j, usub1 (opA.numLines 2)) =
          eA.base.volt c (i, j, usub1 (opA.numLines 2))) := by
  have hline := SendReceiveVoltages_line BA opA rxA a0 eA eA1 trA henA hinitA hA
  have hp := SendReceiveVoltages_packs BA opA rxA a0 eA eA1 trA henA hinitA hup hA
  rw [hmsg] at hp
  simp only [Option.some.injEq] at hp
  have hface : face opA 2 = face opB 2 := by rw [face_axis2, face_axis2, hl0, hl1]
  have hrx : rxB 2 = (face opB 2).flatMap fun x =>
      [eA.base.volt 0 (x.1, x.2, usub1 (opA.numLines 2)),
        eA.base.volt 1 (x.1, x.2, usub1 (opA.numLines 2))] := by
    rw [hp, packedVolt, hface]
    rfl
  intro i j hi hj
  obtain ⟨h0, h1⟩ :=
    SendReceiveVoltages_unpacks BB opB rxB b0 eB eB1 trB _ _ henB hinitB hdown hrx hB i j hi hj
  exact ⟨h0, h1, fun hne c => hline c i j _ hne⟩

/-- Witness of C1: the scenario of two 1x4x4 ranks with tag 7; the values 1.0
and 2.0 of rank A are read back on the first line of rank B. -/
theorem voltage_round_trip_axis2_witness :
    ∃ eB1 trB,
      SendReceiveVoltages scenarioOpB scenarioRxB (Init idleBase scenarioOpB zeroEngine) =
        some (eB1, trB) ∧
      ∀ j, j < 4 →
        eB1.base.volt 0 (0, j, 0) = 1065353216 ∧ eB1.base.volt 1 (0, j, 0) = 1073741824 :=
  ⟨_, _, some_runOf _ zeroEngine (by decide), fun j hj =>
    have h := voltage_round_trip_axis2 idleBase idleBase scenarioOpA scenarioOpB scenarioFieldsA
      zeroEngine (Init idleBase scenarioOpA scenarioFieldsA)
      (Init idleBase scenarioOpB zeroEngine) _ _
      noRx scenarioRxB _ _ rfl rfl rfl rfl rfl rfl (by decide) (by decide)
      (some_runOf _ zeroEngine (by decide)) (by decide) (some_runOf _ zeroEngine (by decide))
      0 j (by decide) hj
    ⟨h.1, h.2.1⟩⟩

/-- C2: current round trip on axis 2, mirrored and with all three components.
Ranks A and B are both initialised by Init in distributed mode, agree on
numLines[0] and numLines[1], B has a valid down link and A a valid up link on
axis 2, and the message A receives on axis 2 is the first m_BufferSize[2]*3
floats of the down-buffer packed by the current exchange of B.  Then this
message lists, sample by sample, the components 2 (n), 0 (nP), 1 (nPP) of the
first line of B; the set-field writes of the exchange of A are those of the
same values, sample by sample in the order n, nP, nPP, on the last line of A;
and afterwards every current component c at (i, j, numLines[2]-1) on A is the
component c that B held at (i, j, 0) when it packed it, which B still holds
there after its own exchange whenever its last line is not its first line. -/
theorem current_round_trip_axis2 {α : Type} [Inhabited α] (BA BB : BaseMethods α)
    (opA opB : Operator_MPI) (a0 b0 eA eB eA1 eB1 : Engine_MPI α) (rxA rxB : Fin 3 → List α)
    (trA trB : List (Event α))
    (henA : opA.MPIEnabled = true) (henB : opB.MPIEnabled = true)
    (hinitA : bufferShape eA = bufferShape (Init BA opA a0))
    (hinitB : bufferShape eB = bufferShape (Init BB opB b0))
    (hl0 : opA.numLines 0 = opB.numLines 0) (hl1 : opA.numLines 1 = opB.numLines 1)
    (hdown : 0 ≤ opB.m_NeighborDown 2) (hup : 0 ≤ opA.m_NeighborUp 2)
    (hB : SendReceiveCurrents opB rxB eB = some (eB1, trB))
    (hmsg : (eB1.m_BufferDown 2).map (List.take (eB1.m_BufferSize 2 * 3 % UINT_MOD)) =
      some (rxA 2))
    (hA : SendReceiveCurrents opA rxA eA = some (eA1, trA)) :
    rxA 2 = (face opB 2).flatMap (fun x =>
      [eB.base.curr 2 (x.1, x.2, 0), eB.base.curr 0 (x.1, x.2, 0),
        eB.base.curr 1 (x.1, x.2, 0)]) ∧
    trA.filter Event.isSet = (face opA 2).flatMap (fun x =>
      [Event.setCurr 2 2 (x.1, x.2, usub1 (opA.numLines 2)) (eB.base.curr 2 (x.1, x.2, 0)),
        Event.setCurr 2 0 (x.1, x.2, usub1 (opA.numLines 2)) (eB.base.curr 0 (x.1, x.2, 0)),
        Event.setCurr 2 1 (x.1, x.2, usub1 (opA.numLines 2)) (eB.base.curr 1 (x.1, x.2, 0))]) ∧
    ∀ i j, i < opA.numLines 0 → j < opA.numLines 1 → ∀ c : Fin 3,
      eA1.base.curr c (i, j, usub1 (opA.numLines 2)) = eB.base.curr c (i, j, 0) ∧
      (usub1 (opB.numLines 2) ≠ 0 → eB1.base.curr c (i, j, 0) = eB.base.curr c (i, j, 0)) := by
  have hline := SendReceiveCurrents_line BB opB rxB b0 eB eB1 trB henB hinitB hB
  have hp := SendReceiveCurrents_packs BB opB rxB b0 eB eB1 trB henB hinitB hdown hB
  rw [hmsg] at hp
  simp only [Option.some.injEq] at hp
  have hface : face opB 2 = face opA 2 := by rw [face_axis2, face_axis2, hl0, hl1]
  have hrxB : rxA 2 = (face opB 2).flatMap fun x =>
      [eB.base.curr 2 (x.1, x.2, 0), eB.base.curr 0 (x.1, x.2, 0),
        eB.base.curr 1 (x.1, x.2, 0)] := by
    rw [hp, packedCurr]
    rfl
  have hrx : rxA 2 = (face opA 2).flatMap fun x =>
      [eB.base.curr 2 (x.1, x.2, 0), eB.base.curr 0 (x.1, x.2, 0),
        eB.base.curr 1 (x.1, x.2, 0)] := by
    rw [hrxB, hface]
  obtain ⟨htr, hvals⟩ :=
    SendReceiveCurrents_unpacks BA opA rxA a0 eA eA1 trA _ _ _ henA hinitA hup hrx hA
  refine ⟨hrxB, htr, fun i j hi hj c => ⟨?_, fun hne => hline c i j 0 (Ne.symm hne)⟩⟩
  obtain ⟨h2, h0, h1⟩ := hvals i j hi hj
  fin_cases c
  · exact h0
  · exact h1
  · exact h2

/-- Witness of C2: rank B of the scenario packs the currents of its first line
and rank A reads them back on its last line. -/
theorem current_round_trip_axis2_witness :
    ∃ eA1 trA,
      SendReceiveCurrents scenarioOpA scenarioRxA (Init idleBase scenarioOpA zeroEngine) =
        some (eA1, trA) ∧
      ∀ j, j < 4 → ∀ c : Fin 3, eA1.base.curr c (0, j, 3) = 10 * j + c.val + 1 :=
  ⟨_, _, some_runOf _ zeroEngine (by decide), fun j hj c =>
    ((current_round_trip_axis2 idleBase idleBase scenarioOpA scenarioOpB zeroEngine scenarioFieldsB
      (Init idleBase scenarioOpA zeroEngine) (Init idleBase scenarioOpB scenarioFieldsB) _ _
      scenarioRxA noRx _ _ rfl rfl rfl rfl rfl rfl (by decide) (by decide)
      (some_runOf _ zeroEngine (by decide)) (by decide)
      (some_runOf _ zeroEngine (by decide))).2.2 0 j (by decide) hj c).1⟩

/-- Counterexample to C3 as stated: after Init in distributed mode on a 1x4x4
sub-volume, the element count of axis 0 is 0 for both exchanges, while
numLines[1]*numLines[2]*2 is 32 and numLines[1]*numLines[2]*3 is 48. -/
theorem buffer_sizing_axis0_counterexample :
    scenarioOpA.MPIEnabled = true ∧
    (Init idleBase scenarioOpA zeroEngine).m_BufferSize 0 * 2 = 0 ∧
    scenarioOpA.numLines (axisP 0) * scenarioOpA.numLines (axisPP 0) * 2 = 32 ∧
    (Init idleBase scenarioOpA zeroEngine).m_BufferSize 0 * 3 = 0 ∧
    scenarioOpA.numLines (axisP 0) * scenarioOpA.numLines (axisPP 0) * 3 = 48 := by
  decide

/-- C3, amended: after Init in distributed mode the buffer sizing holds for
axis 2 and only there.  m_BufferSize[2] is numLines[0]*numLines[1] in unsigned
arithmetic, so the element count of axis 2 is numLines[0]*numLines[1]*2 for
the voltage exchange and numLines[0]*numLines[1]*3 for the current exchange
(exactly so when the larger product fits the unsigned type), and these are the
counts every receive post and send of axis 2 hands to the substrate;
m_BufferSize[0] and m_BufferSize[1] are zero, and so is every count handed
over for the axes 0 and 1. -/
theorem buffer_sizing_axis2 {α : Type} [Inhabited α] (B : BaseMethods α) (op : Operator_MPI)
    (e0 : Engine_MPI α) (hen : op.MPIEnabled = true) :
    (Init B op e0).m_BufferSize 2 * 2 % UINT_MOD = op.numLines 0 * op.numLines 1 * 2 % UINT_MOD ∧
    (Init B op e0).m_BufferSize 2 * 3 % UINT_MOD = op.numLines 0 * op.numLines 1 * 3 % UINT_MOD ∧
    (op.numLines 0 * op.numLines 1 * 3 < UINT_MOD →
      (Init B op e0).m_BufferSize 2 * 2 = op.numLines 0 * op.numLines 1 * 2 ∧
      (Init B op e0).m_BufferSize 2 * 3 = op.numLines 0 * op.numLines 1 * 3) ∧
    (Init B op e0).m_BufferSize 0 = 0 ∧ (Init B op e0).m_BufferSize 1 = 0 ∧
    (∀ (e e1 : Engine_MPI α) (rx : Fin 3 → List α) (tr : List (Event α)),
      bufferShape e = bufferShape (Init B op e0) →
      SendReceiveVoltages op rx e = some (e1, tr) →
      ∀ ev ∈ tr, ∀ n c, ev.axis = some n → ev.count = some c →
        c = if n = 2 then op.numLines 0 * op.numLines 1 * 2 % UINT_MOD else 0) ∧
    (∀ (e e1 : Engine_MPI α) (rx : Fin 3 → List α) (tr : List (Event α)),
      bufferShape e = bufferShape (Init B op e0) →
      SendReceiveCurrents op rx e = some (e1, tr) →
      ∀ ev ∈ tr, ∀ n c, ev.axis = some n → ev.count = some c →
        c = if n = 2 then op.numLines 0 * op.numLines 1 * 3 % UINT_MOD else 0) := by
  obtain ⟨h2, h0, h1, _⟩ := initShape_facts B op (Init B op e0) e0 hen rfl
  refine ⟨?_, ?_, ?_, h0, h1, ?_, ?_⟩
  · rw [h2, Nat.mod_mul_mod]
  · rw [h2, Nat.mod_mul_mod]
  · intro hlt
    rw [h2, Nat.mod_eq_of_lt (by omega)]
    exact ⟨rfl, rfl⟩
  · intro e e1 rx tr hs hrun ev hev n c hax hc
    obtain ⟨g2, g0, g1, _⟩ := initShape_facts B op e e0 hen hs
    have := SendReceiveVoltages_counts op rx e e1 tr hen hrun ev hev n c hax hc
    rw [this]
    fin_cases n
    · simp [g0]
    · simp [g1]
    · simp [g2]
  · intro e e1 rx tr hs hrun ev hev n c hax hc
    obtain ⟨g2, g0, g1, _⟩ := initShape_facts B op e e0 hen hs
    have := SendReceiveCurrents_counts op rx e e1 tr hen hrun ev hev n c hax hc
    rw [this]
    fin_cases n
    · simp [g0]
    · simp [g1]
    · simp [g2]

/-- Witness of the amended C3 on rank A of the scenario: m_BufferSize[2] is 4,
the voltage exchange hands 8 elements to its send on axis 2. -/
theorem buffer_sizing_axis2_witness :
    (Init idleBase scenarioOpA zeroEngine).m_BufferSize 2 * 2 = 8 ∧
    (Init idleBase scenarioOpA zeroEngine).m_BufferSize 2 * 3 = 12 ∧
    ∀ ev ∈ (runOf (SendReceiveVoltages scenarioOpA noRx (Init idleBase scenarioOpA scenarioFieldsA))
        zeroEngine).2,
      ∀ c, ev.count = some c → c = 8 :=
  have h := buffer_sizing_axis2 idleBase scenarioOpA zeroEngine rfl
  have hax : ∀ ev ∈ (runOf (SendReceiveVoltages scenarioOpA noRx
      (Init idleBase scenarioOpA scenarioFieldsA)) zeroEngine).2, ev.axis = some 2 := by
    decide
  ⟨(h.2.2.1 (by decide)).1, (h.2.2.1 (by decide)).2, fun ev hev c hc =>
    h.2.2.2.2.2.1 (Init idleBase scenarioOpA scenarioFieldsA) _ noRx _ rfl
      (some_runOf _ zeroEngine (by decide)) ev hev 2 c (hax ev hev) hc⟩

/-- C4: receive-before-send ordering.  In the trace of one returning call of
SendReceiveVoltages in distributed mode, and likewise of SendReceiveCurrents:
each axis that receives (valid down link for voltages, valid up link for
currents) has exactly one receive post and exactly one wait, each axis that
sends has exactly one send, and the other axes have none; every receive post
occurs before every send; for each axis n that receives the wait of axis n
occurs after every receive post, after the send of axis n and before every
set-field write of axis n; and the axes are handled in the order 0, 1, 2,
among the posts and among the later events. -/
theorem receive_before_send_ordering {α : Type} (op : Operator_MPI) (rx : Fin 3 → List α)
    (e : Engine_MPI α) (hen : op.MPIEnabled = true) :
    (∀ e1 tr, SendReceiveVoltages op rx e = some (e1, tr) →
      ReceiveBeforeSend (fun n => decide (0 ≤ op.m_NeighborUp n))
        (fun n => decide (0 ≤ op.m_NeighborDown n)) tr) ∧
    (∀ e1 tr, SendReceiveCurrents op rx e = some (e1, tr) →
      ReceiveBeforeSend (fun n => decide (0 ≤ op.m_NeighborDown n))
        (fun n => decide (0 ≤ op.m_NeighborUp n)) tr) :=
  ⟨fun e1 tr h => exchangeTrace_ordering _ _ tr (SendReceiveVoltages_trace op rx e e1 tr hen h),
    fun e1 tr h => exchangeTrace_ordering _ _ tr (SendReceiveCurrents_trace op rx e e1 tr hen h)⟩

/-- Witness of C4: the two exchanges of a rank in the middle of a chain along
axis 2, which both sends and receives on that axis: one receive post, the
packing reads, one send, one wait, the unpacking writes. -/
theorem receive_before_send_ordering_witness :
    (∃ e1 tr, SendReceiveVoltages middleOp middleRxV (Init idleBase middleOp zeroEngine) =
        some (e1, tr) ∧
      tr.map Event.kind = [Kind.post, Kind.get, Kind.get, Kind.get, Kind.get, Kind.send,
        Kind.wait, Kind.set, Kind.set, Kind.set, Kind.set] ∧
      ReceiveBeforeSend (fun n => decide (0 ≤ middleOp.m_NeighborUp n))
        (fun n => decide (0 ≤ middleOp.m_NeighborDown n)) tr) ∧
    (∃ e1 tr, SendReceiveCurrents middleOp middleRxC (Init idleBase middleOp zeroEngine) =
        some (e1, tr) ∧
      tr.map Event.kind = [Kind.post, Kind.get, Kind.get, Kind.get, Kind.get, Kind.get,
        Kind.get, Kind.send, Kind.wait, Kind.set, Kind.set, Kind.set, Kind.set, Kind.set,
        Kind.set] ∧
      ReceiveBeforeSend (fun n => decide (0 ≤ middleOp.m_NeighborDown n))
        (fun n => decide (0 ≤ middleOp.m_NeighborUp n)) tr) :=
  ⟨⟨_, _, some_runOf _ zeroEngine (by decide), by decide,
      (receive_before_send_ordering middleOp middleRxV (Init idleBase middleOp zeroEngine) rfl).1
        _ _ (some_runOf _ zeroEngine (by decide))⟩,
    ⟨_, _, some_runOf _ zeroEngine (by decide), by decide,
      (receive_before_send_ordering middleOp middleRxC (Init idleBase middleOp zeroEngine) rfl).2
        _ _ (some_runOf _ zeroEngine (by decide))⟩⟩

/-- C6: local-only pass-through.  With distributed execution disabled,
IterateTS(iterTS) returns the state and the return value of the IterateTS of
the base engine, the buffers untouched, and performs no event; and each of
SendReceiveVoltages and SendReceiveCurrents returns with the engine (field
store and buffers) unchanged and no event. -/
theorem local_only_pass_through {α : Type} (B : BaseMethods α) (op : Operator_MPI)
    (rxV rxC : Nat → Fin 3 → List α) (rx : Fin 3 → List α) (iterTS : Nat) (e : Engine_MPI α)
    (hdis : op.MPIEnabled = false) :
    IterateTS B op rxV rxC iterTS e =
      some (({ e with base := (B.IterateTS iterTS e.base).1 }, []),
        (B.IterateTS iterTS e.base).2) ∧
    SendReceiveVoltages op rx e = some (e, []) ∧
    SendReceiveCurrents op rx e = some (e, []) := by
  refine ⟨?_, ?_, ?_⟩
  · rw [IterateTS, if_pos hdis]
  · rw [SendReceiveVoltages, if_pos hdis]
  · rw [SendReceiveCurrents, if_pos hdis]

/-- Witness of C6: three steps of a local-only engine that has neighbours
configured; the step counter advances by 3 and nothing is exchanged. -/
theorem local_only_pass_through_witness :
    (IterateTS idleBase localOp (fun _ => scenarioRxB) (fun _ => scenarioRxA) 3 zeroEngine).map
        (fun r => (r.1.1.base.numTS, r.1.2, r.2)) = some (3, [], true) ∧
    (SendReceiveVoltages localOp scenarioRxB zeroEngine).map Prod.snd = some [] :=
  have h := local_only_pass_through idleBase localOp (fun _ => scenarioRxB)
    (fun _ => scenarioRxA) scenarioRxB 3 zeroEngine rfl
  ⟨by rw [h.1]; rfl, by rw [h.2.1]; rfl⟩

/-- C7: no-neighbour no-op.  When both links of an axis n are negative, a
returning SendReceiveVoltages or SendReceiveCurrents performs no event for
axis n: no get-field, no set-field, no send, no receive post and no wait.
When no axis has a neighbour, both calls return the engine unchanged and
perform no event at all. -/
theorem no_neighbour_no_op {α : Type} (op : Operator_MPI) (rx : Fin 3 → List α)
    (e : Engine_MPI α) :
    (∀ n, op.m_NeighborUp n < 0 → op.m_NeighborDown n < 0 →
      (∀ e1 tr, SendReceiveVoltages op rx e = some (e1, tr) → ∀ ev ∈ tr, ev.axis ≠ some n) ∧
      (∀ e1 tr, SendReceiveCurrents op rx e = some (e1, tr) → ∀ ev ∈ tr, ev.axis ≠ some n)) ∧
    ((∀ n, op.m_NeighborUp n < 0 ∧ op.m_NeighborDown n < 0) →
      SendReceiveVoltages op rx e = some (e, []) ∧
      SendReceiveCurrents op rx e = some (e, [])) := by
  refine ⟨fun n hu hd => ⟨fun e1 tr h => ?_, fun e1 tr h => ?_⟩, fun hall => ?_⟩
  · by_cases hen : op.MPIEnabled = true
    · exact exchangeTrace_silent _ _ tr (SendReceiveVoltages_trace op rx e e1 tr hen h) n
        (by simpa using hu) (by simpa using hd)
    · have hf : op.MPIEnabled = false := by simpa using hen
      rw [SendReceiveVoltages, if_pos hf] at h
      simp only [Option.some.injEq, Prod.mk.injEq] at h
      rw [← h.2]
      intro ev hev
      simp at hev
  · by_cases hen : op.MPIEnabled = true
    · exact exchangeTrace_silent _ _ tr (SendReceiveCurrents_trace op rx e e1 tr hen h) n
        (by simpa using hd) (by simpa using hu)
    · have hf : op.MPIEnabled = false := by simpa using hen
      rw [SendReceiveCurrents, if_pos hf] at h
      simp only [Option.some.injEq, Prod.mk.injEq] at h
      rw [← h.2]
      intro ev hev
      simp at hev
  · have hu : ∀ n, ¬ 0 ≤ op.m_NeighborUp n := fun n => by have := (hall n).1; omega
    have hd : ∀ n, ¬ 0 ≤ op.m_NeighborDown n := fun n => by have := (hall n).2; omega
    constructor
    · simp [SendReceiveVoltages, forLoop, postReceiveVoltages, exchangeVoltagesAxis,
        sendVoltages, receiveVoltages, hu, hd]
    · simp [SendReceiveCurrents, forLoop, postReceiveCurrents, exchangeCurrentsAxis,
        sendCurrents, receiveCurrents, hu, hd]

/-- Witness of C7: rank A of the scenario has no neighbour on the axes 0 and
1, and its voltage exchange performs events for axis 2 only. -/
theorem no_neighbour_no_op_witness :
    ∃ e1 tr,
      SendReceiveVoltages scenarioOpA noRx (Init idleBase scenarioOpA scenarioFieldsA) =
        some (e1, tr) ∧
      tr.length = 9 ∧ (∀ ev ∈ tr, ev.axis ≠ some 0) ∧ (∀ ev ∈ tr, ev.axis ≠ some 1) :=
  have h := no_neighbour_no_op scenarioOpA noRx (Init idleBase scenarioOpA scenarioFieldsA)
  ⟨_, _, some_runOf _ zeroEngine (by decide), by decide,
    (h.1 0 (by decide) (by decide)).1 _ _ (some_runOf _ zeroEngine (by decide)),
    (h.1 1 (by decide) (by decide)).1 _ _ (some_runOf _ zeroEngine (by decide))⟩

/-- C8: idempotent re-initialisation.  For every topology and extents the
buffer state after Init; Reset; Init is the buffer state after the first Init;
after Reset every buffer is absent and every size is zero; and a second Reset
leaves that buffer state unchanged. -/
theorem reinit_idempotent {α : Type} [Inhabited α] (B : BaseMethods α) (op : Operator_MPI)
    (e : Engine_MPI α) :
    bufferShape (Init B op (Reset B (Init B op e))) = bufferShape (Init B op e) ∧
    (∀ i, (Reset B (Init B op e)).m_BufferSize i = 0 ∧
      (Reset B (Init B op e)).m_BufferUp i = none ∧
      (Reset B (Init B op e)).m_BufferDown i = none) ∧
    (∀ s : Engine_MPI α, bufferShape (Reset B s) = fun _ => (0, none, none)) ∧
    (∀ s : Engine_MPI α, bufferShape (Reset B (Reset B s)) = bufferShape (Reset B s)) := by
  refine ⟨?_, fun i => ⟨rfl, rfl, rfl⟩, fun s => rfl, fun s => rfl⟩
  rw [bufferShape_Init, bufferShape_Init]

/-- Counterexample to C9 as stated, on three topologies that are invalid for
the local rank 0.  With the up link of axis 2 naming rank 0 itself, Init in
distributed mode leaves the up-buffer of axis 2 allocated for the 1x4 face,
and the voltage exchange then runs: it reads the last line of axis 2 and sends
the eight samples to rank 0.  With an extent of zero on axis 2, Init leaves the
same buffers, and pos[2] = numLines[2]-1 is 4294967295.  With an extent of zero
on axis 0, Init leaves an up-buffer of no float, and the voltage exchange then
runs and sends an empty message to rank 1. -/
theorem init_accepts_invalid_topology :
    (selfLinkedOp.MPIEnabled = true ∧ selfLinkedOp.m_NeighborUp 2 = 0 ∧
      bufferShape (Init idleBase selfLinkedOp scenarioFieldsA) 2 = (4, some 12, none) ∧
      (SendReceiveVoltages selfLinkedOp noRx (Init idleBase selfLinkedOp scenarioFieldsA)).map
          Prod.snd =
        some [Event.getVolt 2 0 (0, 0, 3), Event.getVolt 2 1 (0, 0, 3),
          Event.getVolt 2 0 (0, 1, 3), Event.getVolt 2 1 (0, 1, 3),
          Event.getVolt 2 0 (0, 2, 3), Event.getVolt 2 1 (0, 2, 3),
          Event.getVolt 2 0 (0, 3, 3), Event.getVolt 2 1 (0, 3, 3),
          Event.isend 2 0 8 7 [1065353216, 1073741824, 1065353216, 1073741824, 1065353216,
            1073741824, 1065353216, 1073741824]]) ∧
    (zeroExtentOp.MPIEnabled = true ∧ zeroExtentOp.numLines 2 = 0 ∧
      bufferShape (Init idleBase zeroExtentOp zeroEngine) 2 = (4, some 12, none) ∧
      usub1 (zeroExtentOp.numLines 2) = 4294967295) ∧
    (emptyFaceOp.MPIEnabled = true ∧ emptyFaceOp.numLines 0 = 0 ∧
      bufferShape (Init idleBase emptyFaceOp zeroEngine) 2 = (0, some 0, none) ∧
      (SendReceiveVoltages emptyFaceOp noRx (Init idleBase emptyFaceOp zeroEngine)).map
          Prod.snd = some [Event.isend 2 1 0 7 []]) := by
  decide

/-- C9, amended: Init in distributed mode does not check the topology.  For
every topology and all extents it runs the Init of the base engine and leaves
m_BufferSize[2] = numLines[0]*numLines[1] (unsigned), the up-buffer of axis 2
allocated with m_BufferSize[2]*3 floats exactly when m_NeighborUp[2] >= 0, the
down-buffer of axis 2 likewise exactly when m_NeighborDown[2] >= 0, and on the
axes 0 and 1 size zero and no buffer.  This buffer state depends on the
topology only through numLines[0], numLines[1] and the signs of the two links
of axis 2: a topology with a link that names the local rank itself, or with an
extent of zero, is initialised exactly like a valid topology that agrees with
it on these. -/
theorem init_ignores_validity {α : Type} [Inhabited α] (B : BaseMethods α)
    (op : Operator_MPI) (e : Engine_MPI α) (hen : op.MPIEnabled = true) :
    (Init B op e).base = B.Init e.base ∧
    (bufferShape (Init B op e) = fun i =>
      if i = 2 then
        ((op.numLines 0 * op.numLines 1) % UINT_MOD,
          (if 0 ≤ op.m_NeighborUp 2 then
            some (((op.numLines 0 * op.numLines 1) % UINT_MOD * 3) % UINT_MOD) else none),
          (if 0 ≤ op.m_NeighborDown 2 then
            some (((op.numLines 0 * op.numLines 1) % UINT_MOD * 3) % UINT_MOD) else none))
      else (0, none, none)) ∧
    (∀ (op1 : Operator_MPI) (e1 : Engine_MPI α), op1.MPIEnabled = true →
      op.numLines 0 = op1.numLines 0 → op.numLines 1 = op1.numLines 1 →
      (0 ≤ op.m_NeighborUp 2 ↔ 0 ≤ op1.m_NeighborUp 2) →
      (0 ≤ op.m_NeighborDown 2 ↔ 0 ≤ op1.m_NeighborDown 2) →
      bufferShape (Init B op e) = bufferShape (Init B op1 e1)) := by
  refine ⟨?_, ?_, fun op1 e1 hen1 hl0 hl1 hup hdown => ?_⟩
  · unfold Init
    rw [if_pos hen]
    by_cases hu : 0 ≤ op.m_NeighborUp 2 <;> by_cases hd : 0 ≤ op.m_NeighborDown 2 <;>
      simp [hu, hd]
  · rw [bufferShape_Init]
    simp only [hen, true_and]
  · rw [bufferShape_Init, bufferShape_Init, hl0, hl1, hen, hen1]
    simp only [hup, hdown]

/-- Witness of the amended C9: the topology selfLinkedOp, whose up link names
the local rank, the topology zeroExtentOp, whose extent of axis 2 is zero, and
the valid topology of rank A get the same buffers: size 4 and an up-buffer of
12 floats on axis 2. -/
theorem init_ignores_validity_witness :
    bufferShape (Init idleBase selfLinkedOp zeroEngine) 2 = (4, some 12, none) ∧
    bufferShape (Init idleBase selfLinkedOp zeroEngine) =
      bufferShape (Init idleBase scenarioOpA zeroEngine) ∧
    bufferShape (Init idleBase zeroExtentOp zeroEngine) =
      bufferShape (Init idleBase scenarioOpA zeroEngine) :=
  ⟨by rw [(init_ignores_validity idleBase selfLinkedOp zeroEngine rfl).2.1]; decide,
    (init_ignores_validity idleBase selfLinkedOp zeroEngine rfl).2.2 scenarioOpA zeroEngine rfl
      rfl rfl (by decide) (by decide),
    (init_ignores_validity idleBase zeroExtentOp zeroEngine rfl).2.2 scenarioOpA zeroEngine rfl
      rfl rfl (by decide) (by decide)⟩

end OpenEMS
